import Mathlib

/-!
Shallow embedding of the Pyxis reconciliation engine (`pyxis/pyxis.go`):
the data model, the replica caches and pending buffers, the per-repository
transactional sync (`syncRepo`, `syncImage`, `registerMissingCves`), and the
top-level driver (`syncRepos`, `Start`).

The store is modelled as in-memory tables with per-table id sequences; a
transaction is a copy of the store that replaces the committed store only on
commit.  External-catalog fetches and database write statements can fail:
fetch results live in the environment, and each write statement consults a
failure oracle indexed by a running write-statement counter.
-/

set_option linter.unusedVariables false

namespace Pyxis

/-- Modelled from the spec: `models.NotSet`, the default severity for CVE rows
not yet enriched (`app/base/models` is not under `src/`). -/
def notSet : Nat := 0

/-- Modelled from the spec: `models.Repository` (`app/base/models` is not under
`src/`); fields as used by `pyxis.go` and §3 of the spec.  Timestamps are
naturals; `id = 0` is GORM's "no assigned primary key yet" sentinel. -/
structure Repository where
  id : Nat
  pyxisID : String
  modifiedDate : Nat
  registry : String
  repository : String
deriving Repr, DecidableEq

/-- Modelled from the spec: `models.Image` (`app/base/models` is not under `src/`). -/
structure Image where
  id : Nat
  pyxisID : String
  modifiedDate : Nat
  digest : String
deriving Repr, DecidableEq

/-- Modelled from the spec: `models.Cve` (`app/base/models` is not under `src/`). -/
structure Cve where
  id : Nat
  name : String
  description : String
  severity : Nat
deriving Repr, DecidableEq

/-- Modelled from the spec: `models.ImageCve` association row. -/
structure ImageCve where
  imageID : Nat
  cveID : Nat
deriving Repr, DecidableEq

/-- Modelled from the spec: `models.RepositoryImage` association row. -/
structure RepositoryImage where
  repositoryID : Nat
  imageID : Nat
deriving Repr, DecidableEq

/-- The relational store: the five tables of §3 plus one id sequence per
entity table (inserts assign `next*ID` and bump it, as the database does). -/
structure Store where
  repos : List Repository
  images : List Image
  cves : List Cve
  imageCves : List ImageCve
  repoImages : List RepositoryImage
  nextRepoID : Nat
  nextImageID : Nat
  nextCveID : Nat
deriving Repr, DecidableEq

/-! ### Association lists (the Go `map`s) -/

/-- Lookup in an association list (`m[k]`, first entry with the key wins). -/
def alookup {κ α : Type} [DecidableEq κ] (k : κ) : List (κ × α) → Option α
  | [] => none
  | p :: rest => if p.1 = k then some p.2 else alookup k rest

/-- Insert-or-replace (`m[k] = v`). -/
def aupsert {κ α : Type} [DecidableEq κ] (k : κ) (v : α) : List (κ × α) → List (κ × α)
  | [] => [(k, v)]
  | p :: rest => if p.1 = k then (k, v) :: rest else p :: aupsert k v rest

/-- Deletion (`delete(m, k)`); removes the first entry with the key. -/
def aerase {κ α : Type} [DecidableEq κ] (k : κ) : List (κ × α) → List (κ × α)
  | [] => []
  | p :: rest => if p.1 = k then rest else p :: aerase k rest

/-- Build a Go map from a list of rows keyed by `key` (later rows win). -/
def buildMap {κ α : Type} [DecidableEq κ] (key : α → κ) (xs : List α) : List (κ × α) :=
  xs.foldl (fun m x => aupsert (key x) x m) []

/-! ### Caches, environment, transactions -/

/-- The package-level caches of `pyxis.go`: committed maps loaded at run start
and the pending maps filled during an in-flight transaction. -/
structure Caches where
  dbRepoMap : List (String × Repository)
  dbImageMap : List (String × Image)
  dbCveMap : List (String × Cve)
  dbImageMapPending : List (String × Image)
  dbCveMapPending : List (String × Cve)
deriving Repr, DecidableEq

/-- An external repository record as returned by the catalog. -/
structure ApiRepo where
  pyxisID : String
  registry : String
  repository : String
  modifiedDate : Nat
deriving Repr, DecidableEq

/-- An external image record as returned by the catalog. -/
structure ApiImage where
  pyxisID : String
  digest : String
  modifiedDate : Nat
deriving Repr, DecidableEq

/-- The run environment: external-catalog responses, the profile filter, the
write-statement failure oracle and (modelled from the spec) the bootstrap
failure of `dbConfigure`/`prepareMaps`. -/
structure Env where
  apiRepositories : Except String (List ApiRepo)
  apiRepoImages : String → String → Except String (List ApiImage)
  apiImageCves : String → Except String (List String)
  inProfile : String → String → Bool
  dbFailAt : Nat → Bool
  bootError : Option String

/-- The in-flight transaction context: the transaction-local view of the
store, the caches (whose pending halves are mutated mid-transaction), and the
running count of issued write statements. -/
structure TxCtx where
  store : Store
  caches : Caches
  writeOps : Nat
deriving Repr, DecidableEq

/-- One write statement: consult the failure oracle, then bump the counter. -/
def dbWrite (env : Env) (ops : Nat) : Except String Nat :=
  if env.dbFailAt ops then .error "db error" else .ok (ops + 1)

/-- Modelled from the spec: the cache bootstrap (`prepareMaps`, cache code is
not under `src/`) — bulk read of all Repository/Image/CVE rows into maps keyed
by pyxis id / digest / name, pending maps empty. -/
def prepareMaps (s : Store) : Caches :=
  { dbRepoMap := buildMap (fun r => r.pyxisID) s.repos
    dbImageMap := buildMap (fun i => i.digest) s.images
    dbCveMap := buildMap (fun c => c.name) s.cves
    dbImageMapPending := []
    dbCveMapPending := [] }

/-- Modelled from the spec: `flushPendingCache` — fold the pending entries
into the committed maps after a successful commit and clear the pending maps. -/
def flushPendingCache (c : Caches) : Caches :=
  { c with
    dbImageMap := c.dbImageMapPending.foldl (fun m p => aupsert p.1 p.2 m) c.dbImageMap
    dbCveMap := c.dbCveMapPending.foldl (fun m p => aupsert p.1 p.2 m) c.dbCveMap
    dbImageMapPending := []
    dbCveMapPending := [] }

/-- Modelled from the spec: `emptyPendingCache` — discard the pending entries
of a rolled-back transaction. -/
def emptyPendingCache (c : Caches) : Caches :=
  { c with dbImageMapPending := [], dbCveMapPending := [] }

/-- Modelled from the spec: the `getAPIRepoImages` adapter (not under `src/`)
returning the repository's images as a map keyed by digest. -/
def getAPIRepoImages (env : Env) (registry repository : String) :
    Except String (List (String × ApiImage)) :=
  match env.apiRepoImages registry repository with
  | .error e => .error e
  | .ok imgs => .ok (buildMap (fun i => i.digest) imgs)

/-- Modelled from the spec: the `getAPIImageCves` adapter (not under `src/`)
returning the image's CVE names as a set (duplicate-free list). -/
def getAPIImageCves (env : Env) (pyxisID : String) : Except String (List String) :=
  match env.apiImageCves pyxisID with
  | .error e => .error e
  | .ok names => .ok ((buildMap (fun n => n) names).map (fun p => p.1))

/-- Modelled from the spec: `getDbImageCves` — the stored (image, CVE) rows of
one image, keyed by CVE id (read inside the repository's transaction). -/
def getDbImageCves (s : Store) (imageID : Nat) : List (Nat × ImageCve) :=
  (s.imageCves.filter (fun ic => ic.imageID == imageID)).map (fun ic => (ic.cveID, ic))

/-- Modelled from the spec: `getDbRepositoryImages` — the stored (repository,
image) rows of one repository, keyed by image id. -/
def getDbRepositoryImages (s : Store) (repositoryID : Nat) : List (Nat × RepositoryImage) :=
  (s.repoImages.filter (fun ri => ri.repositoryID == repositoryID)).map (fun ri => (ri.imageID, ri))

/-! ### The reconciliation engine (`pyxis.go`) -/

/-- `pyxis.go:36-44`: the CVE names of the current image that are in neither
the committed nor the pending CVE cache, staged as fresh rows with id 0,
description "unknown" and severity NotSet. -/
def missingCveEntry (c : Caches) (cveName : String) : Option Cve :=
  match alookup cveName c.dbCveMap with
  | some _ => none
  | none =>
    match alookup cveName c.dbCveMapPending with
    | some _ => none
    | none => some { id := 0, name := cveName, description := "unknown", severity := notSet }

def missingCves (c : Caches) (apiImageCves : List String) : List Cve :=
  apiImageCves.filterMap (missingCveEntry c)

/-- Append a freshly inserted CVE row, assigning it the next CVE id. -/
def insertCveRow (s : Store) (cve : Cve) : Store :=
  { s with cves := s.cves ++ [{ cve with id := s.nextCveID }], nextCveID := s.nextCveID + 1 }

/-- `tx.Clauses(OnConflict{name, DoNothing}).Create(&toInsertCves)`: insert
each staged row whose name is not yet present, assigning it the next CVE id
(backfilled into the slice); a row whose name already exists is skipped — no
error and no duplicate — and its slice entry keeps id 0, since `DO NOTHING`
returns no assigned id for it. -/
def createCvesOnConflict (s : Store) : List Cve → Store × List Cve
  | [] => (s, [])
  | cve :: rest =>
    if s.cves.any (fun r => r.name == cve.name) then
      ((createCvesOnConflict s rest).1, cve :: (createCvesOnConflict s rest).2)
    else
      ((createCvesOnConflict (insertCveRow s cve) rest).1,
        { cve with id := s.nextCveID } :: (createCvesOnConflict (insertCveRow s cve) rest).2)

/-- `pyxis.go:35-62` `registerMissingCves`: batch-insert the missing CVE names
with the conflict-tolerant clause (one write statement, issued only when the
batch is non-empty), then add every staged row to the pending CVE cache. -/
def registerMissingCves (env : Env) (ctx : TxCtx) (apiImageCves : List String) :
    Except String TxCtx :=
  if (missingCves ctx.caches apiImageCves).isEmpty then .ok ctx
  else
    match dbWrite env ctx.writeOps with
    | .error e => .error e
    | .ok ops =>
      .ok { store := (createCvesOnConflict ctx.store (missingCves ctx.caches apiImageCves)).1
            caches := { ctx.caches with
                        dbCveMapPending :=
                          (createCvesOnConflict ctx.store (missingCves ctx.caches apiImageCves)).2.foldl
                            (fun m cve => aupsert cve.name cve m) ctx.caches.dbCveMapPending }
            writeOps := ops }

/-- `pyxis.go:96-101`: look a CVE name up in the committed cache, then in the
pending cache. -/
def resolveCve (c : Caches) (cveName : String) : Option Cve :=
  match alookup cveName c.dbCveMap with
  | some cve => some cve
  | none => alookup cveName c.dbCveMapPending

/-- `pyxis.go:94-108`: the (image, CVE) association delta — for each fetched
CVE name, resolve it (error "CVE not in cache" when it resolves nowhere); a
pair not yet stored is staged for insert, a stored pair is removed from the
map so that the map's leftover entries become the delete set. -/
def imageCveDelta (c : Caches) (imageID : Nat) :
    List String → List ImageCve → List (Nat × ImageCve) →
    Except String (List ImageCve × List (Nat × ImageCve))
  | [], toInsert, dbMap => .ok (toInsert, dbMap)
  | cveName :: rest, toInsert, dbMap =>
    match resolveCve c cveName with
    | none => .error ("CVE not in cache: " ++ cveName)
    | some cve =>
      match alookup cve.id dbMap with
      | none => imageCveDelta c imageID rest (toInsert ++ [{ imageID := imageID, cveID := cve.id }]) dbMap
      | some _ => imageCveDelta c imageID rest toInsert (aerase cve.id dbMap)

/-- `pyxis.go:65-74`: `tx.Create(&image)` when the image id is 0 — assign the
next image id, append the row, and record the created row in the pending image
cache — else `tx.Save(&image)`, replacing the row with that id. -/
def upsertImage (env : Env) (ctx : TxCtx) (image : Image) : Except String (TxCtx × Image) :=
  if image.id = 0 then
    match dbWrite env ctx.writeOps with
    | .error e => .error e
    | .ok ops =>
      let created := { image with id := ctx.store.nextImageID }
      .ok ({ store := { ctx.store with
                        images := ctx.store.images ++ [created]
                        nextImageID := ctx.store.nextImageID + 1 }
             caches := { ctx.caches with
                         dbImageMapPending := aupsert created.digest created ctx.caches.dbImageMapPending }
             writeOps := ops }, created)
  else
    match dbWrite env ctx.writeOps with
    | .error e => .error e
    | .ok ops =>
      .ok ({ ctx with
             store := { ctx.store with
                        images := ctx.store.images.map (fun r => if r.id = image.id then image else r) }
             writeOps := ops }, image)

/-- `pyxis.go:118-128` (insert half): batch-insert the (image, CVE) pairs —
one write statement, skipped when the batch is empty. -/
def insertImageCves (env : Env) (ctx : TxCtx) (toInsertImageCves : List ImageCve) :
    Except String TxCtx :=
  if toInsertImageCves.isEmpty then .ok ctx
  else
    match dbWrite env ctx.writeOps with
    | .error e => .error e
    | .ok ops =>
      .ok { ctx with
            store := { ctx.store with imageCves := ctx.store.imageCves ++ toInsertImageCves }
            writeOps := ops }

/-- `pyxis.go:124-128` (delete half): batch-delete the (image, CVE) pairs —
one write statement, skipped when the batch is empty. -/
def deleteImageCvesStage (env : Env) (ctx : TxCtx) (toDeleteImageCves : List ImageCve) :
    Except String TxCtx :=
  if toDeleteImageCves.isEmpty then .ok ctx
  else
    match dbWrite env ctx.writeOps with
    | .error e => .error e
    | .ok ops =>
      .ok { ctx with
            store := { ctx.store with
                       imageCves := ctx.store.imageCves.filter
                         (fun ic => !decide (ic ∈ toDeleteImageCves)) }
            writeOps := ops }

/-- `pyxis.go:118-128`: batch-insert then batch-delete the (image, CVE) pairs. -/
def applyImageCveWrites (env : Env) (ctx : TxCtx)
    (toInsertImageCves : List ImageCve) (toDeleteImageCves : List ImageCve) :
    Except String TxCtx :=
  match insertImageCves env ctx toInsertImageCves with
  | .error e => .error e
  | .ok ctx => deleteImageCvesStage env ctx toDeleteImageCves

/-- `pyxis.go:64-131` `syncImage`: create or save the image row; fetch its CVE
names; register the missing CVEs; compute the (image, CVE) delta; then apply
the batch insert and batch delete. -/
def syncImage (env : Env) (ctx : TxCtx) (image : Image) : Except String TxCtx :=
  match upsertImage env ctx image with
  | .error e => .error e
  | .ok up =>
    match getAPIImageCves env up.2.pyxisID with
    | .error e => .error e
    | .ok apiImageCves =>
      match registerMissingCves env up.1 apiImageCves with
      | .error e => .error e
      | .ok ctx =>
        match imageCveDelta ctx.caches up.2.id apiImageCves [] (getDbImageCves ctx.store up.2.id) with
        | .error e => .error e
        | .ok delta =>
          applyImageCveWrites env ctx delta.1 (delta.2.map (fun p => p.2))

/-- `pyxis.go:162-163`: the fresh row staged for an unknown digest. -/
def stagedNewImage (apiImage : ApiImage) : Image :=
  { id := 0, pyxisID := apiImage.pyxisID, modifiedDate := apiImage.modifiedDate,
    digest := apiImage.digest }

/-- `pyxis.go:165-167`: the cached row re-staged with the updated fields. -/
def stagedUpdImage (dbImage : Image) (apiImage : ApiImage) : Image :=
  { dbImage with pyxisID := apiImage.pyxisID, modifiedDate := apiImage.modifiedDate }

/-- `pyxis.go:160-169`: stage the repository's fetched images — a digest absent
from the committed image cache becomes a fresh row (id 0); a cached digest is
re-staged with updated fields exactly when its external timestamp is strictly
newer; otherwise it is skipped. -/
def stageImages (c : Caches) : List (String × ApiImage) → List Image
  | [] => []
  | (digest, apiImage) :: rest =>
    match alookup digest c.dbImageMap with
    | none => stagedNewImage apiImage :: stageImages c rest
    | some dbImage =>
      if dbImage.modifiedDate < apiImage.modifiedDate then
        stagedUpdImage dbImage apiImage :: stageImages c rest
      else stageImages c rest

/-- `pyxis.go:173-178`: run `syncImage` for every staged image, aborting on the
first error. -/
def syncImages (env : Env) : TxCtx → List Image → Except String TxCtx
  | ctx, [] => .ok ctx
  | ctx, image :: rest =>
    match syncImage env ctx image with
    | .error e => .error e
    | .ok ctx => syncImages env ctx rest

/-- `pyxis.go:192-198`: look a digest up in the committed image cache, then in
the pending image cache. -/
def resolveImage (c : Caches) (digest : String) : Option Image :=
  match alookup digest c.dbImageMap with
  | some image => some image
  | none => alookup digest c.dbImageMapPending

/-- `pyxis.go:191-210`: the (repository, image) association delta, mirroring
`imageCveDelta` with digests resolved to images. -/
def repoImageDelta (c : Caches) (repositoryID : Nat) :
    List String → List RepositoryImage → List (Nat × RepositoryImage) →
    Except String (List RepositoryImage × List (Nat × RepositoryImage))
  | [], toInsert, dbMap => .ok (toInsert, dbMap)
  | digest :: rest, toInsert, dbMap =>
    match resolveImage c digest with
    | none => .error ("Image not in cache: " ++ digest)
    | some image =>
      match alookup image.id dbMap with
      | none => repoImageDelta c repositoryID rest
          (toInsert ++ [{ repositoryID := repositoryID, imageID := image.id }]) dbMap
      | some _ => repoImageDelta c repositoryID rest toInsert (aerase image.id dbMap)

/-- `pyxis.go:143-151`: `tx.Create(&repo)` when the repository id is 0 —
assign the next repository id and append the row — else `tx.Save(&repo)`,
replacing the row with that id. -/
def upsertRepo (env : Env) (repo : Repository) (committed : Store) (caches : Caches)
    (writeOps : Nat) : Except String (TxCtx × Repository) :=
  if repo.id = 0 then
    match dbWrite env writeOps with
    | .error e => .error e
    | .ok ops =>
      let created := { repo with id := committed.nextRepoID }
      .ok ({ store := { committed with
                        repos := committed.repos ++ [created]
                        nextRepoID := committed.nextRepoID + 1 }
             caches := caches, writeOps := ops }, created)
  else
    match dbWrite env writeOps with
    | .error e => .error e
    | .ok ops =>
      .ok ({ store := { committed with
                        repos := committed.repos.map (fun r => if r.id = repo.id then repo else r) }
             caches := caches, writeOps := ops }, repo)

/-- `pyxis.go:215-219`: batch-insert the (repository, image) pairs — one
write statement, skipped when the batch is empty. -/
def insertRepositoryImages (env : Env) (ctx : TxCtx)
    (toInsertRepositoryImages : List RepositoryImage) : Except String TxCtx :=
  if toInsertRepositoryImages.isEmpty then .ok ctx
  else
    match dbWrite env ctx.writeOps with
    | .error e => .error e
    | .ok ops =>
      .ok { ctx with
            store := { ctx.store with
                       repoImages := ctx.store.repoImages ++ toInsertRepositoryImages }
            writeOps := ops }

/-- `pyxis.go:221-225`: batch-delete the (repository, image) pairs — one
write statement, skipped when the batch is empty. -/
def deleteRepositoryImagesStage (env : Env) (ctx : TxCtx)
    (toDeleteRepositoryImages : List RepositoryImage) : Except String TxCtx :=
  if toDeleteRepositoryImages.isEmpty then .ok ctx
  else
    match dbWrite env ctx.writeOps with
    | .error e => .error e
    | .ok ops =>
      .ok { ctx with
            store := { ctx.store with
                       repoImages := ctx.store.repoImages.filter
                         (fun ri => !decide (ri ∈ toDeleteRepositoryImages)) }
            writeOps := ops }

/-- `pyxis.go:215-225`: batch-insert then batch-delete the (repository, image)
pairs. -/
def applyRepoImageWrites (env : Env) (ctx : TxCtx)
    (toInsertRepositoryImages : List RepositoryImage)
    (toDeleteRepositoryImages : List RepositoryImage) : Except String TxCtx :=
  match insertRepositoryImages env ctx toInsertRepositoryImages with
  | .error e => .error e
  | .ok ctx => deleteRepositoryImagesStage env ctx toDeleteRepositoryImages

/-- `pyxis.go:133-228` `syncRepo`: inside one transaction — upsert the
repository row, fetch its image set, stage and sync the new/modified images,
compute the (repository, image) delta, and apply the batch insert and batch
delete.  Returning `.ok` is the commit; any `.error` leaves the transaction
uncommitted, so the caller keeps the pre-transaction store. -/
def syncRepo (env : Env) (repo : Repository) (committed : Store) (caches : Caches)
    (writeOps : Nat) : Except String TxCtx :=
  match upsertRepo env repo committed caches writeOps with
  | .error e => .error e
  | .ok up =>
    match getAPIRepoImages env up.2.registry up.2.repository with
    | .error e => .error e
    | .ok apiRepoImages =>
      match syncImages env up.1 (stageImages up.1.caches apiRepoImages) with
      | .error e => .error e
      | .ok ctx =>
        match repoImageDelta ctx.caches up.2.id (apiRepoImages.map (fun p => p.1)) []
          (getDbRepositoryImages ctx.store up.2.id) with
        | .error e => .error e
        | .ok delta =>
          applyRepoImageWrites env ctx delta.1 (delta.2.map (fun p => p.2))

/-- `pyxis.go:243-244`: the fresh row staged for an unknown pyxis id. -/
def stagedNewRepo (apiRepo : ApiRepo) : Repository :=
  { id := 0, pyxisID := apiRepo.pyxisID, modifiedDate := apiRepo.modifiedDate,
    registry := apiRepo.registry, repository := apiRepo.repository }

/-- `pyxis.go:246-248`: the cached row re-staged with the updated fields. -/
def stagedUpdRepo (dbRepo : Repository) (apiRepo : ApiRepo) : Repository :=
  { dbRepo with
    modifiedDate := apiRepo.modifiedDate
    registry := apiRepo.registry
    repository := apiRepo.repository }

/-- `pyxis.go:239-254`: stage the fetched repositories — skip the ones outside
the profile; a pyxis id absent from the committed repository cache becomes a
fresh row (id 0); a cached one is re-staged with updated fields exactly when
its external timestamp is strictly newer (and removed from the map for the
leftover count), otherwise only removed from the map. -/
def stageRepos (env : Env) : List (String × ApiRepo) → Caches → List Repository × Caches
  | [], c => ([], c)
  | (pyxisID, apiRepo) :: rest, c =>
    if env.inProfile apiRepo.registry apiRepo.repository then
      match alookup pyxisID c.dbRepoMap with
      | none =>
        (stagedNewRepo apiRepo :: (stageRepos env rest c).1, (stageRepos env rest c).2)
      | some dbRepo =>
        if dbRepo.modifiedDate < apiRepo.modifiedDate then
          (stagedUpdRepo dbRepo apiRepo ::
              (stageRepos env rest { c with dbRepoMap := aerase pyxisID c.dbRepoMap }).1,
            (stageRepos env rest { c with dbRepoMap := aerase pyxisID c.dbRepoMap }).2)
        else stageRepos env rest { c with dbRepoMap := aerase pyxisID c.dbRepoMap }
    else stageRepos env rest c

/-- The mutable state threaded through the driver: the committed store, the
caches and the count of issued write statements. -/
structure RunState where
  store : Store
  caches : Caches
  writeOps : Nat
deriving Repr, DecidableEq

/-- `pyxis.go:265-273` (one iteration): run one repository's sync; on commit,
install the transaction's store and fold the pending caches; on failure, keep
the committed store and discard the pending caches. -/
def processRepo (env : Env) (repo : Repository) (s : RunState) : RunState :=
  match syncRepo env repo s.store s.caches s.writeOps with
  | .ok ctx => { store := ctx.store, caches := flushPendingCache ctx.caches, writeOps := ctx.writeOps }
  | .error _ => { s with caches := emptyPendingCache s.caches }

/-- `pyxis.go:265-273`: process the staged repositories in order; a failed
repository is logged and skipped, the loop continues. -/
def syncLoop (env : Env) : List Repository → RunState → RunState
  | [], s => s
  | repo :: rest, s => syncLoop env rest (processRepo env repo s)

/-- `pyxis.go:230-274` `syncRepos`: enumerate the external repositories (a
failure here is fatal to the run), stage the in-profile new/modified ones, and
sync them one by one. -/
def syncRepos (env : Env) (s : RunState) : Except String RunState :=
  match env.apiRepositories with
  | .error e => .error e
  | .ok repoList =>
    let apiRepoMap := buildMap (fun r => r.pyxisID) repoList
    let staged := stageRepos env apiRepoMap s.caches
    .ok (syncLoop env staged.1 { s with caches := staged.2 })

/-- `pyxis.go:276-293` `Start`: bootstrap the connection and the caches (a
failure here is fatal to the run), then sync. -/
def start (env : Env) (s : Store) : Except String RunState :=
  match env.bootError with
  | some e => .error e
  | none => syncRepos env { store := s, caches := prepareMaps s, writeOps := 0 }

/-! ### Association-list lemmas -/

section AListLemmas

variable {κ α : Type} [DecidableEq κ]

/-- The keys of an association list. -/
def akeys (m : List (κ × α)) : List κ := m.map Prod.fst

@[simp] theorem alookup_nil (k : κ) : alookup (α := α) k [] = none := rfl

theorem alookup_cons (k : κ) (p : κ × α) (m : List (κ × α)) :
    alookup k (p :: m) = if p.1 = k then some p.2 else alookup k m := rfl

theorem alookup_mem {k : κ} {m : List (κ × α)} {v : α} (h : alookup k m = some v) :
    (k, v) ∈ m := by
  induction m with
  | nil => simp [alookup] at h
  | cons p rest ih =>
    rw [alookup_cons] at h
    by_cases hk : p.1 = k
    · rw [if_pos hk] at h
      have hp : p = (k, v) := by
        cases p
        simp_all
      rw [← hp]
      exact List.mem_cons_self _ _
    · rw [if_neg hk] at h
      exact List.mem_cons_of_mem _ (ih h)

theorem alookup_eq_none_iff {k : κ} {m : List (κ × α)} :
    alookup k m = none ↔ ∀ p ∈ m, p.1 ≠ k := by
  induction m with
  | nil => simp
  | cons p rest ih =>
    rw [alookup_cons]
    by_cases hk : p.1 = k <;> simp [hk, ih]

theorem alookup_isSome_iff {k : κ} {m : List (κ × α)} :
    (alookup k m).isSome ↔ ∃ p ∈ m, p.1 = k := by
  rw [Option.isSome_iff_ne_none]
  rw [ne_eq, alookup_eq_none_iff]
  push_neg
  rfl

theorem alookup_aupsert_self (k : κ) (v : α) (m : List (κ × α)) :
    alookup k (aupsert k v m) = some v := by
  induction m with
  | nil => simp [aupsert, alookup]
  | cons p rest ih =>
    rw [aupsert]
    by_cases hk : p.1 = k <;> simp [hk, alookup_cons, ih]

theorem alookup_aupsert_ne {k k' : κ} (hne : k' ≠ k) (v : α) (m : List (κ × α)) :
    alookup k' (aupsert k v m) = alookup k' m := by
  induction m with
  | nil => simp [aupsert, alookup, Ne.symm hne]
  | cons p rest ih =>
    rw [aupsert]
    by_cases hk : p.1 = k
    · simp [hk, alookup_cons, Ne.symm hne, hk ▸ hne]
    · rw [if_neg hk, alookup_cons, alookup_cons, ih]

theorem mem_aupsert {p : κ × α} {k : κ} {v : α} {m : List (κ × α)}
    (h : p ∈ aupsert k v m) : p = (k, v) ∨ p ∈ m := by
  induction m with
  | nil => simpa [aupsert] using h
  | cons q rest ih =>
    rw [aupsert] at h
    by_cases hk : q.1 = k
    · simp only [if_pos hk, List.mem_cons] at h
      rcases h with h | h
      · exact Or.inl h
      · exact Or.inr (List.mem_cons_of_mem _ h)
    · simp only [if_neg hk, List.mem_cons] at h
      rcases h with h | h
      · exact Or.inr (h ▸ List.mem_cons_self _ _)
      · rcases ih h with h' | h'
        · exact Or.inl h'
        · exact Or.inr (List.mem_cons_of_mem _ h')

theorem aerase_sublist (k : κ) (m : List (κ × α)) : (aerase k m).Sublist m := by
  induction m with
  | nil => simp [aerase]
  | cons p rest ih =>
    rw [aerase]
    by_cases hk : p.1 = k
    · rw [if_pos hk]
      exact List.sublist_cons_self p rest
    · rw [if_neg hk]
      exact List.Sublist.cons₂ p ih

theorem mem_aerase {p : κ × α} {k : κ} {m : List (κ × α)} (h : p ∈ aerase k m) : p ∈ m :=
  (aerase_sublist k m).mem h

theorem alookup_aerase_ne {k k' : κ} (hne : k' ≠ k) (m : List (κ × α)) :
    alookup k' (aerase k m) = alookup k' m := by
  induction m with
  | nil => simp [aerase]
  | cons p rest ih =>
    rw [aerase]
    by_cases hk : p.1 = k
    · rw [if_pos hk, alookup_cons, if_neg (by rw [hk]; exact Ne.symm hne)]
    · rw [if_neg hk, alookup_cons, alookup_cons, ih]

theorem alookup_aerase_self {k : κ} {m : List (κ × α)} (h : (akeys m).Nodup) :
    alookup k (aerase k m) = none := by
  induction m with
  | nil => simp [aerase]
  | cons p rest ih =>
    simp only [akeys, List.map_cons, List.nodup_cons] at h
    rw [aerase]
    by_cases hk : p.1 = k
    · rw [if_pos hk, alookup_eq_none_iff]
      intro q hq hqk
      exact h.1 (by rw [hk, ← hqk]; exact List.mem_map_of_mem Prod.fst hq)
    · rw [if_neg hk, alookup_cons, if_neg hk]
      exact ih h.2

theorem akeys_aerase_nodup {k : κ} {m : List (κ × α)} (h : (akeys m).Nodup) :
    (akeys (aerase k m)).Nodup :=
  ((aerase_sublist k m).map Prod.fst).nodup h

theorem akeys_aupsert_nodup {k : κ} {v : α} {m : List (κ × α)} (h : (akeys m).Nodup) :
    (akeys (aupsert k v m)).Nodup := by
  induction m with
  | nil => simp [aupsert, akeys]
  | cons p rest ih =>
    simp only [akeys, List.map_cons, List.nodup_cons] at h
    by_cases hk : p.1 = k
    · rw [aupsert, if_pos hk]
      simp only [akeys, List.map_cons, List.nodup_cons]
      exact ⟨by rw [← hk]; exact h.1, h.2⟩
    · rw [aupsert, if_neg hk]
      simp only [akeys, List.map_cons, List.nodup_cons]
      constructor
      · intro hmem
        rcases List.mem_map.mp hmem with ⟨q, hq, hqk⟩
        rcases mem_aupsert hq with h' | h'
        · exact hk (by rw [← hqk, h'])
        · exact h.1 (hqk ▸ List.mem_map_of_mem Prod.fst h')
      · exact ih h.2

end AListLemmas

section BuildMapLemmas

variable {κ α : Type} [DecidableEq κ]

/-- The fold underlying `buildMap`, with an explicit accumulator. -/
theorem alookup_foldl_aupsert_of_some {key : α → κ} {k : κ} {v : α} :
    ∀ (xs : List α) (m : List (κ × α)),
      alookup k (xs.foldl (fun m x => aupsert (key x) x m) m) = some v →
      (v ∈ xs ∧ key v = k) ∨ alookup k m = some v := by
  intro xs
  induction xs with
  | nil => intro m h; exact Or.inr h
  | cons x rest ih =>
    intro m h
    rcases ih (aupsert (key x) x m) h with h' | h'
    · exact Or.inl ⟨List.mem_cons_of_mem x h'.1, h'.2⟩
    · by_cases hk : key x = k
      · rw [← hk, alookup_aupsert_self] at h'
        have hxv : x = v := Option.some_inj.mp h'
        subst hxv
        exact Or.inl ⟨List.mem_cons_self x rest, hk⟩
      · rw [alookup_aupsert_ne (fun h'' => hk h''.symm)] at h'
        exact Or.inr h'

theorem alookup_foldl_aupsert_eq_none_iff {key : α → κ} {k : κ} :
    ∀ (xs : List α) (m : List (κ × α)),
      alookup k (xs.foldl (fun m x => aupsert (key x) x m) m) = none ↔
      alookup k m = none ∧ ∀ x ∈ xs, key x ≠ k := by
  intro xs
  induction xs with
  | nil => simp
  | cons x rest ih =>
    intro m
    rw [List.foldl_cons, ih]
    by_cases hk : key x = k
    · rw [← hk, alookup_aupsert_self]
      simp [hk]
    · rw [alookup_aupsert_ne (fun h'' => hk h''.symm)]
      constructor
      · rintro ⟨h1, h2⟩
        exact ⟨h1, by
          intro y hy
          rcases List.mem_cons.mp hy with rfl | hy'
          · exact hk
          · exact h2 y hy'⟩
      · rintro ⟨h1, h2⟩
        exact ⟨h1, fun y hy => h2 y (List.mem_cons_of_mem x hy)⟩

theorem alookup_buildMap_of_some {key : α → κ} {k : κ} {v : α} {xs : List α}
    (h : alookup k (buildMap key xs) = some v) : v ∈ xs ∧ key v = k := by
  rcases alookup_foldl_aupsert_of_some xs [] h with h' | h'
  · exact h'
  · simp [alookup] at h'

theorem alookup_buildMap_eq_none_iff {key : α → κ} {k : κ} {xs : List α} :
    alookup k (buildMap key xs) = none ↔ ∀ x ∈ xs, key x ≠ k := by
  rw [buildMap, alookup_foldl_aupsert_eq_none_iff]
  simp

theorem alookup_buildMap_isSome {key : α → κ} {x : α} {xs : List α} (hx : x ∈ xs) :
    (alookup (key x) (buildMap key xs)).isSome := by
  rw [Option.isSome_iff_ne_none]
  intro h
  exact (alookup_buildMap_eq_none_iff.mp h) x hx rfl

theorem mem_buildMap {key : α → κ} {p : κ × α} :
    ∀ {xs : List α}, p ∈ buildMap key xs → p.2 ∈ xs ∧ key p.2 = p.1 := by
  have general : ∀ (xs : List α) (m : List (κ × α)),
      p ∈ xs.foldl (fun m x => aupsert (key x) x m) m →
      (p.2 ∈ xs ∧ key p.2 = p.1) ∨ p ∈ m := by
    intro xs
    induction xs with
    | nil => intro m h; exact Or.inr h
    | cons x rest ih =>
      intro m h
      rcases ih (aupsert (key x) x m) h with h' | h'
      · exact Or.inl ⟨List.mem_cons_of_mem x h'.1, h'.2⟩
      · rcases mem_aupsert h' with h'' | h''
        · exact Or.inl ⟨by rw [h'']; exact List.mem_cons_self x rest, by rw [h'']⟩
        · exact Or.inr h''
  intro xs h
  rcases general xs [] h with h' | h'
  · exact h'
  · simp at h'

theorem akeys_buildMap_nodup {key : α → κ} {xs : List α} :
    (akeys (buildMap key xs)).Nodup := by
  have general : ∀ (xs : List α) (m : List (κ × α)),
      (akeys m).Nodup → (akeys (xs.foldl (fun m x => aupsert (key x) x m) m)).Nodup := by
    intro xs
    induction xs with
    | nil => intro m h; exact h
    | cons x rest ih => intro m h; exact ih _ (akeys_aupsert_nodup h)
  exact general xs [] (by simp [akeys])

end BuildMapLemmas

/-! ### Structural elimination lemmas for the engine stages -/

theorem registerMissingCves_ok_elim {env : Env} {ctx : TxCtx} {names : List String} {ctx' : TxCtx}
    (h : registerMissingCves env ctx names = .ok ctx') :
    ((missingCves ctx.caches names).isEmpty = true ∧ ctx' = ctx) ∨
    ((missingCves ctx.caches names).isEmpty = false ∧
      ∃ ops, dbWrite env ctx.writeOps = .ok ops ∧
        ctx' = { store := (createCvesOnConflict ctx.store (missingCves ctx.caches names)).1
                 caches := { ctx.caches with
                             dbCveMapPending :=
                               (createCvesOnConflict ctx.store (missingCves ctx.caches names)).2.foldl
                                 (fun m cve => aupsert cve.name cve m) ctx.caches.dbCveMapPending }
                 writeOps := ops }) := by
  unfold registerMissingCves at h
  split at h
  next hemp =>
    cases h
    exact Or.inl ⟨hemp, rfl⟩
  next hemp =>
    split at h
    next e heq => cases h
    next ops heq =>
      cases h
      exact Or.inr ⟨Bool.eq_false_iff.mpr hemp, ops, heq, rfl⟩

theorem upsertImage_ok_elim {env : Env} {ctx : TxCtx} {image : Image} {up : TxCtx × Image}
    (h : upsertImage env ctx image = .ok up) :
    ∃ ops, dbWrite env ctx.writeOps = .ok ops ∧
      ((image.id = 0 ∧
        up = ({ store := { ctx.store with
                           images := ctx.store.images ++ [{ image with id := ctx.store.nextImageID }]
                           nextImageID := ctx.store.nextImageID + 1 }
                caches := { ctx.caches with
                            dbImageMapPending := aupsert image.digest { image with id := ctx.store.nextImageID }
                              ctx.caches.dbImageMapPending }
                writeOps := ops }, { image with id := ctx.store.nextImageID })) ∨
       (image.id ≠ 0 ∧
        up = ({ ctx with
                store := { ctx.store with
                           images := ctx.store.images.map (fun r => if r.id = image.id then image else r) }
                writeOps := ops }, image))) := by
  unfold upsertImage at h
  split at h
  next h0 =>
    split at h
    next e heq => cases h
    next ops heq =>
      cases h
      exact ⟨ops, heq, Or.inl ⟨h0, rfl⟩⟩
  next h0 =>
    split at h
    next e heq => cases h
    next ops heq =>
      cases h
      exact ⟨ops, heq, Or.inr ⟨h0, rfl⟩⟩

theorem upsertRepo_ok_elim {env : Env} {repo : Repository} {committed : Store} {caches : Caches}
    {writeOps : Nat} {up : TxCtx × Repository}
    (h : upsertRepo env repo committed caches writeOps = .ok up) :
    ∃ ops, dbWrite env writeOps = .ok ops ∧
      ((repo.id = 0 ∧
        up = ({ store := { committed with
                           repos := committed.repos ++ [{ repo with id := committed.nextRepoID }]
                           nextRepoID := committed.nextRepoID + 1 }
                caches := caches, writeOps := ops }, { repo with id := committed.nextRepoID })) ∨
       (repo.id ≠ 0 ∧
        up = ({ store := { committed with
                           repos := committed.repos.map (fun r => if r.id = repo.id then repo else r) }
                caches := caches, writeOps := ops }, repo))) := by
  unfold upsertRepo at h
  split at h
  next h0 =>
    split at h
    next e heq => cases h
    next ops heq =>
      cases h
      exact ⟨ops, heq, Or.inl ⟨h0, rfl⟩⟩
  next h0 =>
    split at h
    next e heq => cases h
    next ops heq =>
      cases h
      exact ⟨ops, heq, Or.inr ⟨h0, rfl⟩⟩

theorem insertImageCves_ok_elim {env : Env} {ctx : TxCtx} {ins : List ImageCve} {ctx' : TxCtx}
    (h : insertImageCves env ctx ins = .ok ctx') :
    (ins.isEmpty = true ∧ ctx' = ctx) ∨
    ∃ ops, dbWrite env ctx.writeOps = .ok ops ∧
      ctx' = { ctx with
               store := { ctx.store with imageCves := ctx.store.imageCves ++ ins }
               writeOps := ops } := by
  unfold insertImageCves at h
  split at h
  next hemp =>
    cases h
    exact Or.inl ⟨hemp, rfl⟩
  next hemp =>
    split at h
    next e heq => cases h
    next ops heq =>
      cases h
      exact Or.inr ⟨ops, heq, rfl⟩

theorem deleteImageCvesStage_ok_elim {env : Env} {ctx : TxCtx} {del : List ImageCve} {ctx' : TxCtx}
    (h : deleteImageCvesStage env ctx del = .ok ctx') :
    (del.isEmpty = true ∧ ctx' = ctx) ∨
    ∃ ops, dbWrite env ctx.writeOps = .ok ops ∧
      ctx' = { ctx with
               store := { ctx.store with
                          imageCves := ctx.store.imageCves.filter (fun ic => !decide (ic ∈ del)) }
               writeOps := ops } := by
  unfold deleteImageCvesStage at h
  split at h
  next hemp =>
    cases h
    exact Or.inl ⟨hemp, rfl⟩
  next hemp =>
    split at h
    next e heq => cases h
    next ops heq =>
      cases h
      exact Or.inr ⟨ops, heq, rfl⟩

theorem applyImageCveWrites_ok_elim {env : Env} {ctx : TxCtx} {ins del : List ImageCve} {ctx' : TxCtx}
    (h : applyImageCveWrites env ctx ins del = .ok ctx') :
    ∃ ctx₁, insertImageCves env ctx ins = .ok ctx₁ ∧ deleteImageCvesStage env ctx₁ del = .ok ctx' := by
  unfold applyImageCveWrites at h
  split at h
  next e heq => cases h
  next ctx₁ heq => exact ⟨ctx₁, heq, h⟩

theorem insertRepositoryImages_ok_elim {env : Env} {ctx : TxCtx} {ins : List RepositoryImage}
    {ctx' : TxCtx} (h : insertRepositoryImages env ctx ins = .ok ctx') :
    (ins.isEmpty = true ∧ ctx' = ctx) ∨
    ∃ ops, dbWrite env ctx.writeOps = .ok ops ∧
      ctx' = { ctx with
               store := { ctx.store with repoImages := ctx.store.repoImages ++ ins }
               writeOps := ops } := by
  unfold insertRepositoryImages at h
  split at h
  next hemp =>
    cases h
    exact Or.inl ⟨hemp, rfl⟩
  next hemp =>
    split at h
    next e heq => cases h
    next ops heq =>
      cases h
      exact Or.inr ⟨ops, heq, rfl⟩

theorem deleteRepositoryImagesStage_ok_elim {env : Env} {ctx : TxCtx} {del : List RepositoryImage}
    {ctx' : TxCtx} (h : deleteRepositoryImagesStage env ctx del = .ok ctx') :
    (del.isEmpty = true ∧ ctx' = ctx) ∨
    ∃ ops, dbWrite env ctx.writeOps = .ok ops ∧
      ctx' = { ctx with
               store := { ctx.store with
                          repoImages := ctx.store.repoImages.filter (fun ri => !decide (ri ∈ del)) }
               writeOps := ops } := by
  unfold deleteRepositoryImagesStage at h
  split at h
  next hemp =>
    cases h
    exact Or.inl ⟨hemp, rfl⟩
  next hemp =>
    split at h
    next e heq => cases h
    next ops heq =>
      cases h
      exact Or.inr ⟨ops, heq, rfl⟩

theorem applyRepoImageWrites_ok_elim {env : Env} {ctx : TxCtx} {ins del : List RepositoryImage}
    {ctx' : TxCtx} (h : applyRepoImageWrites env ctx ins del = .ok ctx') :
    ∃ ctx₁, insertRepositoryImages env ctx ins = .ok ctx₁ ∧
      deleteRepositoryImagesStage env ctx₁ del = .ok ctx' := by
  unfold applyRepoImageWrites at h
  split at h
  next e heq => cases h
  next ctx₁ heq => exact ⟨ctx₁, heq, h⟩

theorem syncImage_ok_elim {env : Env} {ctx : TxCtx} {image : Image} {ctx' : TxCtx}
    (h : syncImage env ctx image = .ok ctx') :
    ∃ up names ctx₂ delta,
      upsertImage env ctx image = .ok up ∧
      getAPIImageCves env up.2.pyxisID = .ok names ∧
      registerMissingCves env up.1 names = .ok ctx₂ ∧
      imageCveDelta ctx₂.caches up.2.id names [] (getDbImageCves ctx₂.store up.2.id) = .ok delta ∧
      applyImageCveWrites env ctx₂ delta.1 (delta.2.map (fun p => p.2)) = .ok ctx' := by
  unfold syncImage at h
  split at h
  next e heq => cases h
  next up heq =>
    split at h
    next e heq2 => cases h
    next names heq2 =>
      split at h
      next e heq3 => cases h
      next ctx₂ heq3 =>
        split at h
        next e heq4 => cases h
        next delta heq4 =>
          exact ⟨up, names, ctx₂, delta, heq, heq2, heq3, heq4, h⟩

theorem syncRepo_ok_elim {env : Env} {repo : Repository} {committed : Store} {caches : Caches}
    {writeOps : Nat} {ctx' : TxCtx}
    (h : syncRepo env repo committed caches writeOps = .ok ctx') :
    ∃ up am ctx₂ delta,
      upsertRepo env repo committed caches writeOps = .ok up ∧
      getAPIRepoImages env up.2.registry up.2.repository = .ok am ∧
      syncImages env up.1 (stageImages up.1.caches am) = .ok ctx₂ ∧
      repoImageDelta ctx₂.caches up.2.id (am.map (fun p => p.1)) []
        (getDbRepositoryImages ctx₂.store up.2.id) = .ok delta ∧
      applyRepoImageWrites env ctx₂ delta.1 (delta.2.map (fun p => p.2)) = .ok ctx' := by
  unfold syncRepo at h
  split at h
  next e heq => cases h
  next up heq =>
    split at h
    next e heq2 => cases h
    next am heq2 =>
      split at h
      next e heq3 => cases h
      next ctx₂ heq3 =>
        split at h
        next e heq4 => cases h
        next delta heq4 =>
          exact ⟨up, am, ctx₂, delta, heq, heq2, heq3, heq4, h⟩

theorem syncImages_ok_elim {env : Env} {ctx : TxCtx} {image : Image} {rest : List Image}
    {ctx' : TxCtx} (h : syncImages env ctx (image :: rest) = .ok ctx') :
    ∃ ctx₁, syncImage env ctx image = .ok ctx₁ ∧ syncImages env ctx₁ rest = .ok ctx' := by
  unfold syncImages at h
  split at h
  next e heq => cases h
  next ctx₁ heq => exact ⟨ctx₁, heq, h⟩

/-! ### Frame lemmas: what each stage leaves untouched -/

/-- The CVE table only ever grows (by appends at the end): the engine's only
CVE-table write is the conflict-tolerant insert. -/
theorem createCvesOnConflict_cves_sublist :
    ∀ (l : List Cve) (s : Store), s.cves.Sublist (createCvesOnConflict s l).1.cves := by
  intro l
  induction l with
  | nil => intro s; exact List.Sublist.refl _
  | cons cve rest ih =>
    intro s
    unfold createCvesOnConflict
    split
    · exact ih s
    · exact List.Sublist.trans (List.sublist_append_left s.cves _) (ih (insertCveRow s cve))

theorem registerMissingCves_cves_sublist {env : Env} {ctx : TxCtx} {names : List String}
    {ctx' : TxCtx} (h : registerMissingCves env ctx names = .ok ctx') :
    ctx.store.cves.Sublist ctx'.store.cves := by
  rcases registerMissingCves_ok_elim h with ⟨_, rfl⟩ | ⟨_, ops, hw, rfl⟩
  · exact List.Sublist.refl _
  · exact createCvesOnConflict_cves_sublist _ _

/-- `registerMissingCves` only touches the store's CVE table and the pending
CVE cache. -/
theorem registerMissingCves_frame {env : Env} {ctx : TxCtx} {names : List String}
    {ctx' : TxCtx} (h : registerMissingCves env ctx names = .ok ctx') :
    ctx'.store.repos = ctx.store.repos ∧
    ctx'.store.images = ctx.store.images ∧
    ctx'.store.imageCves = ctx.store.imageCves ∧
    ctx'.store.repoImages = ctx.store.repoImages ∧
    ctx'.store.nextRepoID = ctx.store.nextRepoID ∧
    ctx'.store.nextImageID = ctx.store.nextImageID ∧
    ctx'.caches.dbRepoMap = ctx.caches.dbRepoMap ∧
    ctx'.caches.dbImageMap = ctx.caches.dbImageMap ∧
    ctx'.caches.dbCveMap = ctx.caches.dbCveMap ∧
    ctx'.caches.dbImageMapPending = ctx.caches.dbImageMapPending := by
  have hcreate : ∀ (l : List Cve) (s : Store),
      (createCvesOnConflict s l).1.repos = s.repos ∧
      (createCvesOnConflict s l).1.images = s.images ∧
      (createCvesOnConflict s l).1.imageCves = s.imageCves ∧
      (createCvesOnConflict s l).1.repoImages = s.repoImages ∧
      (createCvesOnConflict s l).1.nextRepoID = s.nextRepoID ∧
      (createCvesOnConflict s l).1.nextImageID = s.nextImageID := by
    intro l
    induction l with
    | nil => intro s; exact ⟨rfl, rfl, rfl, rfl, rfl, rfl⟩
    | cons cve rest ih =>
      intro s
      unfold createCvesOnConflict
      split
      · exact ih s
      · exact ih (insertCveRow s cve)
  rcases registerMissingCves_ok_elim h with ⟨_, rfl⟩ | ⟨_, ops, hw, rfl⟩
  · exact ⟨rfl, rfl, rfl, rfl, rfl, rfl, rfl, rfl, rfl, rfl⟩
  · exact ⟨(hcreate _ _).1, (hcreate _ _).2.1, (hcreate _ _).2.2.1, (hcreate _ _).2.2.2.1,
      (hcreate _ _).2.2.2.2.1, (hcreate _ _).2.2.2.2.2, rfl, rfl, rfl, rfl⟩

/-- `syncImage` leaves the repository table, the (repository, image) table and
the committed caches untouched, and only extends the CVE table. -/
theorem syncImage_frame {env : Env} {ctx : TxCtx} {image : Image} {ctx' : TxCtx}
    (h : syncImage env ctx image = .ok ctx') :
    ctx'.store.repos = ctx.store.repos ∧
    ctx'.store.repoImages = ctx.store.repoImages ∧
    ctx'.store.nextRepoID = ctx.store.nextRepoID ∧
    ctx'.caches.dbRepoMap = ctx.caches.dbRepoMap ∧
    ctx'.caches.dbImageMap = ctx.caches.dbImageMap ∧
    ctx'.caches.dbCveMap = ctx.caches.dbCveMap ∧
    ctx.store.cves.Sublist ctx'.store.cves := by
  rcases syncImage_ok_elim h with ⟨up, names, ctx₂, delta, hu, hn, hr, hd, ha⟩
  rcases applyImageCveWrites_ok_elim ha with ⟨ctx₁, hins, hdel⟩
  have hreg := registerMissingCves_frame hr
  have hregsub := registerMissingCves_cves_sublist hr
  have hupsert : up.1.store.repos = ctx.store.repos ∧
      up.1.store.repoImages = ctx.store.repoImages ∧
      up.1.store.nextRepoID = ctx.store.nextRepoID ∧
      up.1.caches.dbRepoMap = ctx.caches.dbRepoMap ∧
      up.1.caches.dbImageMap = ctx.caches.dbImageMap ∧
      up.1.caches.dbCveMap = ctx.caches.dbCveMap ∧
      up.1.store.cves = ctx.store.cves := by
    rcases upsertImage_ok_elim hu with ⟨ops, hw, ⟨h0, rfl⟩ | ⟨h0, rfl⟩⟩
    · exact ⟨rfl, rfl, rfl, rfl, rfl, rfl, rfl⟩
    · exact ⟨rfl, rfl, rfl, rfl, rfl, rfl, rfl⟩
  have hinsf : ctx₁.store.repos = ctx₂.store.repos ∧
      ctx₁.store.repoImages = ctx₂.store.repoImages ∧
      ctx₁.store.nextRepoID = ctx₂.store.nextRepoID ∧
      ctx₁.caches = ctx₂.caches ∧
      ctx₁.store.cves = ctx₂.store.cves := by
    rcases insertImageCves_ok_elim hins with ⟨_, rfl⟩ | ⟨ops, hw, rfl⟩
    · exact ⟨rfl, rfl, rfl, rfl, rfl⟩
    · exact ⟨rfl, rfl, rfl, rfl, rfl⟩
  have hdelf : ctx'.store.repos = ctx₁.store.repos ∧
      ctx'.store.repoImages = ctx₁.store.repoImages ∧
      ctx'.store.nextRepoID = ctx₁.store.nextRepoID ∧
      ctx'.caches = ctx₁.caches ∧
      ctx'.store.cves = ctx₁.store.cves := by
    rcases deleteImageCvesStage_ok_elim hdel with ⟨_, rfl⟩ | ⟨ops, hw, rfl⟩
    · exact ⟨rfl, rfl, rfl, rfl, rfl⟩
    · exact ⟨rfl, rfl, rfl, rfl, rfl⟩
  refine ⟨?_, ?_, ?_, ?_, ?_, ?_, ?_⟩
  · rw [hdelf.1, hinsf.1, hreg.1, hupsert.1]
  · rw [hdelf.2.1, hinsf.2.1, hreg.2.2.2.1, hupsert.2.1]
  · rw [hdelf.2.2.1, hinsf.2.2.1, hreg.2.2.2.2.1, hupsert.2.2.1]
  · rw [hdelf.2.2.2.1, hinsf.2.2.2.1, hreg.2.2.2.2.2.2.1, hupsert.2.2.2.1]
  · rw [hdelf.2.2.2.1, hinsf.2.2.2.1, hreg.2.2.2.2.2.2.2.1, hupsert.2.2.2.2.1]
  · rw [hdelf.2.2.2.1, hinsf.2.2.2.1, hreg.2.2.2.2.2.2.2.2.1, hupsert.2.2.2.2.2.1]
  · rw [hdelf.2.2.2.2, hinsf.2.2.2.2]
    exact hupsert.2.2.2.2.2.2 ▸ hregsub

theorem syncImages_frame {env : Env} :
    ∀ {l : List Image} {ctx ctx' : TxCtx}, syncImages env ctx l = .ok ctx' →
    ctx'.store.repos = ctx.store.repos ∧
    ctx'.store.repoImages = ctx.store.repoImages ∧
    ctx'.store.nextRepoID = ctx.store.nextRepoID ∧
    ctx'.caches.dbRepoMap = ctx.caches.dbRepoMap ∧
    ctx'.caches.dbImageMap = ctx.caches.dbImageMap ∧
    ctx'.caches.dbCveMap = ctx.caches.dbCveMap ∧
    ctx.store.cves.Sublist ctx'.store.cves := by
  intro l
  induction l with
  | nil =>
    intro ctx ctx' h
    cases h
    exact ⟨rfl, rfl, rfl, rfl, rfl, rfl, List.Sublist.refl _⟩
  | cons image rest ih =>
    intro ctx ctx' h
    rcases syncImages_ok_elim h with ⟨ctx₁, h1, h2⟩
    have f1 := syncImage_frame h1
    have f2 := ih h2
    exact ⟨f2.1.trans f1.1, f2.2.1.trans f1.2.1, f2.2.2.1.trans f1.2.2.1,
      f2.2.2.2.1.trans f1.2.2.2.1, f2.2.2.2.2.1.trans f1.2.2.2.2.1,
      f2.2.2.2.2.2.1.trans f1.2.2.2.2.2.1, f1.2.2.2.2.2.2.trans f2.2.2.2.2.2.2⟩

/-- `syncRepo` only extends the CVE table: the committed store's CVE rows are
a sublist of the transaction's on commit. -/
theorem syncRepo_cves_sublist {env : Env} {repo : Repository} {committed : Store}
    {caches : Caches} {writeOps : Nat} {ctx' : TxCtx}
    (h : syncRepo env repo committed caches writeOps = .ok ctx') :
    committed.cves.Sublist ctx'.store.cves := by
  rcases syncRepo_ok_elim h with ⟨up, am, ctx₂, delta, hu, ha, hs, hd, haw⟩
  rcases applyRepoImageWrites_ok_elim haw with ⟨ctx₁, hins, hdel⟩
  have hupsert : up.1.store.cves = committed.cves := by
    rcases upsertRepo_ok_elim hu with ⟨ops, hw, ⟨h0, rfl⟩ | ⟨h0, rfl⟩⟩ <;> rfl
  have hsync := (syncImages_frame hs).2.2.2.2.2.2
  have hinsf : ctx₁.store.cves = ctx₂.store.cves := by
    rcases insertRepositoryImages_ok_elim hins with ⟨_, rfl⟩ | ⟨ops, hw, rfl⟩ <;> rfl
  have hdelf : ctx'.store.cves = ctx₁.store.cves := by
    rcases deleteRepositoryImagesStage_ok_elim hdel with ⟨_, rfl⟩ | ⟨ops, hw, rfl⟩ <;> rfl
  rw [hdelf, hinsf]
  exact hupsert ▸ hsync

theorem processRepo_cves_sublist (env : Env) (repo : Repository) (s : RunState) :
    s.store.cves.Sublist (processRepo env repo s).store.cves := by
  unfold processRepo
  split
  next ctx heq => exact syncRepo_cves_sublist heq
  next e heq => exact List.Sublist.refl _

theorem syncLoop_cves_sublist (env : Env) :
    ∀ (l : List Repository) (s : RunState), s.store.cves.Sublist (syncLoop env l s).store.cves := by
  intro l
  induction l with
  | nil => intro s; exact List.Sublist.refl _
  | cons repo rest ih =>
    intro s
    exact (processRepo_cves_sublist env repo s).trans (ih _)

theorem syncRepos_cves_sublist {env : Env} {s s' : RunState} (h : syncRepos env s = .ok s') :
    s.store.cves.Sublist s'.store.cves := by
  unfold syncRepos at h
  split at h
  next e heq => cases h
  next repoList heq =>
    cases h
    exact syncLoop_cves_sublist env
      (stageRepos env (buildMap (fun r => r.pyxisID) repoList) s.caches).1
      { s with caches := (stageRepos env (buildMap (fun r => r.pyxisID) repoList) s.caches).2 }

theorem start_cves_sublist {env : Env} {s : Store} {s' : RunState} (h : start env s = .ok s') :
    s.cves.Sublist s'.store.cves := by
  unfold start at h
  split at h
  next e heq => cases h
  next heq => exact syncRepos_cves_sublist h

/-! ### Lemmas about the conflict-tolerant CVE insert -/

theorem createCvesOnConflict_preserves_named :
    ∀ (l : List Cve) (s : Store) (name : String), (∃ c ∈ s.cves, c.name = name) →
      (createCvesOnConflict s l).1.cves.filter (fun c => c.name == name) =
        s.cves.filter (fun c => c.name == name) := by
  intro l
  induction l with
  | nil => intro s name h; rfl
  | cons cve rest ih =>
    intro s name h
    unfold createCvesOnConflict
    split
    · exact ih s name h
    · rename_i hnot
      have hne : ∀ c ∈ s.cves, c.name ≠ cve.name := by
        intro c hc heq
        exact hnot (List.any_eq_true.mpr ⟨c, hc, by simp [heq]⟩)
      rcases h with ⟨c0, hc0, hc0n⟩
      have hcvene : cve.name ≠ name := fun heq => hne c0 hc0 (by rw [hc0n, heq])
      have hmem : c0 ∈ (insertCveRow s cve).cves := by
        unfold insertCveRow
        exact List.mem_append_left _ hc0
      have hstep := ih (insertCveRow s cve) name ⟨c0, hmem, hc0n⟩
      show (createCvesOnConflict (insertCveRow s cve) rest).1.cves.filter
        (fun c => c.name == name) = s.cves.filter (fun c => c.name == name)
      rw [hstep]
      show (s.cves ++ [{ cve with id := s.nextCveID }]).filter (fun c => c.name == name) =
        s.cves.filter (fun c => c.name == name)
      rw [List.filter_append]
      simp [hcvene]

/-- Decidable equality of `Except` results, for the concrete witnesses. -/
instance exceptDecEq {ε α : Type} [DecidableEq ε] [DecidableEq α] : DecidableEq (Except ε α)
  | .error e, .error e' =>
    if h : e = e' then .isTrue (by rw [h]) else .isFalse (fun hc => by cases hc; exact h rfl)
  | .error e, .ok a => .isFalse (fun hc => by cases hc)
  | .ok a, .error e => .isFalse (fun hc => by cases hc)
  | .ok a, .ok a' =>
    if h : a = a' then .isTrue (by rw [h]) else .isFalse (fun hc => by cases hc; exact h rfl)

/-! ### Concrete fixtures used by the witnesses and counterexamples -/

/-- A small store: one repository (ts 5), two images, one enriched CVE, one
live association (image 1) and one stale association (image 2). -/
def storeA : Store :=
  { repos := [{ id := 1, pyxisID := "p1", modifiedDate := 5, registry := "reg1", repository := "repoA" }]
    images := [{ id := 1, pyxisID := "ix", modifiedDate := 3, digest := "X" },
               { id := 2, pyxisID := "iz", modifiedDate := 3, digest := "Z" }]
    cves := [{ id := 1, name := "CVE-2024-0001", description := "d", severity := 4 }]
    imageCves := [{ imageID := 1, cveID := 1 }]
    repoImages := [{ repositoryID := 1, imageID := 1 }, { repositoryID := 1, imageID := 2 }]
    nextRepoID := 2, nextImageID := 3, nextCveID := 2 }

/-- A catalog where the repository was modified (ts 6), image X is unchanged,
image Y is new and carries one known and one unknown CVE. -/
def envA : Env :=
  { apiRepositories := .ok [{ pyxisID := "p1", registry := "reg1", repository := "repoA", modifiedDate := 6 }]
    apiRepoImages := fun _ _ => .ok
      [{ pyxisID := "ix", digest := "X", modifiedDate := 3 },
       { pyxisID := "iy", digest := "Y", modifiedDate := 7 }]
    apiImageCves := fun p => if p = "iy" then .ok ["CVE-2024-0001", "CVE-9"] else .ok []
    inProfile := fun _ _ => true
    dbFailAt := fun _ => false
    bootError := none }

/-- The run state produced by `start envA storeA`. -/
def runA : RunState :=
  { store := { repos := [{ id := 1, pyxisID := "p1", modifiedDate := 6, registry := "reg1", repository := "repoA" }]
               images := [{ id := 1, pyxisID := "ix", modifiedDate := 3, digest := "X" },
                          { id := 2, pyxisID := "iz", modifiedDate := 3, digest := "Z" },
                          { id := 3, pyxisID := "iy", modifiedDate := 7, digest := "Y" }]
               cves := [{ id := 1, name := "CVE-2024-0001", description := "d", severity := 4 },
                        { id := 2, name := "CVE-9", description := "unknown", severity := 0 }]
               imageCves := [{ imageID := 1, cveID := 1 }, { imageID := 3, cveID := 1 },
                             { imageID := 3, cveID := 2 }]
               repoImages := [{ repositoryID := 1, imageID := 1 }, { repositoryID := 1, imageID := 3 }]
               nextRepoID := 2, nextImageID := 4, nextCveID := 3 }
    caches := { dbRepoMap := []
                dbImageMap := [("X", { id := 1, pyxisID := "ix", modifiedDate := 3, digest := "X" }),
                               ("Z", { id := 2, pyxisID := "iz", modifiedDate := 3, digest := "Z" }),
                               ("Y", { id := 3, pyxisID := "iy", modifiedDate := 7, digest := "Y" })]
                dbCveMap := [("CVE-2024-0001", { id := 1, name := "CVE-2024-0001", description := "d", severity := 4 }),
                             ("CVE-9", { id := 2, name := "CVE-9", description := "unknown", severity := 0 })]
                dbImageMapPending := []
                dbCveMapPending := [] }
    writeOps := 6 }

/-- `envA` with every write statement failing. -/
def envAfail : Env :=
  { envA with dbFailAt := fun _ => true }

/-- The staged (found-and-newer) version of `storeA`'s repository. -/
def repoA0 : Repository :=
  { id := 1, pyxisID := "p1", modifiedDate := 6, registry := "reg1", repository := "repoA" }

/-- The run state at the start of `envA`'s run. -/
def runStateA : RunState :=
  { store := storeA, caches := prepareMaps storeA, writeOps := 0 }

/-- A store holding CVE-A under id 7 while the caches are empty — the state a
concurrent writer produces between cache load and the insert. -/
def storeConflict : Store :=
  { repos := [], images := [], cves := [{ id := 7, name := "CVE-A", description := "x", severity := 2 }]
    imageCves := [], repoImages := [], nextRepoID := 1, nextImageID := 1, nextCveID := 8 }

def cachesEmpty : Caches :=
  { dbRepoMap := [], dbImageMap := [], dbCveMap := [], dbImageMapPending := [], dbCveMapPending := [] }

def ctxConflict : TxCtx := { store := storeConflict, caches := cachesEmpty, writeOps := 0 }

/-- The transaction context `registerMissingCves envA ctxConflict ["CVE-A"]`
produces: store untouched, pending CVE cache holding CVE-A with id 0. -/
def ctxAfterConflict : TxCtx :=
  { store := storeConflict
    caches := { cachesEmpty with
                dbCveMapPending := [("CVE-A", { id := 0, name := "CVE-A", description := "unknown", severity := 0 })] }
    writeOps := 1 }

/-- A catalog identical to the stored state: the repository's timestamp equals
the cached one. -/
def envB : Env :=
  { apiRepositories := .ok [{ pyxisID := "p1", registry := "reg1", repository := "repoA", modifiedDate := 5 }]
    apiRepoImages := fun _ _ => .ok []
    apiImageCves := fun _ => .ok []
    inProfile := fun _ _ => true
    dbFailAt := fun _ => false
    bootError := none }

/-- The run state produced by running `envA` a second time from `runA.store`:
the same store with zero writes. -/
def runA2 : RunState := (start envA runA.store).toOption.getD runA

/-- The repository list `envB.apiRepositories` returns. -/
def repoListB : List ApiRepo :=
  [{ pyxisID := "p1", registry := "reg1", repository := "repoA", modifiedDate := 5 }]

/-- The fetched repository of `envA` (timestamp 6). -/
def apiRepoA : ApiRepo :=
  { pyxisID := "p1", registry := "reg1", repository := "repoA", modifiedDate := 6 }

/-- The repository list `envA.apiRepositories` returns. -/
def repoListA : List ApiRepo := [apiRepoA]

/-- `storeA`'s stored repository row (timestamp 5). -/
def repoStoredA : Repository :=
  { id := 1, pyxisID := "p1", modifiedDate := 5, registry := "reg1", repository := "repoA" }

/-- The fetched image X of `envA` (timestamp 3, unchanged). -/
def apiImageX : ApiImage := { pyxisID := "ix", digest := "X", modifiedDate := 3 }

/-- `storeA`'s stored row for image X. -/
def imageX1 : Image := { id := 1, pyxisID := "ix", modifiedDate := 3, digest := "X" }

/-! ### Claim C1 -/

/-- **C1**: if any step of a repository's sync fails — the repository upsert,
the image fetch, an image's sync, the CVE registration, or the
association-delta writes all surface as `syncRepo` returning an error — then
the transaction is aborted: the driver keeps the pre-transaction store
unchanged (none of the repository's writes persist) and discards the pending
caches. -/
theorem syncRepo_failure_is_atomic (env : Env) (repo : Repository) (s : RunState) (e : String)
    (h : syncRepo env repo s.store s.caches s.writeOps = .error e) :
    processRepo env repo s = { s with caches := emptyPendingCache s.caches } := by
  unfold processRepo
  rw [h]

theorem syncRepo_failure_is_atomic_witness :
    syncRepo envAfail repoA0 runStateA.store runStateA.caches runStateA.writeOps = .error "db error" ∧
    processRepo envAfail repoA0 runStateA = { runStateA with caches := emptyPendingCache runStateA.caches } :=
  ⟨by decide, syncRepo_failure_is_atomic envAfail repoA0 runStateA "db error" (by decide)⟩

/-! ### Claim C9 -/

/-- **C9**: a cache-bootstrap failure or a repository-enumeration failure
aborts the whole run, while a single repository's sync failure does not: the
driver keeps the committed store, discards that repository's pending-cache
contributions, and continues with the remaining repositories from that
unchanged state, so their sync results are unaffected. -/
theorem failure_taxonomy_fatal_vs_repo_scoped
    (env₁ : Env) (s₁ : Store) (e₁ : String)
    (env₂ : Env) (s₂ : Store) (e₂ : String)
    (env₃ : Env) (repo : Repository) (rest : List Repository) (s₃ : RunState) (e₃ : String)
    (h₁ : env₁.bootError = some e₁)
    (h₂ : env₂.bootError = none) (h₃ : env₂.apiRepositories = .error e₂)
    (h₄ : syncRepo env₃ repo s₃.store s₃.caches s₃.writeOps = .error e₃) :
    start env₁ s₁ = .error e₁ ∧
    start env₂ s₂ = .error e₂ ∧
    syncLoop env₃ (repo :: rest) s₃ =
      syncLoop env₃ rest { s₃ with caches := emptyPendingCache s₃.caches } := by
  refine ⟨?_, ?_, ?_⟩
  · unfold start
    rw [h₁]
  · unfold start syncRepos
    rw [h₂, h₃]
  · have hp : processRepo env₃ repo s₃ = { s₃ with caches := emptyPendingCache s₃.caches } := by
      unfold processRepo
      rw [h₄]
    rw [syncLoop, hp]

theorem failure_taxonomy_fatal_vs_repo_scoped_witness :
    start { envA with bootError := some "boot failure" } storeA = .error "boot failure" ∧
    start { envA with apiRepositories := .error "pyxis down" } storeA = .error "pyxis down" ∧
    syncLoop envAfail [repoA0] runStateA =
      syncLoop envAfail [] { runStateA with caches := emptyPendingCache runStateA.caches } :=
  failure_taxonomy_fatal_vs_repo_scoped
    { envA with bootError := some "boot failure" } storeA "boot failure"
    { envA with apiRepositories := .error "pyxis down" } storeA "pyxis down"
    envAfail repoA0 [] runStateA "db error"
    rfl rfl rfl (by decide)

/-! ### Claim C8 -/

/-- **C8**: CVE rows existing before a run survive every operation of the
engine unchanged — the run only ever appends to the CVE table, so the prior
rows remain, in order, with their severities and descriptions intact; the
engine never deletes or rewrites a CVE row. -/
theorem engine_preserves_existing_cve_rows (env : Env) (s : Store) (s' : RunState)
    (h : start env s = .ok s') :
    s.cves.Sublist s'.store.cves :=
  start_cves_sublist h

theorem engine_preserves_existing_cve_rows_witness :
    start envA storeA = .ok runA ∧ storeA.cves.Sublist runA.store.cves :=
  ⟨by decide, engine_preserves_existing_cve_rows envA storeA runA (by decide)⟩

/-! ### Claim C7 -/

/-- **C7**: the staged CVE batch is inserted with the conflict-tolerant
clause: as long as the write statement itself does not fail, the insert
returns no error regardless of which names already exist, and for a name that
already exists in the store the stored rows with that name are exactly what
they were — no duplicate row is created. -/
theorem conflict_tolerant_cve_insert (env : Env) (ctx : TxCtx) (names : List String)
    (hdb : env.dbFailAt ctx.writeOps = false) :
    ∃ ctx', registerMissingCves env ctx names = .ok ctx' ∧
      ∀ name, (∃ c ∈ ctx.store.cves, c.name = name) →
        ctx'.store.cves.filter (fun c => c.name == name) =
          ctx.store.cves.filter (fun c => c.name == name) := by
  unfold registerMissingCves
  split
  · exact ⟨ctx, rfl, fun name h => rfl⟩
  · have hw : dbWrite env ctx.writeOps = .ok (ctx.writeOps + 1) := by
      unfold dbWrite
      rw [hdb]
      rfl
    rw [hw]
    exact ⟨_, rfl, fun name h => createCvesOnConflict_preserves_named _ _ name h⟩

theorem conflict_tolerant_cve_insert_witness :
    ∃ ctx', registerMissingCves envA ctxConflict ["CVE-A"] = .ok ctx' ∧
      ∀ name, (∃ c ∈ ctxConflict.store.cves, c.name = name) →
        ctx'.store.cves.filter (fun c => c.name == name) =
          ctxConflict.store.cves.filter (fun c => c.name == name) :=
  conflict_tolerant_cve_insert envA ctxConflict ["CVE-A"] rfl

/-! ### Lemmas about missing-CVE staging and resolution -/

theorem mem_foldl_aupsert {κ α : Type} [DecidableEq κ] {key : α → κ} {p : κ × α} :
    ∀ (xs : List α) (m : List (κ × α)),
      p ∈ xs.foldl (fun m x => aupsert (key x) x m) m →
      (p.2 ∈ xs ∧ key p.2 = p.1) ∨ p ∈ m := by
  intro xs
  induction xs with
  | nil => intro m h; exact Or.inr h
  | cons x rest ih =>
    intro m h
    rcases ih (aupsert (key x) x m) h with h' | h'
    · exact Or.inl ⟨List.mem_cons_of_mem x h'.1, h'.2⟩
    · rcases mem_aupsert h' with h'' | h''
      · exact Or.inl ⟨by rw [h'']; exact List.mem_cons_self x rest, by rw [h'']⟩
      · exact Or.inr h''

theorem alookup_foldl_aupsert_isSome {κ α : Type} [DecidableEq κ] {key : α → κ} {k : κ}
    {xs : List α} {m : List (κ × α)}
    (h : (alookup k m).isSome ∨ ∃ x ∈ xs, key x = k) :
    (alookup k (xs.foldl (fun m x => aupsert (key x) x m) m)).isSome := by
  rw [Option.isSome_iff_ne_none]
  intro hnone
  rw [alookup_foldl_aupsert_eq_none_iff] at hnone
  rcases h with h | ⟨x, hx, hk⟩
  · rw [hnone.1] at h
    simp at h
  · exact hnone.2 x hx hk

theorem missingCveEntry_some_elim {c : Caches} {n : String} {val : Cve}
    (h : missingCveEntry c n = some val) :
    val = { id := 0, name := n, description := "unknown", severity := notSet } ∧
    alookup n c.dbCveMap = none ∧ alookup n c.dbCveMapPending = none := by
  unfold missingCveEntry at h
  split at h
  · cases h
  · split at h
    · cases h
    · cases h
      constructor
      · rfl
      · constructor <;> assumption

theorem missingCveEntry_none_elim {c : Caches} {n : String}
    (h : missingCveEntry c n = none) :
    (alookup n c.dbCveMap).isSome ∨ (alookup n c.dbCveMapPending).isSome := by
  unfold missingCveEntry at h
  split at h
  next v heq => exact Or.inl (by rw [heq]; rfl)
  next heq =>
    split at h
    next v heq2 => exact Or.inr (by rw [heq2]; rfl)
    next heq2 => cases h

theorem missingCves_names_sublist (c : Caches) :
    ∀ names : List String, ((missingCves c names).map (fun cve => cve.name)).Sublist names := by
  intro names
  induction names with
  | nil => exact List.Sublist.refl _
  | cons n rest ih =>
    unfold missingCves at ih ⊢
    rw [List.filterMap_cons]
    cases he : missingCveEntry c n with
    | none => exact ih.cons n
    | some val =>
      rw [List.map_cons, (missingCveEntry_some_elim he).1]
      exact List.Sublist.cons₂ n ih

theorem missingCves_fresh {c : Caches} {names : List String} {s : Store}
    (hcov : ∀ row ∈ s.cves, (alookup row.name c.dbCveMap).isSome ∨
      (alookup row.name c.dbCveMapPending).isSome) :
    ∀ cve ∈ missingCves c names, ∀ r ∈ s.cves, r.name ≠ cve.name := by
  intro cve hcve r hr heq
  rcases List.mem_filterMap.mp hcve with ⟨n, hn, he⟩
  have hel := missingCveEntry_some_elim he
  rcases hcov r hr with h' | h' <;>
    rw [heq, hel.1] at h'
  · rw [hel.2.1] at h'
    simp at h'
  · rw [hel.2.2] at h'
    simp at h'

theorem createCvesOnConflict_snd_names :
    ∀ (l : List Cve) (s : Store),
      (createCvesOnConflict s l).2.map (fun c => c.name) = l.map (fun c => c.name) := by
  intro l
  induction l with
  | nil => intro s; rfl
  | cons cve rest ih =>
    intro s
    unfold createCvesOnConflict
    split
    · show (cve :: (createCvesOnConflict s rest).2).map (fun c => c.name) = _
      rw [List.map_cons, ih s]
      rfl
    · show ({ cve with id := s.nextCveID } :: (createCvesOnConflict (insertCveRow s cve) rest).2).map
        (fun c => c.name) = _
      rw [List.map_cons, ih (insertCveRow s cve)]
      rfl

/-- When every staged row's name is genuinely absent from the store (no
concurrent writer sneaked it in) and the staged names are distinct, every
slice entry returned by the conflict-tolerant insert is an actual row of the
resulting store — it carries the identifier its insert assigned. -/
theorem createCvesOnConflict_assigned_mem :
    ∀ (l : List Cve) (s : Store),
      (∀ cve ∈ l, ∀ r ∈ s.cves, r.name ≠ cve.name) →
      (l.map (fun c => c.name)).Nodup →
      ∀ cve ∈ (createCvesOnConflict s l).2, cve ∈ (createCvesOnConflict s l).1.cves := by
  intro l
  induction l with
  | nil =>
    intro s hfresh hnodup cve hcve
    cases hcve
  | cons cve rest ih =>
    intro s hfresh hnodup c hc
    unfold createCvesOnConflict at hc ⊢
    have hnotany : ¬(s.cves.any (fun r => r.name == cve.name) = true) := by
      intro hany
      rcases List.any_eq_true.mp hany with ⟨r, hr, hb⟩
      exact hfresh cve (List.mem_cons_self _ _) r hr (by simpa using hb)
    rw [if_neg hnotany] at hc ⊢
    have hfresh' : ∀ c' ∈ rest, ∀ r ∈ (insertCveRow s cve).cves, r.name ≠ c'.name := by
      intro c' hc' r hr
      rcases List.mem_append.mp hr with hr' | hr'
      · exact hfresh c' (List.mem_cons_of_mem _ hc') r hr'
      · rcases List.mem_singleton.mp hr' with rfl
        show cve.name ≠ c'.name
        intro heq
        rw [List.map_cons, List.nodup_cons] at hnodup
        exact hnodup.1 (heq ▸ List.mem_map_of_mem (fun c => c.name) hc')
    have hnodup' : (rest.map (fun c => c.name)).Nodup := by
      rw [List.map_cons, List.nodup_cons] at hnodup
      exact hnodup.2
    rcases List.mem_cons.mp hc with rfl | hc'
    · exact (createCvesOnConflict_cves_sublist rest (insertCveRow s cve)).mem
        (List.mem_append_right _ (List.mem_singleton.mpr rfl))
    · exact ih (insertCveRow s cve) hfresh' hnodup' c hc'

theorem resolveCve_isSome {c : Caches} {n : String}
    (h : (alookup n c.dbCveMap).isSome ∨ (alookup n c.dbCveMapPending).isSome) :
    (resolveCve c n).isSome := by
  unfold resolveCve
  cases hl : alookup n c.dbCveMap with
  | some cve => rfl
  | none =>
    rcases h with h | h
    · rw [hl] at h
      simp at h
    · exact h

theorem resolveImage_isSome {c : Caches} {d : String}
    (h : (alookup d c.dbImageMap).isSome ∨ (alookup d c.dbImageMapPending).isSome) :
    (resolveImage c d).isSome := by
  unfold resolveImage
  cases hl : alookup d c.dbImageMap with
  | some img => rfl
  | none =>
    rcases h with h | h
    · rw [hl] at h
      simp at h
    · exact h

/-- After a successful `registerMissingCves`, every fetched CVE name resolves
in the committed or pending CVE map. -/
theorem registerMissingCves_resolves {env : Env} {ctx : TxCtx} {names : List String} {ctx' : TxCtx}
    (h : registerMissingCves env ctx names = .ok ctx') :
    ∀ n ∈ names, (resolveCve ctx'.caches n).isSome := by
  intro n hn
  rcases registerMissingCves_ok_elim h with ⟨hemp, heq⟩ | ⟨hemp, ops, hw, rfl⟩
  · rw [heq]
    have hnil : missingCves ctx.caches names = [] := by
      cases hval : missingCves ctx.caches names
      · rfl
      · rw [hval] at hemp
        cases hemp
    have hnone : missingCveEntry ctx.caches n = none := by
      cases he : missingCveEntry ctx.caches n with
      | none => rfl
      | some val =>
        have : val ∈ missingCves ctx.caches names := List.mem_filterMap.mpr ⟨n, hn, he⟩
        rw [hnil] at this
        cases this
    exact resolveCve_isSome (missingCveEntry_none_elim hnone)
  · cases he : missingCveEntry ctx.caches n with
    | some val =>
      have hvm : val ∈ missingCves ctx.caches names := List.mem_filterMap.mpr ⟨n, hn, he⟩
      have hname : val.name = n := by rw [(missingCveEntry_some_elim he).1]
      have hassigned : n ∈ (createCvesOnConflict ctx.store
          (missingCves ctx.caches names)).2.map (fun c => c.name) := by
        rw [createCvesOnConflict_snd_names]
        exact hname ▸ List.mem_map_of_mem (fun c => c.name) hvm
      rcases List.mem_map.mp hassigned with ⟨c, hc, hcn⟩
      exact resolveCve_isSome (Or.inr (alookup_foldl_aupsert_isSome (Or.inr ⟨c, hc, hcn⟩)))
    | none =>
      rcases missingCveEntry_none_elim he with h' | h'
      · exact resolveCve_isSome (Or.inl h')
      · exact resolveCve_isSome (Or.inr (alookup_foldl_aupsert_isSome (Or.inl h')))

theorem imageCveDelta_ok_of_resolve (c : Caches) (imageID : Nat) :
    ∀ (names : List String) (ins : List ImageCve) (dbMap : List (Nat × ImageCve)),
      (∀ n ∈ names, (resolveCve c n).isSome) →
      ∃ res, imageCveDelta c imageID names ins dbMap = .ok res := by
  intro names
  induction names with
  | nil => intro ins dbMap h; exact ⟨(ins, dbMap), rfl⟩
  | cons n rest ih =>
    intro ins dbMap h
    have hn := h n (List.mem_cons_self n rest)
    cases hr : resolveCve c n with
    | none =>
      rw [hr] at hn
      simp at hn
    | some cve =>
      have hrest : ∀ n' ∈ rest, (resolveCve c n').isSome :=
        fun n' hn' => h n' (List.mem_cons_of_mem n hn')
      cases hl : alookup cve.id dbMap with
      | none =>
        simp only [imageCveDelta, hr, hl]
        exact ih _ dbMap hrest
      | some v =>
        simp only [imageCveDelta, hr, hl]
        exact ih ins _ hrest

theorem alookup_aupsert_isSome_mono {κ α : Type} [DecidableEq κ] {k' k : κ} {v : α}
    {m : List (κ × α)} (h : (alookup k' m).isSome) : (alookup k' (aupsert k v m)).isSome := by
  by_cases hk : k' = k
  · rw [hk, alookup_aupsert_self]
    rfl
  · rw [alookup_aupsert_ne hk]
    exact h

theorem applyImageCveWrites_caches {env : Env} {ctx : TxCtx} {ins del : List ImageCve}
    {ctx' : TxCtx} (h : applyImageCveWrites env ctx ins del = .ok ctx') :
    ctx'.caches = ctx.caches := by
  rcases applyImageCveWrites_ok_elim h with ⟨c1, hi, hd⟩
  rcases insertImageCves_ok_elim hi with ⟨_, rfl⟩ | ⟨ops, hw, rfl⟩ <;>
    rcases deleteImageCvesStage_ok_elim hd with ⟨_, rfl⟩ | ⟨ops2, hw2, rfl⟩ <;> rfl

theorem applyRepoImageWrites_caches {env : Env} {ctx : TxCtx} {ins del : List RepositoryImage}
    {ctx' : TxCtx} (h : applyRepoImageWrites env ctx ins del = .ok ctx') :
    ctx'.caches = ctx.caches := by
  rcases applyRepoImageWrites_ok_elim h with ⟨c1, hi, hd⟩
  rcases insertRepositoryImages_ok_elim hi with ⟨_, rfl⟩ | ⟨ops, hw, rfl⟩ <;>
    rcases deleteRepositoryImagesStage_ok_elim hd with ⟨_, rfl⟩ | ⟨ops2, hw2, rfl⟩ <;> rfl

/-- A created image's pending entry survives to the end of its `syncImage`,
and `syncImage` never drops pending image entries. -/
theorem syncImage_pend {env : Env} {ctx : TxCtx} {image : Image} {ctx' : TxCtx}
    (h : syncImage env ctx image = .ok ctx') :
    (∀ d, (alookup d ctx.caches.dbImageMapPending).isSome →
      (alookup d ctx'.caches.dbImageMapPending).isSome) ∧
    (image.id = 0 → (alookup image.digest ctx'.caches.dbImageMapPending).isSome) := by
  rcases syncImage_ok_elim h with ⟨up, names, ctx₂, delta, hu, hn, hr, hd, ha⟩
  have hca : ctx'.caches = ctx₂.caches := applyImageCveWrites_caches ha
  have hpend2 : ctx₂.caches.dbImageMapPending = up.1.caches.dbImageMapPending :=
    (registerMissingCves_frame hr).2.2.2.2.2.2.2.2.2
  rcases upsertImage_ok_elim hu with ⟨ops, hw, ⟨h0, rfl⟩ | ⟨h0, rfl⟩⟩
  · constructor
    · intro d hd'
      rw [hca, hpend2]
      exact alookup_aupsert_isSome_mono hd'
    · intro _
      rw [hca, hpend2]
      show (alookup image.digest (aupsert image.digest
        { image with id := ctx.store.nextImageID } ctx.caches.dbImageMapPending)).isSome
      rw [alookup_aupsert_self]
      rfl
  · constructor
    · intro d hd'
      rw [hca, hpend2]
      exact hd'
    · intro h0'
      exact absurd h0' h0

theorem syncImages_pend {env : Env} :
    ∀ {l : List Image} {ctx ctx' : TxCtx}, syncImages env ctx l = .ok ctx' →
    (∀ d, (alookup d ctx.caches.dbImageMapPending).isSome →
      (alookup d ctx'.caches.dbImageMapPending).isSome) ∧
    (∀ i ∈ l, i.id = 0 → (alookup i.digest ctx'.caches.dbImageMapPending).isSome) := by
  intro l
  induction l with
  | nil =>
    intro ctx ctx' h
    cases h
    exact ⟨fun d hd => hd, fun i hi => absurd hi (List.not_mem_nil i)⟩
  | cons image rest ih =>
    intro ctx ctx' h
    rcases syncImages_ok_elim h with ⟨ctx₁, h1, h2⟩
    have p1 := syncImage_pend h1
    have p2 := ih h2
    refine ⟨fun d hd => p2.1 d (p1.1 d hd), ?_⟩
    intro i hi h0
    rcases List.mem_cons.mp hi with rfl | hi'
    · exact p2.1 i.digest (p1.2 h0)
    · exact p2.2 i hi' h0

/-- Every fetched digest is either already in the committed image cache or is
staged as a new image (id 0) with that digest. -/
theorem stageImages_covers (c : Caches) :
    ∀ (am : List (String × ApiImage)) (p : String × ApiImage), p ∈ am →
      (alookup p.1 c.dbImageMap).isSome ∨
      ∃ i ∈ stageImages c am, i.id = 0 ∧ i.digest = p.2.digest := by
  intro am
  induction am with
  | nil => intro p hp; cases hp
  | cons q rest ih =>
    intro p hp
    rcases List.mem_cons.mp hp with rfl | hp'
    · obtain ⟨d, a⟩ := p
      cases hl : alookup d c.dbImageMap with
      | some dbImage =>
        left
        rfl
      | none =>
        right
        refine ⟨{ id := 0, pyxisID := a.pyxisID, modifiedDate := a.modifiedDate,
                  digest := a.digest }, ?_, rfl, rfl⟩
        simp only [stageImages, hl]
        exact List.mem_cons_self _ _
    · rcases ih p hp' with h | ⟨i, hi, h0, hd⟩
      · exact Or.inl h
      · right
        refine ⟨i, ?_, h0, hd⟩
        obtain ⟨d, a⟩ := q
        cases hl : alookup d c.dbImageMap with
        | none =>
          simp only [stageImages, hl]
          exact List.mem_cons_of_mem _ hi
        | some dbImage =>
          by_cases hlt : dbImage.modifiedDate < a.modifiedDate
          · simp only [stageImages, hl, if_pos hlt]
            exact List.mem_cons_of_mem _ hi
          · simp only [stageImages, hl, if_neg hlt]
            exact hi

theorem repoImageDelta_ok_of_resolve (c : Caches) (repositoryID : Nat) :
    ∀ (digests : List String) (ins : List RepositoryImage) (dbMap : List (Nat × RepositoryImage)),
      (∀ d ∈ digests, (resolveImage c d).isSome) →
      ∃ res, repoImageDelta c repositoryID digests ins dbMap = .ok res := by
  intro digests
  induction digests with
  | nil => intro ins dbMap h; exact ⟨(ins, dbMap), rfl⟩
  | cons d rest ih =>
    intro ins dbMap h
    have hd := h d (List.mem_cons_self d rest)
    cases hr : resolveImage c d with
    | none =>
      rw [hr] at hd
      simp at hd
    | some image =>
      have hrest : ∀ d' ∈ rest, (resolveImage c d').isSome :=
        fun d' hd' => h d' (List.mem_cons_of_mem d hd')
      cases hl : alookup image.id dbMap with
      | none =>
        simp only [repoImageDelta, hr, hl]
        exact ih _ dbMap hrest
      | some v =>
        simp only [repoImageDelta, hr, hl]
        exact ih ins _ hrest

/-! ### Claim C10 -/

/-- **C10**: the "not in cache" error branches are unreachable under the
algorithm's own preconditions.  If `registerMissingCves` returned without
error for the fetched CVE-name set, every fetched name resolves in the
committed or pending CVE map, so the (image, CVE) delta never returns "CVE not
in cache"; if `syncImage` succeeded for every staged image of a fetched image
map (whose keys are the digests), every fetched digest resolves in the
committed or pending image map, so the (repository, image) delta never returns
"Image not in cache". -/
theorem not_in_cache_branches_unreachable
    (env : Env) (ctx : TxCtx) (names : List String) (ctx' : TxCtx)
    (imageID : Nat) (dbMap : List (Nat × ImageCve))
    (envI : Env) (ctxI : TxCtx) (am : List (String × ApiImage)) (ctxI' : TxCtx)
    (repositoryID : Nat) (dbMapRI : List (Nat × RepositoryImage))
    (h1 : registerMissingCves env ctx names = .ok ctx')
    (h2 : syncImages envI ctxI (stageImages ctxI.caches am) = .ok ctxI')
    (hkeys : ∀ p ∈ am, p.2.digest = p.1) :
    (∃ res, imageCveDelta ctx'.caches imageID names [] dbMap = .ok res) ∧
    (∃ res, repoImageDelta ctxI'.caches repositoryID (am.map (fun p => p.1)) [] dbMapRI = .ok res) := by
  constructor
  · exact imageCveDelta_ok_of_resolve _ imageID names [] dbMap (registerMissingCves_resolves h1)
  · apply repoImageDelta_ok_of_resolve
    intro d hd
    rcases List.mem_map.mp hd with ⟨p, hp, rfl⟩
    rcases stageImages_covers ctxI.caches am p hp with h | ⟨i, hi, h0, hdig⟩
    · have hmap : ctxI'.caches.dbImageMap = ctxI.caches.dbImageMap :=
        (syncImages_frame h2).2.2.2.2.1
      exact resolveImage_isSome (Or.inl (hmap ▸ h))
    · have hpend := (syncImages_pend h2).2 i hi h0
      rw [hdig, hkeys p hp] at hpend
      exact resolveImage_isSome (Or.inr hpend)

/-- The image-staging input of `envA`'s repository, keyed by digest. -/
def amA : List (String × ApiImage) :=
  buildMap (fun i => i.digest)
    [{ pyxisID := "ix", digest := "X", modifiedDate := 3 },
     { pyxisID := "iy", digest := "Y", modifiedDate := 7 }]

/-- The transaction context at the start of `storeA`'s transaction. -/
def txA : TxCtx := { store := storeA, caches := prepareMaps storeA, writeOps := 0 }

/-- The context after registering the missing CVE "CVE-9" in `txA`. -/
def ctxRegA : TxCtx := (registerMissingCves envA txA ["CVE-9"]).toOption.getD txA

/-- The context after syncing `amA`'s staged images in `txA`. -/
def ctxImgsA : TxCtx := (syncImages envA txA (stageImages txA.caches amA)).toOption.getD txA

theorem not_in_cache_branches_unreachable_witness :
    (∃ res, imageCveDelta ctxRegA.caches 9 ["CVE-9"] [] [] = .ok res) ∧
    (∃ res, repoImageDelta ctxImgsA.caches 1 (amA.map (fun p => p.1)) [] [] = .ok res) :=
  not_in_cache_branches_unreachable envA txA ["CVE-9"] ctxRegA 9 [] envA txA amA ctxImgsA 1 []
    (by decide) (by decide) (by decide)

/-! ### Claim C5 -/

/-- **C5 counterexample**: with the store already holding "CVE-A" under id 7
(a concurrent writer inserted it between the cache load and this insert, so it
is in neither cache), the conflict-tolerant insert inserts nothing and assigns
no identifier — the store is untouched — yet the entity is still added to the
pending CVE map with id 0: the PendingBuffer holds an entity that does not
carry the persisted identifier assigned by its insert statement. -/
theorem pendingBuffer_unassigned_id_counterexample :
    registerMissingCves envA ctxConflict ["CVE-A"] = .ok ctxAfterConflict ∧
    alookup "CVE-A" ctxAfterConflict.caches.dbCveMapPending =
      some { id := 0, name := "CVE-A", description := "unknown", severity := 0 } ∧
    ctxAfterConflict.store = ctxConflict.store ∧
    (∀ row ∈ ctxAfterConflict.store.cves, row.id ≠ 0) ∧
    (∀ row ∈ ctxAfterConflict.store.cves, row.name = "CVE-A" → row.id = 7) := by
  decide

/-- The store's CVE names are all visible through the committed or pending CVE
cache — the run invariant that a concurrent writer breaks. -/
abbrev CveCovered (s : Store) (c : Caches) : Prop :=
  ∀ row ∈ s.cves, (alookup row.name c.dbCveMap).isSome ∨
    (alookup row.name c.dbCveMapPending).isSome

/-- **C5 amended**: an entity is added to the pending maps only after its
insert statement ran, and — provided no concurrent writer inserted one of the
staged names between the cache load and the insert (every store CVE name is
still covered by the caches) and the staged names are distinct — every entity
held in the pending maps carries the identifier its insert assigned: a created
image's pending entry is the created row itself, and every pending CVE entry
matches a store row by id and name. -/
theorem pendingBuffer_ids_assigned
    (env : Env) (ctx : TxCtx) (image : Image) (up : TxCtx × Image)
    (envR : Env) (ctxR : TxCtx) (names : List String) (ctxR' : TxCtx)
    (h0 : image.id = 0) (h1 : upsertImage env ctx image = .ok up)
    (hcov : CveCovered ctxR.store ctxR.caches)
    (hpend : ∀ p ∈ ctxR.caches.dbCveMapPending,
      ∃ row ∈ ctxR.store.cves, row.id = p.2.id ∧ row.name = p.2.name)
    (hnodup : names.Nodup)
    (h2 : registerMissingCves envR ctxR names = .ok ctxR') :
    (alookup image.digest up.1.caches.dbImageMapPending = some up.2 ∧
      up.2 ∈ up.1.store.images) ∧
    (∀ p ∈ ctxR'.caches.dbCveMapPending,
      ∃ row ∈ ctxR'.store.cves, row.id = p.2.id ∧ row.name = p.2.name) := by
  constructor
  · rcases upsertImage_ok_elim h1 with ⟨ops, hw, ⟨h0', rfl⟩ | ⟨h0', rfl⟩⟩
    · exact ⟨alookup_aupsert_self _ _ _, List.mem_append_right _ (List.mem_singleton.mpr rfl)⟩
    · exact absurd h0 h0'
  · rcases registerMissingCves_ok_elim h2 with ⟨hemp, heq⟩ | ⟨hemp, ops, hw, rfl⟩
    · rw [heq]
      exact hpend
    · intro p hp
      rcases @mem_foldl_aupsert String Cve _ (fun c => c.name) p
        ((createCvesOnConflict ctxR.store (missingCves ctxR.caches names)).2)
        ctxR.caches.dbCveMapPending hp with ⟨hmem, hkey⟩ | hbase
      · exact ⟨p.2, createCvesOnConflict_assigned_mem _ _
          (missingCves_fresh hcov) ((missingCves_names_sublist _ names).nodup hnodup) p.2 hmem,
          rfl, rfl⟩
      · rcases hpend p hbase with ⟨row, hrow, hid, hname⟩
        exact ⟨row, (createCvesOnConflict_cves_sublist _ _).mem hrow, hid, hname⟩

/-! ### Characterization of repository staging -/

theorem keys_nodup_entry_eq {κ α : Type} [DecidableEq κ] {m : List (κ × α)} {p p' : κ × α}
    (h : (akeys m).Nodup) (hp : p ∈ m) (hp' : p' ∈ m) (hk : p.1 = p'.1) : p = p' := by
  induction m with
  | nil => cases hp
  | cons q rest ih =>
    rw [akeys, List.map_cons, List.nodup_cons] at h
    rcases List.mem_cons.mp hp with rfl | hp2
    · rcases List.mem_cons.mp hp' with rfl | hp'2
      · rfl
      · exact absurd (hk ▸ List.mem_map_of_mem Prod.fst hp'2) h.1
    · rcases List.mem_cons.mp hp' with rfl | hp'2
      · exact absurd (hk ▸ List.mem_map_of_mem Prod.fst hp2) h.1
      · exact ih h.2 hp2 hp'2

theorem stageRepos_cons_profile_false (env : Env) (k : String) (a : ApiRepo)
    (rest : List (String × ApiRepo)) (c : Caches)
    (h : env.inProfile a.registry a.repository = false) :
    stageRepos env ((k, a) :: rest) c = stageRepos env rest c := by
  simp [stageRepos, h]

theorem stageRepos_cons_new (env : Env) (k : String) (a : ApiRepo)
    (rest : List (String × ApiRepo)) (c : Caches)
    (hprof : env.inProfile a.registry a.repository = true)
    (hl : alookup k c.dbRepoMap = none) :
    stageRepos env ((k, a) :: rest) c =
      (stagedNewRepo a :: (stageRepos env rest c).1, (stageRepos env rest c).2) := by
  simp [stageRepos, hprof, hl]

theorem stageRepos_cons_upd (env : Env) (k : String) (a : ApiRepo)
    (rest : List (String × ApiRepo)) (c : Caches) (dbRepo : Repository)
    (hprof : env.inProfile a.registry a.repository = true)
    (hl : alookup k c.dbRepoMap = some dbRepo)
    (hlt : dbRepo.modifiedDate < a.modifiedDate) :
    stageRepos env ((k, a) :: rest) c =
      (stagedUpdRepo dbRepo a ::
          (stageRepos env rest { c with dbRepoMap := aerase k c.dbRepoMap }).1,
        (stageRepos env rest { c with dbRepoMap := aerase k c.dbRepoMap }).2) := by
  simp [stageRepos, hprof, hl, hlt]

theorem stageRepos_cons_skip (env : Env) (k : String) (a : ApiRepo)
    (rest : List (String × ApiRepo)) (c : Caches) (dbRepo : Repository)
    (hprof : env.inProfile a.registry a.repository = true)
    (hl : alookup k c.dbRepoMap = some dbRepo)
    (hnlt : ¬ dbRepo.modifiedDate < a.modifiedDate) :
    stageRepos env ((k, a) :: rest) c =
      stageRepos env rest { c with dbRepoMap := aerase k c.dbRepoMap } := by
  simp [stageRepos, hprof, hl, hnlt]

/-- Staged repositories are exactly the in-profile entries that are new to the
committed repository cache or strictly newer than it. -/
theorem stageRepos_spec (env : Env) :
    ∀ (am : List (String × ApiRepo)) (c : Caches),
      (∀ p ∈ am, p.2.pyxisID = p.1) →
      (akeys am).Nodup →
      (∀ q ∈ c.dbRepoMap, q.2.pyxisID = q.1) →
      (∀ p ∈ am, env.inProfile p.2.registry p.2.repository = true →
        alookup p.1 c.dbRepoMap = none →
        stagedNewRepo p.2 ∈ (stageRepos env am c).1) ∧
      (∀ p ∈ am, ∀ dbRepo, env.inProfile p.2.registry p.2.repository = true →
        alookup p.1 c.dbRepoMap = some dbRepo →
        dbRepo.modifiedDate < p.2.modifiedDate →
        stagedUpdRepo dbRepo p.2 ∈ (stageRepos env am c).1) ∧
      (∀ r ∈ (stageRepos env am c).1, ∃ p ∈ am,
        env.inProfile p.2.registry p.2.repository = true ∧ r.pyxisID = p.1 ∧
        ((alookup p.1 c.dbRepoMap = none ∧ r = stagedNewRepo p.2) ∨
         (∃ dbRepo, alookup p.1 c.dbRepoMap = some dbRepo ∧
           dbRepo.modifiedDate < p.2.modifiedDate ∧ r = stagedUpdRepo dbRepo p.2))) := by
  intro am
  induction am with
  | nil =>
    intro c hkeys hnodup hcache
    refine ⟨?_, ?_, ?_⟩
    · intro p hp
      cases hp
    · intro p hp
      cases hp
    · intro r hr
      cases hr
  | cons q rest ih =>
    intro c hkeys hnodup hcache
    obtain ⟨k, a⟩ := q
    have hak : a.pyxisID = k := hkeys (k, a) (List.mem_cons_self _ _)
    have hkeys' : ∀ p ∈ rest, p.2.pyxisID = p.1 :=
      fun p hp => hkeys p (List.mem_cons_of_mem _ hp)
    have hknotin : k ∉ akeys rest := by
      rw [akeys, List.map_cons, List.nodup_cons] at hnodup
      exact hnodup.1
    have hnodup' : (akeys rest).Nodup := by
      rw [akeys, List.map_cons, List.nodup_cons] at hnodup
      exact hnodup.2
    have hkne : ∀ p ∈ rest, p.1 ≠ k := by
      intro p hp heq
      exact hknotin (heq ▸ List.mem_map_of_mem Prod.fst hp)
    by_cases hprof : env.inProfile a.registry a.repository = true
    · cases hl : alookup k c.dbRepoMap with
      | none =>
        rw [stageRepos_cons_new env k a rest c hprof hl]
        obtain ⟨ih1, ih2, ih3⟩ := ih c hkeys' hnodup' hcache
        refine ⟨?_, ?_, ?_⟩
        · intro p hp hpr hnone
          rcases List.mem_cons.mp hp with rfl | hp2
          · exact List.mem_cons_self _ _
          · exact List.mem_cons_of_mem _ (ih1 p hp2 hpr hnone)
        · intro p hp dbRepo hpr hsome hlt
          rcases List.mem_cons.mp hp with rfl | hp2
          · rw [hl] at hsome
            cases hsome
          · exact List.mem_cons_of_mem _ (ih2 p hp2 dbRepo hpr hsome hlt)
        · intro r hr
          rcases List.mem_cons.mp hr with rfl | hr2
          · exact ⟨(k, a), List.mem_cons_self _ _, hprof, hak, Or.inl ⟨hl, rfl⟩⟩
          · rcases ih3 r hr2 with ⟨p, hp, hpr, hpk, hcond⟩
            exact ⟨p, List.mem_cons_of_mem _ hp, hpr, hpk, hcond⟩
      | some dbRepo =>
        have hcache' : ∀ q ∈ (aerase k c.dbRepoMap), q.2.pyxisID = q.1 :=
          fun q hq => hcache q (mem_aerase hq)
        have htrans : ∀ p ∈ rest,
            alookup p.1 (aerase k c.dbRepoMap) = alookup p.1 c.dbRepoMap :=
          fun p hp => alookup_aerase_ne (hkne p hp) _
        obtain ⟨ih1, ih2, ih3⟩ := ih { c with dbRepoMap := aerase k c.dbRepoMap }
          hkeys' hnodup' hcache'
        by_cases hlt : dbRepo.modifiedDate < a.modifiedDate
        · rw [stageRepos_cons_upd env k a rest c dbRepo hprof hl hlt]
          refine ⟨?_, ?_, ?_⟩
          · intro p hp hpr hnone
            rcases List.mem_cons.mp hp with rfl | hp2
            · rw [hl] at hnone
              cases hnone
            · exact List.mem_cons_of_mem _ (ih1 p hp2 hpr ((htrans p hp2).trans hnone))
          · intro p hp dbRepo' hpr hsome hlt'
            rcases List.mem_cons.mp hp with rfl | hp2
            · rw [hl] at hsome
              cases hsome
              exact List.mem_cons_self _ _
            · exact List.mem_cons_of_mem _
                (ih2 p hp2 dbRepo' hpr ((htrans p hp2).trans hsome) hlt')
          · intro r hr
            rcases List.mem_cons.mp hr with rfl | hr2
            · refine ⟨(k, a), List.mem_cons_self _ _, hprof, ?_, Or.inr ⟨dbRepo, hl, hlt, rfl⟩⟩
              show dbRepo.pyxisID = k
              exact hcache (k, dbRepo) (alookup_mem hl)
            · rcases ih3 r hr2 with ⟨p, hp, hpr, hpk, hcond⟩
              refine ⟨p, List.mem_cons_of_mem _ hp, hpr, hpk, ?_⟩
              rcases hcond with ⟨hnone, hr'⟩ | ⟨dbRepo', hsome, hlt', hr'⟩
              · exact Or.inl ⟨(htrans p hp).symm.trans hnone, hr'⟩
              · exact Or.inr ⟨dbRepo', (htrans p hp).symm.trans hsome, hlt', hr'⟩
        · rw [stageRepos_cons_skip env k a rest c dbRepo hprof hl hlt]
          refine ⟨?_, ?_, ?_⟩
          · intro p hp hpr hnone
            rcases List.mem_cons.mp hp with rfl | hp2
            · rw [hl] at hnone
              cases hnone
            · exact ih1 p hp2 hpr ((htrans p hp2).trans hnone)
          · intro p hp dbRepo' hpr hsome hlt'
            rcases List.mem_cons.mp hp with rfl | hp2
            · rw [hl] at hsome
              cases hsome
              exact absurd hlt' hlt
            · exact ih2 p hp2 dbRepo' hpr ((htrans p hp2).trans hsome) hlt'
          · intro r hr
            rcases ih3 r hr with ⟨p, hp, hpr, hpk, hcond⟩
            refine ⟨p, List.mem_cons_of_mem _ hp, hpr, hpk, ?_⟩
            rcases hcond with ⟨hnone, hr'⟩ | ⟨dbRepo', hsome, hlt', hr'⟩
            · exact Or.inl ⟨(htrans p hp).symm.trans hnone, hr'⟩
            · exact Or.inr ⟨dbRepo', (htrans p hp).symm.trans hsome, hlt', hr'⟩
    · rw [stageRepos_cons_profile_false env k a rest c (Bool.eq_false_iff.mpr hprof)]
      obtain ⟨ih1, ih2, ih3⟩ := ih c hkeys' hnodup' hcache
      refine ⟨?_, ?_, ?_⟩
      · intro p hp hpr hnone
        rcases List.mem_cons.mp hp with rfl | hp2
        · exact absurd hpr hprof
        · exact ih1 p hp2 hpr hnone
      · intro p hp dbRepo hpr hsome hlt
        rcases List.mem_cons.mp hp with rfl | hp2
        · exact absurd hpr hprof
        · exact ih2 p hp2 dbRepo hpr hsome hlt
      · intro r hr
        rcases ih3 r hr with ⟨p, hp, hpr, hpk, hcond⟩
        exact ⟨p, List.mem_cons_of_mem _ hp, hpr, hpk, hcond⟩

theorem stageRepos_not_staged (env : Env) (am : List (String × ApiRepo)) (c : Caches)
    (hkeys : ∀ p ∈ am, p.2.pyxisID = p.1) (hnodup : (akeys am).Nodup)
    (hcache : ∀ q ∈ c.dbRepoMap, q.2.pyxisID = q.1)
    (p : String × ApiRepo) (hp : p ∈ am) (dbRepo : Repository)
    (hsome : alookup p.1 c.dbRepoMap = some dbRepo)
    (hnlt : ¬ dbRepo.modifiedDate < p.2.modifiedDate) :
    ∀ r ∈ (stageRepos env am c).1, r.pyxisID ≠ p.1 := by
  intro r hr heq
  rcases (stageRepos_spec env am c hkeys hnodup hcache).2.2 r hr with ⟨p', hp', hpr', hpk', hcond⟩
  have hpp : p' = p := keys_nodup_entry_eq hnodup hp' hp (hpk' ▸ heq)
  subst hpp
  rcases hcond with ⟨hnone, _⟩ | ⟨dbRepo', hsome', hlt', _⟩
  · rw [hsome] at hnone
    cases hnone
  · rw [hsome] at hsome'
    cases hsome'
    exact hnlt hlt'

/-! ### Characterization of image staging -/

theorem stageImages_cons_new (c : Caches) (k : String) (a : ApiImage)
    (rest : List (String × ApiImage)) (hl : alookup k c.dbImageMap = none) :
    stageImages c ((k, a) :: rest) = stagedNewImage a :: stageImages c rest := by
  simp [stageImages, hl]

theorem stageImages_cons_upd (c : Caches) (k : String) (a : ApiImage)
    (rest : List (String × ApiImage)) (dbImage : Image)
    (hl : alookup k c.dbImageMap = some dbImage)
    (hlt : dbImage.modifiedDate < a.modifiedDate) :
    stageImages c ((k, a) :: rest) = stagedUpdImage dbImage a :: stageImages c rest := by
  simp [stageImages, hl, hlt]

theorem stageImages_cons_skip (c : Caches) (k : String) (a : ApiImage)
    (rest : List (String × ApiImage)) (dbImage : Image)
    (hl : alookup k c.dbImageMap = some dbImage)
    (hnlt : ¬ dbImage.modifiedDate < a.modifiedDate) :
    stageImages c ((k, a) :: rest) = stageImages c rest := by
  simp [stageImages, hl, hnlt]

/-- Staged images are exactly the fetched digests that are new to the
committed image cache or strictly newer than it. -/
theorem stageImages_spec (c : Caches) :
    ∀ am : List (String × ApiImage),
      (∀ p ∈ am, p.2.digest = p.1) →
      (akeys am).Nodup →
      (∀ q ∈ c.dbImageMap, q.2.digest = q.1) →
      (∀ p ∈ am, alookup p.1 c.dbImageMap = none →
        stagedNewImage p.2 ∈ stageImages c am) ∧
      (∀ p ∈ am, ∀ dbImage, alookup p.1 c.dbImageMap = some dbImage →
        dbImage.modifiedDate < p.2.modifiedDate →
        stagedUpdImage dbImage p.2 ∈ stageImages c am) ∧
      (∀ i ∈ stageImages c am, ∃ p ∈ am, i.digest = p.1 ∧
        ((alookup p.1 c.dbImageMap = none ∧ i = stagedNewImage p.2) ∨
         (∃ dbImage, alookup p.1 c.dbImageMap = some dbImage ∧
           dbImage.modifiedDate < p.2.modifiedDate ∧ i = stagedUpdImage dbImage p.2))) := by
  intro am
  induction am with
  | nil =>
    intro hkeys hnodup hcache
    refine ⟨?_, ?_, ?_⟩
    · intro p hp
      cases hp
    · intro p hp
      cases hp
    · intro i hi
      cases hi
  | cons q rest ih =>
    intro hkeys hnodup hcache
    obtain ⟨k, a⟩ := q
    have hak : a.digest = k := hkeys (k, a) (List.mem_cons_self _ _)
    have hkeys' : ∀ p ∈ rest, p.2.digest = p.1 :=
      fun p hp => hkeys p (List.mem_cons_of_mem _ hp)
    have hnodup' : (akeys rest).Nodup := by
      rw [akeys, List.map_cons, List.nodup_cons] at hnodup
      exact hnodup.2
    obtain ⟨ih1, ih2, ih3⟩ := ih hkeys' hnodup' hcache
    cases hl : alookup k c.dbImageMap with
    | none =>
      rw [stageImages_cons_new c k a rest hl]
      refine ⟨?_, ?_, ?_⟩
      · intro p hp hnone
        rcases List.mem_cons.mp hp with rfl | hp2
        · exact List.mem_cons_self _ _
        · exact List.mem_cons_of_mem _ (ih1 p hp2 hnone)
      · intro p hp dbImage hsome hlt
        rcases List.mem_cons.mp hp with rfl | hp2
        · rw [hl] at hsome
          cases hsome
        · exact List.mem_cons_of_mem _ (ih2 p hp2 dbImage hsome hlt)
      · intro i hi
        rcases List.mem_cons.mp hi with rfl | hi2
        · exact ⟨(k, a), List.mem_cons_self _ _, hak, Or.inl ⟨hl, rfl⟩⟩
        · rcases ih3 i hi2 with ⟨p, hp, hpk, hcond⟩
          exact ⟨p, List.mem_cons_of_mem _ hp, hpk, hcond⟩
    | some dbImage =>
      by_cases hlt : dbImage.modifiedDate < a.modifiedDate
      · rw [stageImages_cons_upd c k a rest dbImage hl hlt]
        refine ⟨?_, ?_, ?_⟩
        · intro p hp hnone
          rcases List.mem_cons.mp hp with rfl | hp2
          · rw [hl] at hnone
            cases hnone
          · exact List.mem_cons_of_mem _ (ih1 p hp2 hnone)
        · intro p hp dbImage' hsome hlt'
          rcases List.mem_cons.mp hp with rfl | hp2
          · rw [hl] at hsome
            cases hsome
            exact List.mem_cons_self _ _
          · exact List.mem_cons_of_mem _ (ih2 p hp2 dbImage' hsome hlt')
        · intro i hi
          rcases List.mem_cons.mp hi with rfl | hi2
          · refine ⟨(k, a), List.mem_cons_self _ _, ?_, Or.inr ⟨dbImage, hl, hlt, rfl⟩⟩
            show dbImage.digest = k
            exact hcache (k, dbImage) (alookup_mem hl)
          · rcases ih3 i hi2 with ⟨p, hp, hpk, hcond⟩
            exact ⟨p, List.mem_cons_of_mem _ hp, hpk, hcond⟩
      · rw [stageImages_cons_skip c k a rest dbImage hl hlt]
        refine ⟨?_, ?_, ?_⟩
        · intro p hp hnone
          rcases List.mem_cons.mp hp with rfl | hp2
          · rw [hl] at hnone
            cases hnone
          · exact ih1 p hp2 hnone
        · intro p hp dbImage' hsome hlt'
          rcases List.mem_cons.mp hp with rfl | hp2
          · rw [hl] at hsome
            cases hsome
            exact absurd hlt' hlt
          · exact ih2 p hp2 dbImage' hsome hlt'
        · intro i hi
          rcases ih3 i hi with ⟨p, hp, hpk, hcond⟩
          exact ⟨p, List.mem_cons_of_mem _ hp, hpk, hcond⟩

theorem stageImages_not_staged (c : Caches) (am : List (String × ApiImage))
    (hkeys : ∀ p ∈ am, p.2.digest = p.1) (hnodup : (akeys am).Nodup)
    (hcache : ∀ q ∈ c.dbImageMap, q.2.digest = q.1)
    (p : String × ApiImage) (hp : p ∈ am) (dbImage : Image)
    (hsome : alookup p.1 c.dbImageMap = some dbImage)
    (hnlt : ¬ dbImage.modifiedDate < p.2.modifiedDate) :
    ∀ i ∈ stageImages c am, i.digest ≠ p.1 := by
  intro i hi heq
  rcases (stageImages_spec c am hkeys hnodup hcache).2.2 i hi with ⟨p', hp', hpk', hcond⟩
  have hpp : p' = p := keys_nodup_entry_eq hnodup hp' hp (hpk' ▸ heq)
  subst hpp
  rcases hcond with ⟨hnone, _⟩ | ⟨dbImage', hsome', hlt', _⟩
  · rw [hsome] at hnone
    cases hnone
  · rw [hsome] at hsome'
    cases hsome'
    exact hnlt hlt'

/-- Staged image digests follow the fetched keys in order, hence are distinct
when the keys are. -/
theorem stageImages_digests_sublist (c : Caches) :
    ∀ am : List (String × ApiImage),
      (∀ p ∈ am, p.2.digest = p.1) →
      (∀ q ∈ c.dbImageMap, q.2.digest = q.1) →
      ((stageImages c am).map (fun i => i.digest)).Sublist (akeys am) := by
  intro am
  induction am with
  | nil =>
    intro hkeys hcache
    exact List.Sublist.refl _
  | cons q rest ih =>
    intro hkeys hcache
    obtain ⟨k, a⟩ := q
    have hak : a.digest = k := hkeys (k, a) (List.mem_cons_self _ _)
    have hkeys' : ∀ p ∈ rest, p.2.digest = p.1 :=
      fun p hp => hkeys p (List.mem_cons_of_mem _ hp)
    have htail := ih hkeys' hcache
    cases hl : alookup k c.dbImageMap with
    | none =>
      rw [stageImages_cons_new c k a rest hl]
      show (a.digest :: (stageImages c rest).map (fun i => i.digest)).Sublist (k :: akeys rest)
      rw [hak]
      exact List.Sublist.cons₂ k htail
    | some dbImage =>
      by_cases hlt : dbImage.modifiedDate < a.modifiedDate
      · rw [stageImages_cons_upd c k a rest dbImage hl hlt]
        show (dbImage.digest :: (stageImages c rest).map (fun i => i.digest)).Sublist (k :: akeys rest)
        rw [hcache (k, dbImage) (alookup_mem hl)]
        exact List.Sublist.cons₂ k htail
      · rw [stageImages_cons_skip c k a rest dbImage hl hlt]
        exact htail.cons k

/-! ### A failure-free environment lets every sync succeed -/

/-- The environment raises no failures: the write oracle never fires, every
catalog fetch succeeds, and the bootstrap succeeds. -/
abbrev EnvOk (env : Env) : Prop :=
  (∀ n, env.dbFailAt n = false) ∧
  (∀ r p, ∃ v, env.apiRepoImages r p = .ok v) ∧
  (∀ p, ∃ v, env.apiImageCves p = .ok v) ∧
  env.bootError = none ∧ (∃ v, env.apiRepositories = .ok v)

theorem dbWrite_ok {env : Env} (henv : ∀ n, env.dbFailAt n = false) (n : Nat) :
    dbWrite env n = .ok (n + 1) := by
  unfold dbWrite
  rw [henv n]
  rfl

theorem upsertImage_ok (env : Env) (henv : ∀ n, env.dbFailAt n = false)
    (ctx : TxCtx) (image : Image) : ∃ up, upsertImage env ctx image = .ok up := by
  unfold upsertImage
  rw [dbWrite_ok henv]
  split <;> exact ⟨_, rfl⟩

theorem upsertRepo_ok (env : Env) (henv : ∀ n, env.dbFailAt n = false)
    (repo : Repository) (committed : Store) (caches : Caches) (ops : Nat) :
    ∃ up, upsertRepo env repo committed caches ops = .ok up := by
  unfold upsertRepo
  rw [dbWrite_ok henv]
  split <;> exact ⟨_, rfl⟩

theorem registerMissingCves_ok (env : Env) (henv : ∀ n, env.dbFailAt n = false)
    (ctx : TxCtx) (names : List String) :
    ∃ ctx', registerMissingCves env ctx names = .ok ctx' := by
  unfold registerMissingCves
  rw [dbWrite_ok henv]
  split <;> exact ⟨_, rfl⟩

theorem getAPIImageCves_ok {env : Env} (h : ∀ p, ∃ v, env.apiImageCves p = .ok v)
    (p : String) : ∃ names, getAPIImageCves env p = .ok names := by
  unfold getAPIImageCves
  rcases h p with ⟨v, hv⟩
  rw [hv]
  exact ⟨_, rfl⟩

theorem getAPIRepoImages_ok {env : Env} (h : ∀ r p, ∃ v, env.apiRepoImages r p = .ok v)
    (r p : String) : ∃ am, getAPIRepoImages env r p = .ok am := by
  unfold getAPIRepoImages
  rcases h r p with ⟨v, hv⟩
  rw [hv]
  exact ⟨_, rfl⟩

theorem getAPIRepoImages_keys {env : Env} {r p : String} {am : List (String × ApiImage)}
    (h : getAPIRepoImages env r p = .ok am) :
    (∀ q ∈ am, q.2.digest = q.1) ∧ (akeys am).Nodup := by
  unfold getAPIRepoImages at h
  split at h
  next e heq => cases h
  next imgs heq =>
    cases h
    exact ⟨fun q hq => (mem_buildMap hq).2, akeys_buildMap_nodup⟩

theorem insertImageCves_ok (env : Env) (henv : ∀ n, env.dbFailAt n = false)
    (ctx : TxCtx) (ins : List ImageCve) : ∃ ctx', insertImageCves env ctx ins = .ok ctx' := by
  unfold insertImageCves
  rw [dbWrite_ok henv]
  split <;> exact ⟨_, rfl⟩

theorem deleteImageCvesStage_ok (env : Env) (henv : ∀ n, env.dbFailAt n = false)
    (ctx : TxCtx) (del : List ImageCve) : ∃ ctx', deleteImageCvesStage env ctx del = .ok ctx' := by
  unfold deleteImageCvesStage
  rw [dbWrite_ok henv]
  split <;> exact ⟨_, rfl⟩

theorem applyImageCveWrites_ok (env : Env) (henv : ∀ n, env.dbFailAt n = false)
    (ctx : TxCtx) (ins del : List ImageCve) :
    ∃ ctx', applyImageCveWrites env ctx ins del = .ok ctx' := by
  obtain ⟨c1, h1⟩ := insertImageCves_ok env henv ctx ins
  obtain ⟨c2, h2⟩ := deleteImageCvesStage_ok env henv c1 del
  refine ⟨c2, ?_⟩
  unfold applyImageCveWrites
  rw [h1]
  exact h2

theorem insertRepositoryImages_ok (env : Env) (henv : ∀ n, env.dbFailAt n = false)
    (ctx : TxCtx) (ins : List RepositoryImage) :
    ∃ ctx', insertRepositoryImages env ctx ins = .ok ctx' := by
  unfold insertRepositoryImages
  rw [dbWrite_ok henv]
  split <;> exact ⟨_, rfl⟩

theorem deleteRepositoryImagesStage_ok (env : Env) (henv : ∀ n, env.dbFailAt n = false)
    (ctx : TxCtx) (del : List RepositoryImage) :
    ∃ ctx', deleteRepositoryImagesStage env ctx del = .ok ctx' := by
  unfold deleteRepositoryImagesStage
  rw [dbWrite_ok henv]
  split <;> exact ⟨_, rfl⟩

theorem applyRepoImageWrites_ok (env : Env) (henv : ∀ n, env.dbFailAt n = false)
    (ctx : TxCtx) (ins del : List RepositoryImage) :
    ∃ ctx', applyRepoImageWrites env ctx ins del = .ok ctx' := by
  obtain ⟨c1, h1⟩ := insertRepositoryImages_ok env henv ctx ins
  obtain ⟨c2, h2⟩ := deleteRepositoryImagesStage_ok env henv c1 del
  refine ⟨c2, ?_⟩
  unfold applyRepoImageWrites
  rw [h1]
  exact h2

theorem syncImage_ok (env : Env) (henv1 : ∀ n, env.dbFailAt n = false)
    (henv3 : ∀ p, ∃ v, env.apiImageCves p = .ok v) (ctx : TxCtx) (image : Image) :
    ∃ ctx', syncImage env ctx image = .ok ctx' := by
  obtain ⟨up, hup⟩ := upsertImage_ok env henv1 ctx image
  obtain ⟨names, hn⟩ := getAPIImageCves_ok henv3 up.2.pyxisID
  obtain ⟨ctx₂, hr⟩ := registerMissingCves_ok env henv1 up.1 names
  obtain ⟨delta, hd⟩ := imageCveDelta_ok_of_resolve ctx₂.caches up.2.id names []
    (getDbImageCves ctx₂.store up.2.id) (registerMissingCves_resolves hr)
  obtain ⟨ctx', ha⟩ := applyImageCveWrites_ok env henv1 ctx₂ delta.1 (delta.2.map (fun p => p.2))
  refine ⟨ctx', ?_⟩
  simp only [syncImage, hup, hn, hr, hd]
  exact ha

theorem syncImages_ok (env : Env) (henv1 : ∀ n, env.dbFailAt n = false)
    (henv3 : ∀ p, ∃ v, env.apiImageCves p = .ok v) :
    ∀ (ctx : TxCtx) (l : List Image), ∃ ctx', syncImages env ctx l = .ok ctx' := by
  intro ctx l
  induction l generalizing ctx with
  | nil => exact ⟨ctx, rfl⟩
  | cons image rest ih =>
    obtain ⟨ctx₁, h1⟩ := syncImage_ok env henv1 henv3 ctx image
    obtain ⟨ctx', h2⟩ := ih ctx₁
    refine ⟨ctx', ?_⟩
    unfold syncImages
    rw [h1]
    exact h2

/-- With a failure-free environment, every repository sync commits. -/
theorem syncRepo_ok (env : Env) (henv : EnvOk env) (repo : Repository)
    (committed : Store) (caches : Caches) (ops : Nat) :
    ∃ ctx', syncRepo env repo committed caches ops = .ok ctx' := by
  obtain ⟨henv1, henv2, henv3, henv4, henv5⟩ := henv
  obtain ⟨up, hup⟩ := upsertRepo_ok env henv1 repo committed caches ops
  obtain ⟨am, ham⟩ := getAPIRepoImages_ok henv2 up.2.registry up.2.repository
  obtain ⟨ctx₂, hsync⟩ := syncImages_ok env henv1 henv3 up.1 (stageImages up.1.caches am)
  have hres : ∀ d ∈ am.map (fun p => p.1), (resolveImage ctx₂.caches d).isSome := by
    intro d hd
    rcases List.mem_map.mp hd with ⟨p, hp, rfl⟩
    rcases stageImages_covers up.1.caches am p hp with h | ⟨i, hi, h0, hdig⟩
    · have hmap : ctx₂.caches.dbImageMap = up.1.caches.dbImageMap :=
        (syncImages_frame hsync).2.2.2.2.1
      exact resolveImage_isSome (Or.inl (hmap ▸ h))
    · have hpend := (syncImages_pend hsync).2 i hi h0
      rw [hdig, (getAPIRepoImages_keys ham).1 p hp] at hpend
      exact resolveImage_isSome (Or.inr hpend)
  obtain ⟨delta, hdel⟩ := repoImageDelta_ok_of_resolve ctx₂.caches up.2.id
    (am.map (fun p => p.1)) [] (getDbRepositoryImages ctx₂.store up.2.id) hres
  obtain ⟨ctx', ha⟩ := applyRepoImageWrites_ok env henv1 ctx₂ delta.1 (delta.2.map (fun p => p.2))
  refine ⟨ctx', ?_⟩
  simp only [syncRepo, hup, ham, hsync, hdel]
  exact ha

/-- The effect of a committed `syncRepo` on the repository table. -/
theorem syncRepo_repos_eq {env : Env} {repo : Repository} {committed : Store} {caches : Caches}
    {ops : Nat} {ctx' : TxCtx} (h : syncRepo env repo committed caches ops = .ok ctx') :
    (repo.id = 0 →
      ctx'.store.repos = committed.repos ++ [{ repo with id := committed.nextRepoID }] ∧
      ctx'.store.nextRepoID = committed.nextRepoID + 1) ∧
    (repo.id ≠ 0 →
      ctx'.store.repos = committed.repos.map (fun r => if r.id = repo.id then repo else r) ∧
      ctx'.store.nextRepoID = committed.nextRepoID) := by
  rcases syncRepo_ok_elim h with ⟨up, am, ctx₂, delta, hu, ha, hs, hd, haw⟩
  have hframe := syncImages_frame hs
  have happly : ctx'.store.repos = ctx₂.store.repos ∧
      ctx'.store.nextRepoID = ctx₂.store.nextRepoID := by
    rcases applyRepoImageWrites_ok_elim haw with ⟨c1, hi, hdel2⟩
    rcases insertRepositoryImages_ok_elim hi with ⟨_, rfl⟩ | ⟨ops2, hw2, rfl⟩ <;>
      rcases deleteRepositoryImagesStage_ok_elim hdel2 with ⟨_, rfl⟩ | ⟨ops3, hw3, rfl⟩ <;>
        exact ⟨rfl, rfl⟩
  rcases upsertRepo_ok_elim hu with ⟨ops2, hw, ⟨h0, rfl⟩ | ⟨h0, rfl⟩⟩
  · refine ⟨fun _ => ⟨?_, ?_⟩, fun h0' => absurd h0 h0'⟩
    · rw [happly.1, hframe.1]
    · rw [happly.2, hframe.2.2.1]
  · refine ⟨fun h0' => absurd h0' h0, fun _ => ⟨?_, ?_⟩⟩
    · rw [happly.1, hframe.1]
    · rw [happly.2, hframe.2.2.1]

/-! ### Run-level invariants of the repository table -/

theorem map_nodup_entry_eq {α β : Type} {f : α → β} {l : List α} {x y : α}
    (h : (l.map f).Nodup) (hx : x ∈ l) (hy : y ∈ l) (hf : f x = f y) : x = y := by
  induction l with
  | nil => cases hx
  | cons a rest ih =>
    rw [List.map_cons, List.nodup_cons] at h
    rcases List.mem_cons.mp hx with rfl | hx2
    · rcases List.mem_cons.mp hy with rfl | hy2
      · rfl
      · exact absurd (hf ▸ List.mem_map_of_mem f hy2) h.1
    · rcases List.mem_cons.mp hy with rfl | hy2
      · exact absurd (hf ▸ List.mem_map_of_mem f hx2) h.1
      · exact ih h.2 hx2 hy2

/-- Well-formedness of the repository table: distinct ids, distinct pyxis
ids, and ids positive and below the sequence value. -/
abbrev RWF (s : Store) : Prop :=
  (s.repos.map (fun r => r.id)).Nodup ∧
  (s.repos.map (fun r => r.pyxisID)).Nodup ∧
  (∀ r ∈ s.repos, 0 < r.id ∧ r.id < s.nextRepoID) ∧
  0 < s.nextRepoID

/-- Validity of a staged repository list against the current store: fresh
rows (id 0) have new pyxis ids, re-staged rows match an existing row by id
and pyxis id, and the staged pyxis ids are distinct. -/
abbrev StagedOk (s : Store) (l : List Repository) : Prop :=
  (∀ r ∈ l, r.id = 0 → ∀ row ∈ s.repos, row.pyxisID ≠ r.pyxisID) ∧
  (∀ r ∈ l, r.id ≠ 0 → ∃ row ∈ s.repos, row.id = r.id ∧ row.pyxisID = r.pyxisID) ∧
  (l.map (fun r => r.pyxisID)).Nodup

theorem processRepo_step (env : Env) (henv : EnvOk env) (repo : Repository) (s : RunState)
    (rest : List Repository)
    (hwf : RWF s.store) (hstaged : StagedOk s.store (repo :: rest)) :
    RWF (processRepo env repo s).store ∧
    StagedOk (processRepo env repo s).store rest ∧
    (∃ row ∈ (processRepo env repo s).store.repos,
      row.pyxisID = repo.pyxisID ∧ row.modifiedDate = repo.modifiedDate ∧ 0 < row.id ∧
      (∀ r ∈ rest, r.id ≠ row.id)) ∧
    (∀ row ∈ s.store.repos, row.id ≠ repo.id → row ∈ (processRepo env repo s).store.repos) ∧
    (processRepo env repo s).store.nextRepoID = s.store.nextRepoID + (if repo.id = 0 then 1 else 0) := by
  obtain ⟨ctx', hok⟩ := syncRepo_ok env henv repo s.store s.caches s.writeOps
  have hpr : processRepo env repo s =
      { store := ctx'.store, caches := flushPendingCache ctx'.caches, writeOps := ctx'.writeOps } := by
    unfold processRepo
    rw [hok]
  rw [hpr]
  have hre := syncRepo_repos_eq hok
  obtain ⟨hids, hpyx, hbound, hnpos⟩ := hwf
  obtain ⟨hs0, hsn, hsnodup⟩ := hstaged
  have hsnodup' : (rest.map (fun r => r.pyxisID)).Nodup := by
    rw [List.map_cons, List.nodup_cons] at hsnodup
    exact hsnodup.2
  have hheadpyx : repo.pyxisID ∉ rest.map (fun r => r.pyxisID) := by
    rw [List.map_cons, List.nodup_cons] at hsnodup
    exact hsnodup.1
  by_cases h0 : repo.id = 0
  · obtain ⟨hrepos, hnext⟩ := hre.1 h0
    have hfreshpyx : ∀ row ∈ s.store.repos, row.pyxisID ≠ repo.pyxisID :=
      hs0 repo (List.mem_cons_self _ _) h0
    refine ⟨⟨?_, ?_, ?_, ?_⟩, ⟨?_, ?_, hsnodup'⟩, ?_, ?_, ?_⟩
    · rw [hrepos, List.map_append, List.nodup_append]
      refine ⟨hids, List.nodup_singleton _, ?_⟩
      intro x hx hx2
      rcases List.mem_map.mp hx with ⟨r, hr, rfl⟩
      simp only [List.map_cons, List.map_nil, List.mem_singleton] at hx2
      have hb := (hbound r hr).2
      omega
    · rw [hrepos, List.map_append, List.nodup_append]
      refine ⟨hpyx, List.nodup_singleton _, ?_⟩
      intro x hx hx2
      rcases List.mem_map.mp hx with ⟨r, hr, rfl⟩
      simp only [List.map_cons, List.map_nil, List.mem_singleton] at hx2
      exact hfreshpyx r hr hx2
    · rw [hrepos]
      intro r hr
      rcases List.mem_append.mp hr with hr' | hr'
      · rw [hnext]
        exact ⟨(hbound r hr').1, Nat.lt_succ_of_lt (hbound r hr').2⟩
      · rcases List.mem_singleton.mp hr' with rfl
        rw [hnext]
        exact ⟨hnpos, Nat.lt_succ_self _⟩
    · rw [hnext]
      exact Nat.succ_pos _
    · intro r hr hr0 row hrow
      rw [hrepos] at hrow
      rcases List.mem_append.mp hrow with hrow' | hrow'
      · exact hs0 r (List.mem_cons_of_mem _ hr) hr0 row hrow'
      · rcases List.mem_singleton.mp hrow' with rfl
        show repo.pyxisID ≠ r.pyxisID
        intro heq
        exact hheadpyx (heq ▸ List.mem_map_of_mem (fun r => r.pyxisID) hr)
    · intro r hr hrn
      rcases hsn r (List.mem_cons_of_mem _ hr) hrn with ⟨row, hrow, hrid, hrpyx⟩
      rw [hrepos]
      exact ⟨row, List.mem_append_left _ hrow, hrid, hrpyx⟩
    · refine ⟨{ repo with id := s.store.nextRepoID }, ?_, rfl, rfl, hnpos, ?_⟩
      · rw [hrepos]
        exact List.mem_append_right _ (List.mem_singleton.mpr rfl)
      · intro r hr heq
        by_cases hr0 : r.id = 0
        · rw [hr0] at heq
          exact absurd heq.symm (Nat.ne_of_gt hnpos)
        · rcases hsn r (List.mem_cons_of_mem _ hr) hr0 with ⟨row, hrow, hrid, _⟩
          rw [← hrid] at heq
          exact absurd (heq ▸ (hbound row hrow).2) (Nat.lt_irrefl _)
    · intro row hrow hne
      rw [hrepos]
      exact List.mem_append_left _ hrow
    · rw [hnext, if_pos h0]
  · obtain ⟨hrepos, hnext⟩ := hre.2 h0
    rcases hsn repo (List.mem_cons_self _ _) h0 with ⟨row₀, hrow₀, hr₀id, hr₀pyx⟩
    have hmatch_eq : ∀ r ∈ s.store.repos, r.id = repo.id → r = row₀ := by
      intro r hr hrid
      exact map_nodup_entry_eq hids hr hrow₀ (by rw [hrid, hr₀id])
    have hidseq : ctx'.store.repos.map (fun r => r.id) = s.store.repos.map (fun r => r.id) := by
      rw [hrepos, List.map_map]
      apply List.map_congr_left
      intro r hr
      by_cases hri : r.id = repo.id
      · simp [Function.comp, hri]
      · simp [Function.comp, hri]
    have hpyxeq : ctx'.store.repos.map (fun r => r.pyxisID) =
        s.store.repos.map (fun r => r.pyxisID) := by
      rw [hrepos, List.map_map]
      apply List.map_congr_left
      intro r hr
      by_cases hri : r.id = repo.id
      · have : r = row₀ := hmatch_eq r hr hri
        subst this
        simp [Function.comp, hri, hr₀pyx]
      · simp [Function.comp, hri]
    have hmem_save : ∀ row ∈ s.store.repos, row.id ≠ repo.id → row ∈ ctx'.store.repos := by
      intro row hrow hne
      rw [hrepos]
      exact List.mem_map.mpr ⟨row, hrow, by rw [if_neg hne]⟩
    have hrestne : ∀ r ∈ rest, r.id ≠ repo.id := by
      intro r hr heq
      by_cases hr0 : r.id = 0
      · exact h0 (hr0 ▸ heq.symm)
      · rcases hsn r (List.mem_cons_of_mem _ hr) hr0 with ⟨row, hrow, hrid, hrpyx⟩
        have : row = row₀ := hmatch_eq row hrow (by rw [hrid, heq])
        subst this
        have : r.pyxisID = repo.pyxisID := by rw [← hrpyx, hr₀pyx]
        exact hheadpyx (this ▸ List.mem_map_of_mem (fun r => r.pyxisID) hr)
    refine ⟨⟨?_, ?_, ?_, ?_⟩, ⟨?_, ?_, hsnodup'⟩, ?_, hmem_save, ?_⟩
    · rw [hidseq]
      exact hids
    · rw [hpyxeq]
      exact hpyx
    · intro r hr
      rw [hrepos] at hr
      rcases List.mem_map.mp hr with ⟨r', hr', rfl⟩
      by_cases hri : r'.id = repo.id
      · rw [if_pos hri, hnext]
        have he : r' = row₀ := hmatch_eq r' hr' hri
        subst he
        exact ⟨Nat.pos_of_ne_zero h0, hr₀id ▸ (hbound r' hr').2⟩
      · rw [if_neg hri, hnext]
        exact hbound r' hr'
    · rw [hnext]
      exact hnpos
    · intro r hr hr0 row hrow
      rw [hrepos] at hrow
      rcases List.mem_map.mp hrow with ⟨row', hrow', rfl⟩
      by_cases hri : row'.id = repo.id
      · rw [if_pos hri]
        show repo.pyxisID ≠ r.pyxisID
        intro heq
        exact hheadpyx (heq ▸ List.mem_map_of_mem (fun r => r.pyxisID) hr)
      · rw [if_neg hri]
        exact hs0 r (List.mem_cons_of_mem _ hr) hr0 row' hrow'
    · intro r hr hrn
      rcases hsn r (List.mem_cons_of_mem _ hr) hrn with ⟨row, hrow, hrid, hrpyx⟩
      have hrowne : row.id ≠ repo.id := by
        rw [hrid]
        exact hrestne r hr
      exact ⟨row, hmem_save row hrow hrowne, hrid, hrpyx⟩
    · refine ⟨repo, ?_, rfl, rfl, Nat.pos_of_ne_zero h0, hrestne⟩
      rw [hrepos]
      exact List.mem_map.mpr ⟨row₀, hrow₀, if_pos hr₀id⟩
    · rw [hnext, if_neg h0]
      omega

/-- Driving all staged repositories through a failure-free loop: the table
stays well-formed, every staged repository ends with a row carrying its pyxis
id and timestamp, and rows whose id no staged repository carries survive
untouched. -/
theorem syncLoop_repos (env : Env) (henv : EnvOk env) :
    ∀ (l : List Repository) (s : RunState), RWF s.store → StagedOk s.store l →
      RWF (syncLoop env l s).store ∧
      (∀ r ∈ l, ∃ row ∈ (syncLoop env l s).store.repos,
        row.pyxisID = r.pyxisID ∧ row.modifiedDate = r.modifiedDate) ∧
      (∀ row ∈ s.store.repos, (∀ r ∈ l, r.id ≠ row.id) →
        row ∈ (syncLoop env l s).store.repos) := by
  intro l
  induction l with
  | nil =>
    intro s hwf hstaged
    exact ⟨hwf, fun r hr => absurd hr (List.not_mem_nil r), fun row hrow _ => hrow⟩
  | cons repo rest ih =>
    intro s hwf hstaged
    obtain ⟨hwf', hstaged', ⟨row₀, hrow₀, hr₀pyx, hr₀md, hr₀pos, hr₀ne⟩, hkeep, hnext⟩ :=
      processRepo_step env henv repo s rest hwf hstaged
    obtain ⟨ihwf, ihstage, ihkeep⟩ := ih (processRepo env repo s) hwf' hstaged'
    refine ⟨ihwf, ?_, ?_⟩
    · intro r hr
      rcases List.mem_cons.mp hr with rfl | hr2
      · exact ⟨row₀, ihkeep row₀ hrow₀ hr₀ne, hr₀pyx, hr₀md⟩
      · exact ihstage r hr2
    · intro row hrow hne
      have hrow' : row ∈ (processRepo env repo s).store.repos :=
        hkeep row hrow (fun heq => hne repo (List.mem_cons_self _ _) heq.symm)
      exact ihkeep row hrow' (fun r hr => hne r (List.mem_cons_of_mem _ hr))

theorem stageRepos_pyxisIDs_sublist (env : Env) :
    ∀ (am : List (String × ApiRepo)) (c : Caches),
      (∀ p ∈ am, p.2.pyxisID = p.1) →
      (∀ q ∈ c.dbRepoMap, q.2.pyxisID = q.1) →
      ((stageRepos env am c).1.map (fun r => r.pyxisID)).Sublist (akeys am) := by
  intro am
  induction am with
  | nil =>
    intro c hkeys hcache
    exact List.Sublist.refl _
  | cons q rest ih =>
    intro c hkeys hcache
    obtain ⟨k, a⟩ := q
    have hak : a.pyxisID = k := hkeys (k, a) (List.mem_cons_self _ _)
    have hkeys' : ∀ p ∈ rest, p.2.pyxisID = p.1 :=
      fun p hp => hkeys p (List.mem_cons_of_mem _ hp)
    by_cases hprof : env.inProfile a.registry a.repository = true
    · cases hl : alookup k c.dbRepoMap with
      | none =>
        rw [stageRepos_cons_new env k a rest c hprof hl]
        show (a.pyxisID :: (stageRepos env rest c).1.map (fun r => r.pyxisID)).Sublist (k :: akeys rest)
        rw [hak]
        exact List.Sublist.cons₂ k (ih c hkeys' hcache)
      | some dbRepo =>
        have hcache' : ∀ q' ∈ (aerase k c.dbRepoMap), q'.2.pyxisID = q'.1 :=
          fun q' hq' => hcache q' (mem_aerase hq')
        by_cases hlt : dbRepo.modifiedDate < a.modifiedDate
        · rw [stageRepos_cons_upd env k a rest c dbRepo hprof hl hlt]
          show (dbRepo.pyxisID ::
            (stageRepos env rest { c with dbRepoMap := aerase k c.dbRepoMap }).1.map
              (fun r => r.pyxisID)).Sublist (k :: akeys rest)
          rw [hcache (k, dbRepo) (alookup_mem hl)]
          exact List.Sublist.cons₂ k
            (ih { c with dbRepoMap := aerase k c.dbRepoMap } hkeys' hcache')
        · rw [stageRepos_cons_skip env k a rest c dbRepo hprof hl hlt]
          exact (ih { c with dbRepoMap := aerase k c.dbRepoMap } hkeys' hcache').cons k
    · rw [stageRepos_cons_profile_false env k a rest c (Bool.eq_false_iff.mpr hprof)]
      exact (ih c hkeys' hcache).cons k

theorem prepareMaps_repo_keys (s : Store) :
    ∀ q ∈ (prepareMaps s).dbRepoMap, q.2.pyxisID = q.1 :=
  fun q hq => (mem_buildMap hq).2

theorem prepareMaps_repo_some {s : Store} {k : String} {r : Repository}
    (h : alookup k (prepareMaps s).dbRepoMap = some r) : r ∈ s.repos ∧ r.pyxisID = k :=
  alookup_buildMap_of_some h

theorem prepareMaps_repo_none {s : Store} {k : String}
    (h : alookup k (prepareMaps s).dbRepoMap = none) : ∀ r ∈ s.repos, r.pyxisID ≠ k :=
  alookup_buildMap_eq_none_iff.mp h

/-- After a failure-free run, every in-profile fetched repository has a stored
row under its pyxis id whose timestamp is at least the fetched one, and the
table is still well-formed. -/
theorem run_establishes_repo_timestamps (env : Env) (henv : EnvOk env) (s0 : Store)
    (hwf : RWF s0) (repoList : List ApiRepo) (caches : Caches) (ops : Nat)
    (s1 : RunState)
    (h1 : s1 = syncLoop env
      (stageRepos env (buildMap (fun r => r.pyxisID) repoList) (prepareMaps s0)).1
      { store := s0, caches := caches, writeOps := ops }) :
    RWF s1.store ∧
    (∀ p ∈ buildMap (fun r => r.pyxisID) repoList,
      env.inProfile p.2.registry p.2.repository = true →
      (∃ row ∈ s1.store.repos, row.pyxisID = p.1) ∧
      (∀ row ∈ s1.store.repos, row.pyxisID = p.1 →
        p.2.modifiedDate ≤ row.modifiedDate)) := by
  set am := buildMap (fun r => r.pyxisID) repoList with ham
  set c0 := prepareMaps s0 with hc0
  have hamkeys : ∀ p ∈ am, p.2.pyxisID = p.1 := fun p hp => (mem_buildMap hp).2
  have hamnodup : (akeys am).Nodup := akeys_buildMap_nodup
  have hckeys : ∀ q ∈ c0.dbRepoMap, q.2.pyxisID = q.1 := prepareMaps_repo_keys s0
  obtain ⟨spec1, spec2, spec3⟩ := stageRepos_spec env am c0 hamkeys hamnodup hckeys
  set staged := (stageRepos env am c0).1 with hstg
  have hstagednodup : (staged.map (fun r => r.pyxisID)).Nodup :=
    (stageRepos_pyxisIDs_sublist env am c0 hamkeys hckeys).nodup hamnodup
  have hstagedok : StagedOk s0 staged := by
    refine ⟨?_, ?_, hstagednodup⟩
    · intro r hr hr0 row hrow
      rcases spec3 r hr with ⟨p, hp, hpr, hpk, hcond⟩
      rcases hcond with ⟨hnone, hreq⟩ | ⟨dbRepo, hsome, hlt, hreq⟩
      · intro heq
        exact prepareMaps_repo_none hnone row hrow (heq.trans hpk)
      · subst hreq
        have hdb := prepareMaps_repo_some hsome
        have h0 : 0 < dbRepo.id := (hwf.2.2.1 dbRepo hdb.1).1
        have hid : (stagedUpdRepo dbRepo p.2).id = dbRepo.id := rfl
        rw [hid] at hr0
        omega
    · intro r hr hrn
      rcases spec3 r hr with ⟨p, hp, hpr, hpk, hcond⟩
      rcases hcond with ⟨hnone, hreq⟩ | ⟨dbRepo, hsome, hlt, hreq⟩
      · subst hreq
        exact absurd rfl hrn
      · subst hreq
        have hdb := prepareMaps_repo_some hsome
        exact ⟨dbRepo, hdb.1, rfl, rfl⟩
  have hloop := syncLoop_repos env henv staged
    { store := s0, caches := caches, writeOps := ops } hwf hstagedok
  rw [h1]
  refine ⟨hloop.1, ?_⟩
  intro p hp hprof
  have hfound : ∃ row ∈ (syncLoop env staged
      { store := s0, caches := caches, writeOps := ops }).store.repos,
      row.pyxisID = p.1 ∧ p.2.modifiedDate ≤ row.modifiedDate := by
    cases hl : alookup p.1 c0.dbRepoMap with
    | none =>
      rcases hloop.2.1 (stagedNewRepo p.2) (spec1 p hp hprof hl) with ⟨row, hrow, hrpyx, hrmd⟩
      refine ⟨row, hrow, ?_, ?_⟩
      · rw [hrpyx]
        exact hamkeys p hp
      · rw [hrmd]
        exact Nat.le_refl _
    | some dbRepo =>
      by_cases hlt : dbRepo.modifiedDate < p.2.modifiedDate
      · rcases hloop.2.1 (stagedUpdRepo dbRepo p.2) (spec2 p hp dbRepo hprof hl hlt)
          with ⟨row, hrow, hrpyx, hrmd⟩
        refine ⟨row, hrow, ?_, ?_⟩
        · rw [hrpyx]
          exact (prepareMaps_repo_some hl).2
        · rw [hrmd]
          exact Nat.le_refl _
      · have hdb := prepareMaps_repo_some hl
        have hsurv : dbRepo ∈ (syncLoop env staged
            { store := s0, caches := caches, writeOps := ops }).store.repos := by
          apply hloop.2.2 dbRepo hdb.1
          intro r hr heq
          rcases spec3 r hr with ⟨p', hp', hpr', hpk', hcond⟩
          rcases hcond with ⟨hnone', hreq'⟩ | ⟨dbRepo', hsome', hlt', hreq'⟩
          · subst hreq'
            exact absurd heq.symm (Nat.ne_of_gt ((hwf.2.2.1 dbRepo hdb.1).1))
          · subst hreq'
            have hdb' := prepareMaps_repo_some hsome'
            have hsameid : dbRepo'.id = dbRepo.id := heq
            have hsame : dbRepo' = dbRepo := map_nodup_entry_eq hwf.1 hdb'.1 hdb.1 hsameid
            subst hsame
            have hkeyeq : p'.1 = p.1 := by rw [← hdb'.2, hdb.2]
            have hpeq : p' = p := keys_nodup_entry_eq hamnodup hp' hp hkeyeq
            subst hpeq
            rw [hl] at hsome'
            cases hsome'
            exact hlt hlt'
        exact ⟨dbRepo, hsurv, hdb.2, Nat.le_of_not_lt hlt⟩
  rcases hfound with ⟨row, hrow, hrpyx, hrmd⟩
  refine ⟨⟨row, hrow, hrpyx⟩, ?_⟩
  intro row' hrow' hrpyx'
  have : row' = row := map_nodup_entry_eq hloop.1.2.1 hrow' hrow (by rw [hrpyx', hrpyx])
  subst this
  exact hrmd

theorem envA_ok : EnvOk envA := by
  refine ⟨fun n => rfl, fun r p => ⟨_, rfl⟩, fun p => ?_, rfl, ⟨_, rfl⟩⟩
  by_cases h : p = "iy"
  · refine ⟨["CVE-2024-0001", "CVE-9"], ?_⟩
    show (if p = "iy" then Except.ok ["CVE-2024-0001", "CVE-9"] else Except.ok []) = _
    rw [if_pos h]
  · refine ⟨[], ?_⟩
    show (if p = "iy" then Except.ok ["CVE-2024-0001", "CVE-9"] else Except.ok []) = _
    rw [if_neg h]

/-- **C3**: with the external catalog unchanged between the two runs and no
failure injected, running the engine a second time from the store the first
run produced performs zero writes and returns that store untouched — the
first run raised every in-profile repository's stored timestamp to at least
the fetched one, so the second staging pass selects nothing and the sync loop
never starts a transaction. -/
theorem second_run_produces_zero_writes (env : Env) (s0 : Store) (s1 s2 : RunState)
    (henv : EnvOk env) (hwf : RWF s0)
    (h1 : start env s0 = .ok s1) (h2 : start env s1.store = .ok s2) :
    s2.writeOps = 0 ∧ s2.store = s1.store := by
  rcases id henv with ⟨hdb, himg, hcve, hboot, repoList, hrl⟩
  simp only [start, syncRepos, hboot, hrl, Except.ok.injEq] at h1 h2
  obtain ⟨hrwf1, hchar⟩ :=
    run_establishes_repo_timestamps env henv s0 hwf repoList _ 0 s1 h1.symm
  have hamkeys : ∀ p ∈ buildMap (fun r : ApiRepo => r.pyxisID) repoList,
      p.2.pyxisID = p.1 := fun p hp => (mem_buildMap hp).2
  have hamnodup : (akeys (buildMap (fun r : ApiRepo => r.pyxisID) repoList)).Nodup :=
    akeys_buildMap_nodup
  have hspec := (stageRepos_spec env (buildMap (fun r => r.pyxisID) repoList)
    (prepareMaps s1.store) hamkeys hamnodup (prepareMaps_repo_keys s1.store)).2.2
  have hempty : (stageRepos env (buildMap (fun r : ApiRepo => r.pyxisID) repoList)
      (prepareMaps s1.store)).1 = [] := by
    rw [List.eq_nil_iff_forall_not_mem]
    intro r hr
    rcases hspec r hr with ⟨p, hp, hprof, hpk, hcond⟩
    obtain ⟨hex, hall⟩ := hchar p hp hprof
    rcases hcond with ⟨hnone, _⟩ | ⟨dbRepo, hsome, hlt, _⟩
    · rcases hex with ⟨row, hrow, hrpyx⟩
      exact prepareMaps_repo_none hnone row hrow hrpyx
    · have hdb := prepareMaps_repo_some hsome
      have hle := hall dbRepo hdb.1 hdb.2
      omega
  rw [hempty] at h2
  simp only [syncLoop] at h2
  rw [← h2]
  exact ⟨rfl, rfl⟩

theorem second_run_produces_zero_writes_witness :
    EnvOk envA ∧ RWF storeA ∧ start envA storeA = .ok runA ∧
      start envA runA.store = .ok runA2 ∧ runA2.writeOps = 0 ∧ runA2.store = runA.store :=
  ⟨envA_ok, by decide, by decide, by decide,
    second_run_produces_zero_writes envA storeA runA runA2 envA_ok (by decide)
      (by decide) (by decide)⟩

/-- **C6** counterexample: `envB`'s repository is in profile and is returned
by the enumeration, yet — its external timestamp (5) not being strictly newer
than the cached one (5) — the staging pass drops it, the whole run performs
zero writes and leaves the store untouched: no transaction fetches its images
(the catalog reports none) and its stale stored association survives, so not
every in-profile repository gets a reconciling sync. -/
theorem every_in_profile_repo_gets_transaction_counterexample :
    envB.inProfile "reg1" "repoA" = true ∧
    envB.apiRepositories = .ok repoListB ∧
    envB.apiRepoImages "reg1" "repoA" = .ok [] ∧
    ({ repositoryID := 1, imageID := 2 } : RepositoryImage) ∈ storeA.repoImages ∧
    (stageRepos envB (buildMap (fun r => r.pyxisID) repoListB) (prepareMaps storeA)).1 = [] ∧
    (start envB storeA).map (fun s => (s.store, s.writeOps)) = .ok (storeA, 0) := by
  decide

/-- **C6** (amended): the driver syncs exactly the staged repositories — the
run is the per-repository sync loop over the staged list, and that list
contains the in-profile fetched repositories that are new to the committed
repository cache or strictly newer than their cached row (and only those);
in-profile repositories whose timestamp did not advance are skipped without a
transaction. -/
theorem driver_syncs_staged_in_profile_repos (env : Env) (s : RunState)
    (repoList : List ApiRepo) (henum : env.apiRepositories = .ok repoList)
    (hcache : ∀ q ∈ s.caches.dbRepoMap, q.2.pyxisID = q.1) :
    syncRepos env s =
      .ok (syncLoop env
        (stageRepos env (buildMap (fun r => r.pyxisID) repoList) s.caches).1
        { s with caches :=
            (stageRepos env (buildMap (fun r => r.pyxisID) repoList) s.caches).2 }) ∧
    (∀ p ∈ buildMap (fun r => r.pyxisID) repoList,
      env.inProfile p.2.registry p.2.repository = true →
      alookup p.1 s.caches.dbRepoMap = none →
      stagedNewRepo p.2 ∈
        (stageRepos env (buildMap (fun r => r.pyxisID) repoList) s.caches).1) ∧
    (∀ p ∈ buildMap (fun r => r.pyxisID) repoList, ∀ dbRepo,
      env.inProfile p.2.registry p.2.repository = true →
      alookup p.1 s.caches.dbRepoMap = some dbRepo →
      dbRepo.modifiedDate < p.2.modifiedDate →
      stagedUpdRepo dbRepo p.2 ∈
        (stageRepos env (buildMap (fun r => r.pyxisID) repoList) s.caches).1) ∧
    (∀ r ∈ (stageRepos env (buildMap (fun r => r.pyxisID) repoList) s.caches).1,
      ∃ p ∈ buildMap (fun r => r.pyxisID) repoList,
        env.inProfile p.2.registry p.2.repository = true ∧ r.pyxisID = p.1 ∧
        ((alookup p.1 s.caches.dbRepoMap = none ∧ r = stagedNewRepo p.2) ∨
         (∃ dbRepo, alookup p.1 s.caches.dbRepoMap = some dbRepo ∧
           dbRepo.modifiedDate < p.2.modifiedDate ∧ r = stagedUpdRepo dbRepo p.2))) := by
  obtain ⟨hnew, hupd, hcompl⟩ := stageRepos_spec env
    (buildMap (fun r => r.pyxisID) repoList) s.caches
    (fun p hp => (mem_buildMap hp).2) akeys_buildMap_nodup hcache
  refine ⟨?_, hnew, hupd, hcompl⟩
  simp only [syncRepos, henum]

theorem driver_syncs_staged_in_profile_repos_witness :
    envB.apiRepositories = .ok repoListB ∧
    (∀ q ∈ runStateA.caches.dbRepoMap, q.2.pyxisID = q.1) ∧
    syncRepos envB runStateA =
      .ok (syncLoop envB
        (stageRepos envB (buildMap (fun r => r.pyxisID) repoListB) runStateA.caches).1
        { runStateA with
          caches :=
            (stageRepos envB (buildMap (fun r => r.pyxisID) repoListB) runStateA.caches).2 }) :=
  ⟨by decide, by decide,
    (driver_syncs_staged_in_profile_repos envB runStateA repoListB (by decide) (by decide)).1⟩

/-- **C4**: an entity already present in the replica cache is re-staged for
saving exactly when its external modification timestamp is strictly greater
than the cached one — for repositories additionally requiring the profile
filter — and an in-profile cached repository whose timestamp did not advance
keeps its stored row untouched through the whole sync loop (no write occurs
for it). -/
theorem update_on_modify (env : Env) (henv : EnvOk env) (s0 : Store) (hwf : RWF s0)
    (repoList : List ApiRepo)
    (p : String × ApiRepo) (hp : p ∈ buildMap (fun r => r.pyxisID) repoList)
    (dbRepo : Repository)
    (hsome : alookup p.1 (prepareMaps s0).dbRepoMap = some dbRepo)
    (im : List (String × ApiImage)) (ci : Caches)
    (hikeys : ∀ a ∈ im, a.2.digest = a.1) (hinodup : (akeys im).Nodup)
    (hicache : ∀ q ∈ ci.dbImageMap, q.2.digest = q.1)
    (a : String × ApiImage) (ha : a ∈ im) (dbImage : Image)
    (hisome : alookup a.1 ci.dbImageMap = some dbImage) :
    (stagedUpdRepo dbRepo p.2 ∈
        (stageRepos env (buildMap (fun r => r.pyxisID) repoList) (prepareMaps s0)).1 ↔
      env.inProfile p.2.registry p.2.repository = true ∧
        dbRepo.modifiedDate < p.2.modifiedDate) ∧
    (stagedUpdImage dbImage a.2 ∈ stageImages ci im ↔
      dbImage.modifiedDate < a.2.modifiedDate) ∧
    (¬ dbRepo.modifiedDate < p.2.modifiedDate →
      ∀ caches ops,
        dbRepo ∈ (syncLoop env
          (stageRepos env (buildMap (fun r => r.pyxisID) repoList) (prepareMaps s0)).1
          { store := s0, caches := caches, writeOps := ops }).store.repos) := by
  have hdbr := prepareMaps_repo_some hsome
  have hamkeys : ∀ q ∈ buildMap (fun r : ApiRepo => r.pyxisID) repoList,
      q.2.pyxisID = q.1 := fun q hq => (mem_buildMap hq).2
  have hamnodup : (akeys (buildMap (fun r : ApiRepo => r.pyxisID) repoList)).Nodup :=
    akeys_buildMap_nodup
  obtain ⟨rnew, rupd, rcompl⟩ := stageRepos_spec env
    (buildMap (fun r => r.pyxisID) repoList) (prepareMaps s0)
    hamkeys hamnodup (prepareMaps_repo_keys s0)
  obtain ⟨inew, iupd, icompl⟩ := stageImages_spec ci im hikeys hinodup hicache
  refine ⟨⟨?_, ?_⟩, ⟨?_, ?_⟩, ?_⟩
  · intro hmem
    rcases rcompl _ hmem with ⟨p', hp', hprof', hpk', hcond⟩
    have hpyx : (stagedUpdRepo dbRepo p.2).pyxisID = p.1 := hdbr.2
    have hpeq : p' = p := keys_nodup_entry_eq hamnodup hp' hp (hpk'.symm.trans hpyx)
    subst hpeq
    rcases hcond with ⟨hnone, _⟩ | ⟨dbRepo', hsome', hlt', _⟩
    · rw [hsome] at hnone
      cases hnone
    · rw [hsome] at hsome'
      cases hsome'
      exact ⟨hprof', hlt'⟩
  · rintro ⟨hprof, hlt⟩
    exact rupd p hp dbRepo hprof hsome hlt
  · intro hmem
    rcases icompl _ hmem with ⟨a', ha', hak', hcond⟩
    have hdig : (stagedUpdImage dbImage a.2).digest = a.1 :=
      hicache (a.1, dbImage) (alookup_mem hisome)
    have haeq : a' = a := keys_nodup_entry_eq hinodup ha' ha (hak'.symm.trans hdig)
    subst haeq
    rcases hcond with ⟨hnone, _⟩ | ⟨dbImage', hsome', hlt', _⟩
    · rw [hisome] at hnone
      cases hnone
    · rw [hisome] at hsome'
      cases hsome'
      exact hlt'
  · intro hlt
    exact iupd a ha dbImage hisome hlt
  · intro hnlt caches ops
    have hckeys := prepareMaps_repo_keys s0
    set staged :=
      (stageRepos env (buildMap (fun r : ApiRepo => r.pyxisID) repoList)
        (prepareMaps s0)).1 with hstg
    have hstagednodup : (staged.map (fun r => r.pyxisID)).Nodup :=
      (stageRepos_pyxisIDs_sublist env _ _ hamkeys hckeys).nodup hamnodup
    have hstagedok : StagedOk s0 staged := by
      refine ⟨?_, ?_, hstagednodup⟩
      · intro r hr hr0 row hrow
        rcases rcompl r hr with ⟨p', hp', hpr', hpk', hcond⟩
        rcases hcond with ⟨hnone, hreq⟩ | ⟨dbRepo', hsome', hlt', hreq⟩
        · intro heq
          exact prepareMaps_repo_none hnone row hrow (heq.trans hpk')
        · subst hreq
          have hdb' := prepareMaps_repo_some hsome'
          have h0 : 0 < dbRepo'.id := (hwf.2.2.1 dbRepo' hdb'.1).1
          have hid : (stagedUpdRepo dbRepo' p'.2).id = dbRepo'.id := rfl
          rw [hid] at hr0
          omega
      · intro r hr hrn
        rcases rcompl r hr with ⟨p', hp', hpr', hpk', hcond⟩
        rcases hcond with ⟨hnone, hreq⟩ | ⟨dbRepo', hsome', hlt', hreq⟩
        · subst hreq
          exact absurd rfl hrn
        · subst hreq
          have hdb' := prepareMaps_repo_some hsome'
          exact ⟨dbRepo', hdb'.1, rfl, rfl⟩
    have hloop := syncLoop_repos env henv staged
      { store := s0, caches := caches, writeOps := ops } hwf hstagedok
    apply hloop.2.2 dbRepo hdbr.1
    intro r hr heq
    rcases rcompl r hr with ⟨p', hp', hpr', hpk', hcond⟩
    rcases hcond with ⟨hnone', hreq'⟩ | ⟨dbRepo', hsome', hlt', hreq'⟩
    · subst hreq'
      exact absurd heq.symm (Nat.ne_of_gt ((hwf.2.2.1 dbRepo hdbr.1).1))
    · subst hreq'
      have hdb' := prepareMaps_repo_some hsome'
      have hsameid : dbRepo'.id = dbRepo.id := heq
      have hsame : dbRepo' = dbRepo := map_nodup_entry_eq hwf.1 hdb'.1 hdbr.1 hsameid
      subst hsame
      have hkeyeq : p'.1 = p.1 := by rw [← hdb'.2, hdbr.2]
      have hpeq : p' = p := keys_nodup_entry_eq hamnodup hp' hp hkeyeq
      subst hpeq
      exact hnlt hlt'

theorem update_on_modify_witness :
    alookup "p1" (prepareMaps storeA).dbRepoMap = some repoStoredA ∧
    alookup "X" (prepareMaps storeA).dbImageMap = some imageX1 ∧
    (stagedUpdRepo repoStoredA apiRepoA ∈
        (stageRepos envA (buildMap (fun r => r.pyxisID) repoListA) (prepareMaps storeA)).1 ↔
      envA.inProfile apiRepoA.registry apiRepoA.repository = true ∧
        repoStoredA.modifiedDate < apiRepoA.modifiedDate) ∧
    (stagedUpdImage imageX1 apiImageX ∈ stageImages (prepareMaps storeA) amA ↔
      imageX1.modifiedDate < apiImageX.modifiedDate) :=
  ⟨by decide, by decide,
    (update_on_modify envA envA_ok storeA (by decide) repoListA ("p1", apiRepoA) (by decide)
        repoStoredA (by decide) amA (prepareMaps storeA) (by decide) (by decide) (by decide)
        ("X", apiImageX) (by decide) imageX1 (by decide)).1,
    (update_on_modify envA envA_ok storeA (by decide) repoListA ("p1", apiRepoA) (by decide)
        repoStoredA (by decide) amA (prepareMaps storeA) (by decide) (by decide) (by decide)
        ("X", apiImageX) (by decide) imageX1 (by decide)).2.1⟩

/-! ### Association-set exactness: list helpers -/

theorem mem_aerase_iff {κ α : Type} [DecidableEq κ] {q : κ × α} {k : κ} {m : List (κ × α)}
    (h : (akeys m).Nodup) : q ∈ aerase k m ↔ q ∈ m ∧ q.1 ≠ k := by
  induction m with
  | nil => simp [aerase]
  | cons p rest ih =>
    rw [akeys, List.map_cons, List.nodup_cons] at h
    by_cases hk : p.1 = k
    · rw [show aerase k (p :: rest) = rest from by simp [aerase, hk]]
      constructor
      · intro hq
        refine ⟨List.mem_cons_of_mem _ hq, ?_⟩
        intro hqk
        exact h.1 (by rw [hk, ← hqk]; exact List.mem_map_of_mem Prod.fst hq)
      · rintro ⟨hq, hqk⟩
        rcases List.mem_cons.mp hq with rfl | hq2
        · exact absurd hk hqk
        · exact hq2
    · rw [show aerase k (p :: rest) = p :: aerase k rest from by simp [aerase, hk]]
      have ih' := ih h.2
      constructor
      · intro hq
        rcases List.mem_cons.mp hq with rfl | hq2
        · exact ⟨List.mem_cons_self _ _, hk⟩
        · exact ⟨List.mem_cons_of_mem _ (ih'.mp hq2).1, (ih'.mp hq2).2⟩
      · rintro ⟨hq, hqk⟩
        rcases List.mem_cons.mp hq with rfl | hq2
        · exact List.mem_cons_self _ _
        · exact List.mem_cons_of_mem _ (ih'.mpr ⟨hq2, hqk⟩)

theorem imageCve_ext {a b : ImageCve} (h1 : a.imageID = b.imageID) (h2 : a.cveID = b.cveID) :
    a = b := by
  cases a
  cases b
  simp_all

theorem repositoryImage_ext {a b : RepositoryImage} (h1 : a.repositoryID = b.repositoryID)
    (h2 : a.imageID = b.imageID) : a = b := by
  cases a
  cases b
  simp_all

theorem replace_image_ids (l : List Image) (img : Image) :
    (l.map (fun r => if r.id = img.id then img else r)).map (fun r => r.id) =
      l.map (fun r => r.id) := by
  induction l with
  | nil => rfl
  | cons r rest ih =>
    simp only [List.map_cons, List.cons.injEq]
    refine ⟨?_, ih⟩
    by_cases hr : r.id = img.id
    · rw [if_pos hr, hr]
    · rw [if_neg hr]

theorem mem_replace_of_ne {l : List Image} (img : Image) {r : Image} (hr : r ∈ l)
    (hne : r.id ≠ img.id) : r ∈ l.map (fun x => if x.id = img.id then img else x) := by
  refine List.mem_map.mpr ⟨r, hr, ?_⟩
  rw [if_neg hne]

theorem mem_replace_forward {l : List Image} {img : Image} {r : Image}
    (hr : r ∈ l.map (fun x => if x.id = img.id then img else x)) :
    r = img ∨ (r ∈ l ∧ r.id ≠ img.id) := by
  rcases List.mem_map.mp hr with ⟨x, hx, hfx⟩
  by_cases hxid : x.id = img.id
  · rw [if_pos hxid] at hfx
    exact Or.inl hfx.symm
  · rw [if_neg hxid] at hfx
    right
    rw [← hfx]
    exact ⟨hx, hxid⟩

theorem getDbImageCves_mem {s : Store} {iid : Nat} {q : Nat × ImageCve}
    (h : q ∈ getDbImageCves s iid) :
    q.2 ∈ s.imageCves ∧ q.2.imageID = iid ∧ q.2.cveID = q.1 := by
  unfold getDbImageCves at h
  rcases List.mem_map.mp h with ⟨ic, hic, hq⟩
  have hmem := List.mem_filter.mp hic
  subst hq
  exact ⟨hmem.1, by simpa using hmem.2, rfl⟩

theorem getDbImageCves_mem_rev {s : Store} {iid : Nat} {ic : ImageCve}
    (h : ic ∈ s.imageCves) (hid : ic.imageID = iid) :
    (ic.cveID, ic) ∈ getDbImageCves s iid := by
  unfold getDbImageCves
  exact List.mem_map_of_mem _ (List.mem_filter.mpr ⟨h, by simp [hid]⟩)

theorem getDbImageCves_keys_nodup {s : Store} (h : s.imageCves.Nodup) (iid : Nat) :
    (akeys (getDbImageCves s iid)).Nodup := by
  unfold getDbImageCves akeys
  rw [List.map_map]
  apply List.Nodup.map_on ?_ (h.filter _)
  intro x hx y hy hxy
  have hxm : x.imageID = iid := by simpa using (List.mem_filter.mp hx).2
  have hym : y.imageID = iid := by simpa using (List.mem_filter.mp hy).2
  exact imageCve_ext (hxm.trans hym.symm) hxy

theorem getDbRepositoryImages_mem {s : Store} {rid : Nat} {q : Nat × RepositoryImage}
    (h : q ∈ getDbRepositoryImages s rid) :
    q.2 ∈ s.repoImages ∧ q.2.repositoryID = rid ∧ q.2.imageID = q.1 := by
  unfold getDbRepositoryImages at h
  rcases List.mem_map.mp h with ⟨ri, hri, hq⟩
  have hmem := List.mem_filter.mp hri
  subst hq
  exact ⟨hmem.1, by simpa using hmem.2, rfl⟩

theorem getDbRepositoryImages_mem_rev {s : Store} {rid : Nat} {ri : RepositoryImage}
    (h : ri ∈ s.repoImages) (hid : ri.repositoryID = rid) :
    (ri.imageID, ri) ∈ getDbRepositoryImages s rid := by
  unfold getDbRepositoryImages
  exact List.mem_map_of_mem _ (List.mem_filter.mpr ⟨h, by simp [hid]⟩)

theorem getDbRepositoryImages_keys_nodup {s : Store} (h : s.repoImages.Nodup) (rid : Nat) :
    (akeys (getDbRepositoryImages s rid)).Nodup := by
  unfold getDbRepositoryImages akeys
  rw [List.map_map]
  apply List.Nodup.map_on ?_ (h.filter _)
  intro x hx y hy hxy
  have hxm : x.repositoryID = rid := by simpa using (List.mem_filter.mp hx).2
  have hym : y.repositoryID = rid := by simpa using (List.mem_filter.mp hy).2
  exact repositoryImage_ext (hxm.trans hym.symm) hxy

theorem resolveCve_some_mem {c : Caches} {n : String} {v : Cve}
    (h : resolveCve c n = some v) :
    (n, v) ∈ c.dbCveMap ∨ (n, v) ∈ c.dbCveMapPending := by
  unfold resolveCve at h
  split at h
  next cve heq =>
    cases h
    exact Or.inl (alookup_mem heq)
  next heq => exact Or.inr (alookup_mem h)

theorem resolveImage_some_mem {c : Caches} {d : String} {v : Image}
    (h : resolveImage c d = some v) :
    (d, v) ∈ c.dbImageMap ∨ (d, v) ∈ c.dbImageMapPending := by
  unfold resolveImage at h
  split at h
  next img heq =>
    cases h
    exact Or.inl (alookup_mem heq)
  next heq => exact Or.inr (alookup_mem h)

/-! ### Association-set exactness: transaction invariants -/

/-- Image-table well-formedness: distinct positive identifiers below the id
sequence. -/
abbrev IWF (s : Store) : Prop :=
  (s.images.map (fun i => i.id)).Nodup ∧
  (∀ i ∈ s.images, 0 < i.id ∧ i.id < s.nextImageID) ∧ 0 < s.nextImageID

/-- CVE-table well-formedness: distinct positive identifiers below the id
sequence and distinct names (the unique constraint). -/
abbrev CWF (s : Store) : Prop :=
  (s.cves.map (fun c => c.id)).Nodup ∧
  (s.cves.map (fun c => c.name)).Nodup ∧
  (∀ c ∈ s.cves, 0 < c.id ∧ c.id < s.nextCveID) ∧ 0 < s.nextCveID

/-- Association tables hold no duplicate rows. -/
abbrev AWF (s : Store) : Prop := s.imageCves.Nodup ∧ s.repoImages.Nodup

/-- An image-cache entry is keyed by its digest and matches a store row by id
and digest. -/
abbrev ImgEntryOk (s : Store) (q : String × Image) : Prop :=
  q.2.digest = q.1 ∧ ∃ row ∈ s.images, row.id = q.2.id ∧ row.digest = q.2.digest

/-- A CVE-cache entry is keyed by its name and matches a store row by id and
name. -/
abbrev CveEntryOk (s : Store) (q : String × Cve) : Prop :=
  q.2.name = q.1 ∧ ∃ row ∈ s.cves, row.id = q.2.id ∧ row.name = q.2.name

/-- Every cache entry (committed and pending, image and CVE) agrees with the
store. -/
abbrev CachesOk (s : Store) (c : Caches) : Prop :=
  (∀ q ∈ c.dbImageMap, ImgEntryOk s q) ∧ (∀ q ∈ c.dbImageMapPending, ImgEntryOk s q) ∧
  (∀ q ∈ c.dbCveMap, CveEntryOk s q) ∧ (∀ q ∈ c.dbCveMapPending, CveEntryOk s q)

/-- Every stored (image, CVE) pair points at an existing CVE row. -/
abbrev CveAssocInt (s : Store) : Prop :=
  ∀ ic ∈ s.imageCves, ∃ cve ∈ s.cves, cve.id = ic.cveID

/-- The transaction invariant carried through every stage of a repository's
sync. -/
abbrev TxInv (ctx : TxCtx) : Prop :=
  IWF ctx.store ∧ CWF ctx.store ∧ AWF ctx.store ∧ CachesOk ctx.store ctx.caches ∧
  CveCovered ctx.store ctx.caches ∧ CveAssocInt ctx.store

/-- The stored CVE-name set associated to image `iid` is exactly `names`. -/
abbrev CveIff (s : Store) (iid : Nat) (names : List String) : Prop :=
  ∀ n : String, (∃ cve ∈ s.cves, cve.name = n ∧
    ({ imageID := iid, cveID := cve.id } : ImageCve) ∈ s.imageCves) ↔ n ∈ names

/-- Validity of a staged image against the committed image cache: a fresh row
has an uncached digest, a re-staged row matches its cached row by id and
digest. -/
abbrev StagedImgOk (c : Caches) (i : Image) : Prop :=
  (i.id = 0 → alookup i.digest c.dbImageMap = none) ∧
  (i.id ≠ 0 → ∃ q ∈ c.dbImageMap, q.2.id = i.id ∧ q.2.digest = i.digest)

theorem resolveCve_name {s : Store} {c : Caches} (hc : CachesOk s c) {n : String} {v : Cve}
    (h : resolveCve c n = some v) :
    v.name = n ∧ ∃ row ∈ s.cves, row.id = v.id ∧ row.name = v.name := by
  rcases resolveCve_some_mem h with hm | hm
  · exact hc.2.2.1 (n, v) hm
  · exact hc.2.2.2 (n, v) hm

theorem resolveImage_digest {s : Store} {c : Caches} (hc : CachesOk s c) {d : String} {v : Image}
    (h : resolveImage c d = some v) :
    v.digest = d ∧ ∃ row ∈ s.images, row.id = v.id ∧ row.digest = v.digest := by
  rcases resolveImage_some_mem h with hm | hm
  · exact hc.1 (d, v) hm
  · exact hc.2.1 (d, v) hm

theorem resolveCve_inj {s : Store} {c : Caches} (hc : CachesOk s c)
    (hnodup : (s.cves.map (fun x => x.id)).Nodup)
    {n n' : String} {v v' : Cve} (h : resolveCve c n = some v) (h' : resolveCve c n' = some v')
    (hid : v.id = v'.id) : n = n' := by
  obtain ⟨hn, row, hrow, hrid, hrname⟩ := resolveCve_name hc h
  obtain ⟨hn', row', hrow', hrid', hrname'⟩ := resolveCve_name hc h'
  have heq : row = row' := map_nodup_entry_eq hnodup hrow hrow' (by rw [hrid, hrid', hid])
  rw [← hn, ← hn', ← hrname, ← hrname', heq]

theorem resolveImage_inj {s : Store} {c : Caches} (hc : CachesOk s c)
    (hnodup : (s.images.map (fun x => x.id)).Nodup)
    {d d' : String} {v v' : Image} (h : resolveImage c d = some v)
    (h' : resolveImage c d' = some v') (hid : v.id = v'.id) : d = d' := by
  obtain ⟨hd, row, hrow, hrid, hrdig⟩ := resolveImage_digest hc h
  obtain ⟨hd', row', hrow', hrid', hrdig'⟩ := resolveImage_digest hc h'
  have heq : row = row' := map_nodup_entry_eq hnodup hrow hrow' (by rw [hrid, hrid', hid])
  rw [← hd, ← hd', ← hrdig, ← hrdig', heq]

/-! ### Association-set exactness: delta characterization -/

/-- What the (image, CVE) delta computes: the insert list gains exactly the
pairs of resolved fetched names whose CVE id is not yet stored for the image,
and the map's leftovers are exactly the stored entries no fetched name
resolves to. -/
theorem imageCveDelta_spec (c : Caches) (iid : Nat) :
    ∀ (names : List String) (toInsert : List ImageCve) (dbMap : List (Nat × ImageCve))
      (res : List ImageCve × List (Nat × ImageCve)),
      (akeys dbMap).Nodup →
      names.Nodup →
      (∀ n ∈ names, ∀ n' ∈ names, ∀ v v', resolveCve c n = some v → resolveCve c n' = some v' →
        v.id = v'.id → n = n') →
      imageCveDelta c iid names toInsert dbMap = .ok res →
      (∀ x, x ∈ res.1 ↔ x ∈ toInsert ∨ ∃ n ∈ names, ∃ v, resolveCve c n = some v ∧
        x = { imageID := iid, cveID := v.id } ∧ alookup v.id dbMap = none) ∧
      (∀ q, q ∈ res.2 ↔ q ∈ dbMap ∧ ∀ n ∈ names, ∀ v, resolveCve c n = some v → v.id ≠ q.1) := by
  intro names
  induction names with
  | nil =>
    intro toInsert dbMap res hkeys hnodup hinj h
    cases h
    constructor
    · intro x
      simp
    · intro q
      simp
  | cons n₀ rest ih =>
    intro toInsert dbMap res hkeys hnodup hinj h
    cases hr : resolveCve c n₀ with
    | none =>
      simp only [imageCveDelta, hr] at h
      cases h
    | some v₀ =>
      have hnodup' : rest.Nodup := (List.nodup_cons.mp hnodup).2
      have hn₀rest : n₀ ∉ rest := (List.nodup_cons.mp hnodup).1
      have hinj' : ∀ n ∈ rest, ∀ n' ∈ rest, ∀ v v', resolveCve c n = some v →
          resolveCve c n' = some v' → v.id = v'.id → n = n' :=
        fun n hn n' hn' => hinj n (List.mem_cons_of_mem _ hn) n' (List.mem_cons_of_mem _ hn')
      cases hl : alookup v₀.id dbMap with
      | none =>
        simp only [imageCveDelta, hr, hl] at h
        obtain ⟨ih1, ih2⟩ := ih (toInsert ++ [{ imageID := iid, cveID := v₀.id }]) dbMap res
          hkeys hnodup' hinj' h
        constructor
        · intro x
          rw [ih1 x]
          constructor
          · rintro (hx | ⟨n, hn, v, hres, hxv, hnone⟩)
            · rcases List.mem_append.mp hx with hx' | hx'
              · exact Or.inl hx'
              · rw [List.mem_singleton] at hx'
                exact Or.inr ⟨n₀, List.mem_cons_self _ _, v₀, hr, hx', hl⟩
            · exact Or.inr ⟨n, List.mem_cons_of_mem _ hn, v, hres, hxv, hnone⟩
          · rintro (hx | ⟨n, hn, v, hres, hxv, hnone⟩)
            · exact Or.inl (List.mem_append_left _ hx)
            · rcases List.mem_cons.mp hn with rfl | hn'
              · rw [hr] at hres
                cases hres
                exact Or.inl (List.mem_append_right _ (List.mem_singleton.mpr hxv))
              · exact Or.inr ⟨n, hn', v, hres, hxv, hnone⟩
        · intro q
          rw [ih2 q]
          constructor
          · rintro ⟨hq, hrest⟩
            refine ⟨hq, ?_⟩
            intro n hn v hres
            rcases List.mem_cons.mp hn with rfl | hn'
            · rw [hr] at hres
              cases hres
              exact fun heq => (alookup_eq_none_iff.mp hl) q hq heq.symm
            · exact hrest n hn' v hres
          · rintro ⟨hq, hall⟩
            exact ⟨hq, fun n hn v hres => hall n (List.mem_cons_of_mem _ hn) v hres⟩
      | some w =>
        simp only [imageCveDelta, hr, hl] at h
        have hkeys' : (akeys (aerase v₀.id dbMap)).Nodup := akeys_aerase_nodup hkeys
        obtain ⟨ih1, ih2⟩ := ih toInsert (aerase v₀.id dbMap) res hkeys' hnodup' hinj' h
        have hmap_eq : ∀ n ∈ rest, ∀ v, resolveCve c n = some v →
            alookup v.id (aerase v₀.id dbMap) = alookup v.id dbMap := by
          intro n hn v hres
          have hne : v.id ≠ v₀.id := fun heq =>
            hn₀rest ((hinj n (List.mem_cons_of_mem _ hn) n₀ (List.mem_cons_self _ _)
              v v₀ hres hr heq) ▸ hn)
          exact alookup_aerase_ne hne dbMap
        constructor
        · intro x
          rw [ih1 x]
          constructor
          · rintro (hx | ⟨n, hn, v, hres, hxv, hnone⟩)
            · exact Or.inl hx
            · refine Or.inr ⟨n, List.mem_cons_of_mem _ hn, v, hres, hxv, ?_⟩
              rw [← hmap_eq n hn v hres]
              exact hnone
          · rintro (hx | ⟨n, hn, v, hres, hxv, hnone⟩)
            · exact Or.inl hx
            · rcases List.mem_cons.mp hn with rfl | hn'
              · rw [hr] at hres
                cases hres
                rw [hl] at hnone
                cases hnone
              · refine Or.inr ⟨n, hn', v, hres, hxv, ?_⟩
                rw [hmap_eq n hn' v hres]
                exact hnone
        · intro q
          rw [ih2 q]
          constructor
          · rintro ⟨hq, hrest⟩
            have hq' := (mem_aerase_iff hkeys).mp hq
            refine ⟨hq'.1, ?_⟩
            intro n hn v hres
            rcases List.mem_cons.mp hn with rfl | hn'
            · rw [hr] at hres
              cases hres
              exact fun heq => hq'.2 heq.symm
            · exact hrest n hn' v hres
          · rintro ⟨hq, hall⟩
            have hne : q.1 ≠ v₀.id := fun heq =>
              hall n₀ (List.mem_cons_self _ _) v₀ hr heq.symm
            exact ⟨(mem_aerase_iff hkeys).mpr ⟨hq, hne⟩,
              fun n hn v hres => hall n (List.mem_cons_of_mem _ hn) v hres⟩

/-- The insert list the (image, CVE) delta builds holds no duplicate pair. -/
theorem imageCveDelta_ins_nodup (c : Caches) (iid : Nat) :
    ∀ (names : List String) (toInsert : List ImageCve) (dbMap : List (Nat × ImageCve))
      (res : List ImageCve × List (Nat × ImageCve)),
      names.Nodup →
      (∀ n ∈ names, ∀ n' ∈ names, ∀ v v', resolveCve c n = some v → resolveCve c n' = some v' →
        v.id = v'.id → n = n') →
      toInsert.Nodup →
      (∀ x ∈ toInsert, ∀ n ∈ names, ∀ v, resolveCve c n = some v →
        x ≠ { imageID := iid, cveID := v.id }) →
      imageCveDelta c iid names toInsert dbMap = .ok res →
      res.1.Nodup := by
  intro names
  induction names with
  | nil =>
    intro toInsert dbMap res hnodup hinj hins hdisj h
    cases h
    exact hins
  | cons n₀ rest ih =>
    intro toInsert dbMap res hnodup hinj hins hdisj h
    cases hr : resolveCve c n₀ with
    | none =>
      simp only [imageCveDelta, hr] at h
      cases h
    | some v₀ =>
      have hnodup' : rest.Nodup := (List.nodup_cons.mp hnodup).2
      have hn₀rest : n₀ ∉ rest := (List.nodup_cons.mp hnodup).1
      have hinj' : ∀ n ∈ rest, ∀ n' ∈ rest, ∀ v v', resolveCve c n = some v →
          resolveCve c n' = some v' → v.id = v'.id → n = n' :=
        fun n hn n' hn' => hinj n (List.mem_cons_of_mem _ hn) n' (List.mem_cons_of_mem _ hn')
      cases hl : alookup v₀.id dbMap with
      | none =>
        simp only [imageCveDelta, hr, hl] at h
        refine ih (toInsert ++ [{ imageID := iid, cveID := v₀.id }]) dbMap res hnodup' hinj'
          ?_ ?_ h
        · refine hins.append (List.nodup_singleton _) ?_
          intro a ha hmem
          rw [List.mem_singleton] at hmem
          exact hdisj a ha n₀ (List.mem_cons_self _ _) v₀ hr hmem
        · intro x hx n hn v hres
          rcases List.mem_append.mp hx with hx' | hx'
          · exact hdisj x hx' n (List.mem_cons_of_mem _ hn) v hres
          · rw [List.mem_singleton] at hx'
            subst hx'
            intro hxe
            have hid : v₀.id = v.id := congrArg ImageCve.cveID hxe
            exact hn₀rest ((hinj n₀ (List.mem_cons_self _ _) n (List.mem_cons_of_mem _ hn)
              v₀ v hr hres hid).symm ▸ hn)
      | some w =>
        simp only [imageCveDelta, hr, hl] at h
        exact ih toInsert (aerase v₀.id dbMap) res hnodup' hinj' hins
          (fun x hx n hn v hres => hdisj x hx n (List.mem_cons_of_mem _ hn) v hres) h

/-- What the (repository, image) delta computes — the mirror of
`imageCveDelta_spec` with digests resolved to images. -/
theorem repoImageDelta_spec (c : Caches) (rid : Nat) :
    ∀ (digests : List String) (toInsert : List RepositoryImage)
      (dbMap : List (Nat × RepositoryImage))
      (res : List RepositoryImage × List (Nat × RepositoryImage)),
      (akeys dbMap).Nodup →
      digests.Nodup →
      (∀ d ∈ digests, ∀ d' ∈ digests, ∀ v v', resolveImage c d = some v →
        resolveImage c d' = some v' → v.id = v'.id → d = d') →
      repoImageDelta c rid digests toInsert dbMap = .ok res →
      (∀ x, x ∈ res.1 ↔ x ∈ toInsert ∨ ∃ d ∈ digests, ∃ v, resolveImage c d = some v ∧
        x = { repositoryID := rid, imageID := v.id } ∧ alookup v.id dbMap = none) ∧
      (∀ q, q ∈ res.2 ↔ q ∈ dbMap ∧ ∀ d ∈ digests, ∀ v, resolveImage c d = some v →
        v.id ≠ q.1) := by
  intro digests
  induction digests with
  | nil =>
    intro toInsert dbMap res hkeys hnodup hinj h
    cases h
    constructor
    · intro x
      simp
    · intro q
      simp
  | cons d₀ rest ih =>
    intro toInsert dbMap res hkeys hnodup hinj h
    cases hr : resolveImage c d₀ with
    | none =>
      simp only [repoImageDelta, hr] at h
      cases h
    | some v₀ =>
      have hnodup' : rest.Nodup := (List.nodup_cons.mp hnodup).2
      have hd₀rest : d₀ ∉ rest := (List.nodup_cons.mp hnodup).1
      have hinj' : ∀ d ∈ rest, ∀ d' ∈ rest, ∀ v v', resolveImage c d = some v →
          resolveImage c d' = some v' → v.id = v'.id → d = d' :=
        fun d hd d' hd' => hinj d (List.mem_cons_of_mem _ hd) d' (List.mem_cons_of_mem _ hd')
      cases hl : alookup v₀.id dbMap with
      | none =>
        simp only [repoImageDelta, hr, hl] at h
        obtain ⟨ih1, ih2⟩ := ih (toInsert ++ [{ repositoryID := rid, imageID := v₀.id }]) dbMap
          res hkeys hnodup' hinj' h
        constructor
        · intro x
          rw [ih1 x]
          constructor
          · rintro (hx | ⟨d, hd, v, hres, hxv, hnone⟩)
            · rcases List.mem_append.mp hx with hx' | hx'
              · exact Or.inl hx'
              · rw [List.mem_singleton] at hx'
                exact Or.inr ⟨d₀, List.mem_cons_self _ _, v₀, hr, hx', hl⟩
            · exact Or.inr ⟨d, List.mem_cons_of_mem _ hd, v, hres, hxv, hnone⟩
          · rintro (hx | ⟨d, hd, v, hres, hxv, hnone⟩)
            · exact Or.inl (List.mem_append_left _ hx)
            · rcases List.mem_cons.mp hd with rfl | hd'
              · rw [hr] at hres
                cases hres
                exact Or.inl (List.mem_append_right _ (List.mem_singleton.mpr hxv))
              · exact Or.inr ⟨d, hd', v, hres, hxv, hnone⟩
        · intro q
          rw [ih2 q]
          constructor
          · rintro ⟨hq, hrest⟩
            refine ⟨hq, ?_⟩
            intro d hd v hres
            rcases List.mem_cons.mp hd with rfl | hd'
            · rw [hr] at hres
              cases hres
              exact fun heq => (alookup_eq_none_iff.mp hl) q hq heq.symm
            · exact hrest d hd' v hres
          · rintro ⟨hq, hall⟩
            exact ⟨hq, fun d hd v hres => hall d (List.mem_cons_of_mem _ hd) v hres⟩
      | some w =>
        simp only [repoImageDelta, hr, hl] at h
        have hkeys' : (akeys (aerase v₀.id dbMap)).Nodup := akeys_aerase_nodup hkeys
        obtain ⟨ih1, ih2⟩ := ih toInsert (aerase v₀.id dbMap) res hkeys' hnodup' hinj' h
        have hmap_eq : ∀ d ∈ rest, ∀ v, resolveImage c d = some v →
            alookup v.id (aerase v₀.id dbMap) = alookup v.id dbMap := by
          intro d hd v hres
          have hne : v.id ≠ v₀.id := fun heq =>
            hd₀rest ((hinj d (List.mem_cons_of_mem _ hd) d₀ (List.mem_cons_self _ _)
              v v₀ hres hr heq) ▸ hd)
          exact alookup_aerase_ne hne dbMap
        constructor
        · intro x
          rw [ih1 x]
          constructor
          · rintro (hx | ⟨d, hd, v, hres, hxv, hnone⟩)
            · exact Or.inl hx
            · refine Or.inr ⟨d, List.mem_cons_of_mem _ hd, v, hres, hxv, ?_⟩
              rw [← hmap_eq d hd v hres]
              exact hnone
          · rintro (hx | ⟨d, hd, v, hres, hxv, hnone⟩)
            · exact Or.inl hx
            · rcases List.mem_cons.mp hd with rfl | hd'
              · rw [hr] at hres
                cases hres
                rw [hl] at hnone
                cases hnone
              · refine Or.inr ⟨d, hd', v, hres, hxv, ?_⟩
                rw [hmap_eq d hd' v hres]
                exact hnone
        · intro q
          rw [ih2 q]
          constructor
          · rintro ⟨hq, hrest⟩
            have hq' := (mem_aerase_iff hkeys).mp hq
            refine ⟨hq'.1, ?_⟩
            intro d hd v hres
            rcases List.mem_cons.mp hd with rfl | hd'
            · rw [hr] at hres
              cases hres
              exact fun heq => hq'.2 heq.symm
            · exact hrest d hd' v hres
          · rintro ⟨hq, hall⟩
            have hne : q.1 ≠ v₀.id := fun heq =>
              hall d₀ (List.mem_cons_self _ _) v₀ hr heq.symm
            exact ⟨(mem_aerase_iff hkeys).mpr ⟨hq, hne⟩,
              fun d hd v hres => hall d (List.mem_cons_of_mem _ hd) v hres⟩

/-- The insert list the (repository, image) delta builds holds no duplicate
pair. -/
theorem repoImageDelta_ins_nodup (c : Caches) (rid : Nat) :
    ∀ (digests : List String) (toInsert : List RepositoryImage)
      (dbMap : List (Nat × RepositoryImage))
      (res : List RepositoryImage × List (Nat × RepositoryImage)),
      digests.Nodup →
      (∀ d ∈ digests, ∀ d' ∈ digests, ∀ v v', resolveImage c d = some v →
        resolveImage c d' = some v' → v.id = v'.id → d = d') →
      toInsert.Nodup →
      (∀ x ∈ toInsert, ∀ d ∈ digests, ∀ v, resolveImage c d = some v →
        x ≠ { repositoryID := rid, imageID := v.id }) →
      repoImageDelta c rid digests toInsert dbMap = .ok res →
      res.1.Nodup := by
  intro digests
  induction digests with
  | nil =>
    intro toInsert dbMap res hnodup hinj hins hdisj h
    cases h
    exact hins
  | cons d₀ rest ih =>
    intro toInsert dbMap res hnodup hinj hins hdisj h
    cases hr : resolveImage c d₀ with
    | none =>
      simp only [repoImageDelta, hr] at h
      cases h
    | some v₀ =>
      have hnodup' : rest.Nodup := (List.nodup_cons.mp hnodup).2
      have hd₀rest : d₀ ∉ rest := (List.nodup_cons.mp hnodup).1
      have hinj' : ∀ d ∈ rest, ∀ d' ∈ rest, ∀ v v', resolveImage c d = some v →
          resolveImage c d' = some v' → v.id = v'.id → d = d' :=
        fun d hd d' hd' => hinj d (List.mem_cons_of_mem _ hd) d' (List.mem_cons_of_mem _ hd')
      cases hl : alookup v₀.id dbMap with
      | none =>
        simp only [repoImageDelta, hr, hl] at h
        refine ih (toInsert ++ [{ repositoryID := rid, imageID := v₀.id }]) dbMap res hnodup'
          hinj' ?_ ?_ h
        · refine hins.append (List.nodup_singleton _) ?_
          intro a ha hmem
          rw [List.mem_singleton] at hmem
          exact hdisj a ha d₀ (List.mem_cons_self _ _) v₀ hr hmem
        · intro x hx d hd v hres
          rcases List.mem_append.mp hx with hx' | hx'
          · exact hdisj x hx' d (List.mem_cons_of_mem _ hd) v hres
          · rw [List.mem_singleton] at hx'
            subst hx'
            intro hxe
            have hid : v₀.id = v.id := congrArg RepositoryImage.imageID hxe
            exact hd₀rest ((hinj d₀ (List.mem_cons_self _ _) d (List.mem_cons_of_mem _ hd)
              v₀ v hr hres hid).symm ▸ hd)
      | some w =>
        simp only [repoImageDelta, hr, hl] at h
        exact ih toInsert (aerase v₀.id dbMap) res hnodup' hinj' hins
          (fun x hx d hd v hres => hdisj x hx d (List.mem_cons_of_mem _ hd) v hres) h

/-! ### Association-set exactness: the batch insert/delete writes -/

theorem applyImageCveWrites_mem {env : Env} {ctx : TxCtx} {ins del : List ImageCve}
    {ctx' : TxCtx} (h : applyImageCveWrites env ctx ins del = .ok ctx') :
    ∀ x : ImageCve, x ∈ ctx'.store.imageCves ↔
      (x ∈ ctx.store.imageCves ∨ x ∈ ins) ∧ x ∉ del := by
  rcases applyImageCveWrites_ok_elim h with ⟨ctx₁, hi, hd⟩
  have h1 : ∀ x : ImageCve, x ∈ ctx₁.store.imageCves ↔
      x ∈ ctx.store.imageCves ∨ x ∈ ins := by
    rcases insertImageCves_ok_elim hi with ⟨hemp, rfl⟩ | ⟨ops, hw, rfl⟩
    · have hnil : ins = [] := List.isEmpty_iff.mp hemp
      subst hnil
      intro x
      simp
    · intro x
      show x ∈ ctx.store.imageCves ++ ins ↔ _
      exact List.mem_append
  have h2 : ∀ x : ImageCve, x ∈ ctx'.store.imageCves ↔
      x ∈ ctx₁.store.imageCves ∧ x ∉ del := by
    rcases deleteImageCvesStage_ok_elim hd with ⟨hemp, rfl⟩ | ⟨ops, hw, rfl⟩
    · have hnil : del = [] := List.isEmpty_iff.mp hemp
      subst hnil
      intro x
      simp
    · intro x
      show x ∈ ctx₁.store.imageCves.filter (fun ic => !decide (ic ∈ del)) ↔ _
      rw [List.mem_filter]
      simp
  intro x
  rw [h2 x, h1 x]

theorem applyImageCveWrites_nodup {env : Env} {ctx : TxCtx} {ins del : List ImageCve}
    {ctx' : TxCtx} (h : applyImageCveWrites env ctx ins del = .ok ctx')
    (hpre : ctx.store.imageCves.Nodup) (hins : ins.Nodup)
    (hdisj : ∀ x ∈ ins, x ∉ ctx.store.imageCves) :
    ctx'.store.imageCves.Nodup := by
  rcases applyImageCveWrites_ok_elim h with ⟨ctx₁, hi, hd⟩
  have h1 : ctx₁.store.imageCves.Nodup := by
    rcases insertImageCves_ok_elim hi with ⟨hemp, rfl⟩ | ⟨ops, hw, rfl⟩
    · exact hpre
    · exact hpre.append hins (fun a ha hb => hdisj a hb ha)
  rcases deleteImageCvesStage_ok_elim hd with ⟨hemp, rfl⟩ | ⟨ops, hw, rfl⟩
  · exact h1
  · exact h1.filter _

theorem applyImageCveWrites_frame {env : Env} {ctx : TxCtx} {ins del : List ImageCve}
    {ctx' : TxCtx} (h : applyImageCveWrites env ctx ins del = .ok ctx') :
    ctx'.store.cves = ctx.store.cves ∧
    ctx'.store.images = ctx.store.images ∧
    ctx'.store.repoImages = ctx.store.repoImages ∧
    ctx'.store.nextImageID = ctx.store.nextImageID ∧
    ctx'.store.nextCveID = ctx.store.nextCveID ∧
    ctx'.caches = ctx.caches := by
  rcases applyImageCveWrites_ok_elim h with ⟨ctx₁, hi, hd⟩
  rcases insertImageCves_ok_elim hi with ⟨_, rfl⟩ | ⟨ops, hw, rfl⟩ <;>
    rcases deleteImageCvesStage_ok_elim hd with ⟨_, rfl⟩ | ⟨ops2, hw2, rfl⟩ <;>
      exact ⟨rfl, rfl, rfl, rfl, rfl, rfl⟩

theorem applyRepoImageWrites_mem {env : Env} {ctx : TxCtx} {ins del : List RepositoryImage}
    {ctx' : TxCtx} (h : applyRepoImageWrites env ctx ins del = .ok ctx') :
    ∀ x : RepositoryImage, x ∈ ctx'.store.repoImages ↔
      (x ∈ ctx.store.repoImages ∨ x ∈ ins) ∧ x ∉ del := by
  rcases applyRepoImageWrites_ok_elim h with ⟨ctx₁, hi, hd⟩
  have h1 : ∀ x : RepositoryImage, x ∈ ctx₁.store.repoImages ↔
      x ∈ ctx.store.repoImages ∨ x ∈ ins := by
    rcases insertRepositoryImages_ok_elim hi with ⟨hemp, rfl⟩ | ⟨ops, hw, rfl⟩
    · have hnil : ins = [] := List.isEmpty_iff.mp hemp
      subst hnil
      intro x
      simp
    · intro x
      show x ∈ ctx.store.repoImages ++ ins ↔ _
      exact List.mem_append
  have h2 : ∀ x : RepositoryImage, x ∈ ctx'.store.repoImages ↔
      x ∈ ctx₁.store.repoImages ∧ x ∉ del := by
    rcases deleteRepositoryImagesStage_ok_elim hd with ⟨hemp, rfl⟩ | ⟨ops, hw, rfl⟩
    · have hnil : del = [] := List.isEmpty_iff.mp hemp
      subst hnil
      intro x
      simp
    · intro x
      show x ∈ ctx₁.store.repoImages.filter (fun ri => !decide (ri ∈ del)) ↔ _
      rw [List.mem_filter]
      simp
  intro x
  rw [h2 x, h1 x]

theorem applyRepoImageWrites_nodup {env : Env} {ctx : TxCtx} {ins del : List RepositoryImage}
    {ctx' : TxCtx} (h : applyRepoImageWrites env ctx ins del = .ok ctx')
    (hpre : ctx.store.repoImages.Nodup) (hins : ins.Nodup)
    (hdisj : ∀ x ∈ ins, x ∉ ctx.store.repoImages) :
    ctx'.store.repoImages.Nodup := by
  rcases applyRepoImageWrites_ok_elim h with ⟨ctx₁, hi, hd⟩
  have h1 : ctx₁.store.repoImages.Nodup := by
    rcases insertRepositoryImages_ok_elim hi with ⟨hemp, rfl⟩ | ⟨ops, hw, rfl⟩
    · exact hpre
    · exact hpre.append hins (fun a ha hb => hdisj a hb ha)
  rcases deleteRepositoryImagesStage_ok_elim hd with ⟨hemp, rfl⟩ | ⟨ops, hw, rfl⟩
  · exact h1
  · exact h1.filter _

theorem applyRepoImageWrites_frame {env : Env} {ctx : TxCtx} {ins del : List RepositoryImage}
    {ctx' : TxCtx} (h : applyRepoImageWrites env ctx ins del = .ok ctx') :
    ctx'.store.cves = ctx.store.cves ∧
    ctx'.store.images = ctx.store.images ∧
    ctx'.store.imageCves = ctx.store.imageCves ∧
    ctx'.store.nextImageID = ctx.store.nextImageID ∧
    ctx'.store.nextCveID = ctx.store.nextCveID ∧
    ctx'.caches = ctx.caches := by
  rcases applyRepoImageWrites_ok_elim h with ⟨ctx₁, hi, hd⟩
  rcases insertRepositoryImages_ok_elim hi with ⟨_, rfl⟩ | ⟨ops, hw, rfl⟩ <;>
    rcases deleteRepositoryImagesStage_ok_elim hd with ⟨_, rfl⟩ | ⟨ops2, hw2, rfl⟩ <;>
      exact ⟨rfl, rfl, rfl, rfl, rfl, rfl⟩

/-! ### Association-set exactness: the conflict-free CVE batch insert -/

/-- When no staged name is already stored and the staged names are distinct,
the conflict-tolerant insert appends exactly its returned slice, whose rows
carry fresh distinct identifiers from the id sequence. -/
theorem createCvesOnConflict_fresh_spec :
    ∀ (l : List Cve) (s : Store),
      (∀ cve ∈ l, ∀ r ∈ s.cves, r.name ≠ cve.name) →
      (l.map (fun c => c.name)).Nodup →
      (createCvesOnConflict s l).1.cves = s.cves ++ (createCvesOnConflict s l).2 ∧
      (createCvesOnConflict s l).1.nextCveID = s.nextCveID + l.length ∧
      (∀ c ∈ (createCvesOnConflict s l).2,
        s.nextCveID ≤ c.id ∧ c.id < s.nextCveID + l.length) ∧
      ((createCvesOnConflict s l).2.map (fun c => c.id)).Nodup := by
  intro l
  induction l with
  | nil =>
    intro s hfresh hnodup
    exact ⟨(List.append_nil _).symm, rfl,
      fun c hc => absurd hc (List.not_mem_nil c), List.nodup_nil⟩
  | cons cve rest ih =>
    intro s hfresh hnodup
    have hnotany : ¬(s.cves.any (fun r => r.name == cve.name) = true) := by
      intro hany
      rcases List.any_eq_true.mp hany with ⟨r, hr, hb⟩
      exact hfresh cve (List.mem_cons_self _ _) r hr (by simpa using hb)
    have hfresh' : ∀ c' ∈ rest, ∀ r ∈ (insertCveRow s cve).cves, r.name ≠ c'.name := by
      intro c' hc' r hr
      rcases List.mem_append.mp hr with hr' | hr'
      · exact hfresh c' (List.mem_cons_of_mem _ hc') r hr'
      · rcases List.mem_singleton.mp hr'
        show cve.name ≠ c'.name
        intro heq
        rw [List.map_cons, List.nodup_cons] at hnodup
        exact hnodup.1 (heq ▸ List.mem_map_of_mem (fun c => c.name) hc')
    have hnodup' : (rest.map (fun c => c.name)).Nodup := by
      rw [List.map_cons, List.nodup_cons] at hnodup
      exact hnodup.2
    obtain ⟨ih1, ih2, ih3, ih4⟩ := ih (insertCveRow s cve) hfresh' hnodup'
    have hstep : createCvesOnConflict s (cve :: rest) =
        ((createCvesOnConflict (insertCveRow s cve) rest).1,
          { cve with id := s.nextCveID } ::
            (createCvesOnConflict (insertCveRow s cve) rest).2) := by
      simp [createCvesOnConflict, hnotany]
    rw [hstep]
    refine ⟨?_, ?_, ?_, ?_⟩
    · rw [ih1]
      show (insertCveRow s cve).cves ++ _ = s.cves ++ _
      show (s.cves ++ [{ cve with id := s.nextCveID }]) ++ _ = s.cves ++ _
      rw [List.append_assoc]
      rfl
    · rw [ih2]
      show (insertCveRow s cve).nextCveID + rest.length = s.nextCveID + (rest.length + 1)
      show s.nextCveID + 1 + rest.length = s.nextCveID + (rest.length + 1)
      omega
    · intro c hc
      rcases List.mem_cons.mp hc with rfl | hc'
      · constructor
        · exact Nat.le_refl _
        · show s.nextCveID < s.nextCveID + (rest.length + 1)
          omega
      · have h3 : s.nextCveID + 1 ≤ c.id ∧ c.id < s.nextCveID + 1 + rest.length := ih3 c hc'
        constructor
        · omega
        · show c.id < s.nextCveID + (rest.length + 1)
          omega
    · rw [List.map_cons, List.nodup_cons]
      constructor
      · intro hmem
        rcases List.mem_map.mp hmem with ⟨c, hc, hcid⟩
        have h3 : s.nextCveID + 1 ≤ c.id ∧ c.id < s.nextCveID + 1 + rest.length := ih3 c hc
        have hcid' : c.id = s.nextCveID := hcid
        omega
      · exact ih4

/-- `registerMissingCves` preserves the transaction invariant, resolves every
fetched name, and touches only the CVE table and the pending CVE cache. -/
theorem registerMissingCves_post {env : Env} {ctx : TxCtx} {names : List String} {ctx' : TxCtx}
    (hinv : TxInv ctx) (hnodup : names.Nodup)
    (h : registerMissingCves env ctx names = .ok ctx') :
    TxInv ctx' ∧
    (∀ n ∈ names, (resolveCve ctx'.caches n).isSome) ∧
    ctx'.store.images = ctx.store.images ∧
    ctx'.store.imageCves = ctx.store.imageCves ∧
    ctx'.store.repoImages = ctx.store.repoImages ∧
    ctx'.store.nextImageID = ctx.store.nextImageID ∧
    ctx'.caches.dbImageMap = ctx.caches.dbImageMap ∧
    ctx'.caches.dbImageMapPending = ctx.caches.dbImageMapPending ∧
    ctx.store.cves.Sublist ctx'.store.cves := by
  obtain ⟨hiwf, hcwf, hawf, hcok, hcov, hint⟩ := hinv
  have hres := registerMissingCves_resolves h
  have hframe := registerMissingCves_frame h
  have hsub := registerMissingCves_cves_sublist h
  refine ⟨?_, hres, hframe.2.1, hframe.2.2.1, hframe.2.2.2.1, hframe.2.2.2.2.2.1,
    hframe.2.2.2.2.2.2.2.1, hframe.2.2.2.2.2.2.2.2.2, hsub⟩
  rcases registerMissingCves_ok_elim h with ⟨hemp, rfl⟩ | ⟨hemp, ops, hw, rfl⟩
  · exact ⟨hiwf, hcwf, hawf, hcok, hcov, hint⟩
  · set staged := missingCves ctx.caches names with hstg
    have hfresh : ∀ cve ∈ staged, ∀ r ∈ ctx.store.cves, r.name ≠ cve.name :=
      missingCves_fresh hcov
    have hstgnodup : (staged.map (fun c => c.name)).Nodup :=
      (missingCves_names_sublist _ names).nodup hnodup
    obtain ⟨hcves, hnext, hbounds, hidnodup⟩ :=
      createCvesOnConflict_fresh_spec staged ctx.store hfresh hstgnodup
    have hsnd := createCvesOnConflict_snd_names staged ctx.store
    refine ⟨⟨?_, ?_, ?_⟩, ⟨?_, ?_, ?_, ?_⟩, ⟨?_, ?_⟩, ⟨?_, ?_, ?_, ?_⟩, ?_, ?_⟩
    · rw [hframe.2.1]
      exact hiwf.1
    · rw [hframe.2.1, hframe.2.2.2.2.2.1]
      exact hiwf.2.1
    · rw [hframe.2.2.2.2.2.1]
      exact hiwf.2.2
    · rw [hcves, List.map_append]
      refine hcwf.1.append hidnodup ?_
      intro a ha hb
      rcases List.mem_map.mp ha with ⟨r, hr, rfl⟩
      rcases List.mem_map.mp hb with ⟨r2, hr2, hrid⟩
      have h1 := (hcwf.2.2.1 r hr).2
      have h2 := (hbounds r2 hr2).1
      have hrid' : r2.id = r.id := hrid
      omega
    · rw [hcves, List.map_append]
      refine hcwf.2.1.append (hsnd ▸ hstgnodup) ?_
      intro a ha hb
      rcases List.mem_map.mp ha with ⟨r, hr, rfl⟩
      rw [hsnd] at hb
      rcases List.mem_map.mp hb with ⟨c2, hc2, hcn⟩
      exact hfresh c2 hc2 r hr hcn.symm
    · intro cv hcv
      rw [hcves] at hcv
      rw [hnext]
      rcases List.mem_append.mp hcv with hcv' | hcv'
      · have hb := hcwf.2.2.1 cv hcv'
        omega
      · have h1 := hbounds cv hcv'
        have h2 := hcwf.2.2.2
        omega
    · rw [hnext]
      have h2 := hcwf.2.2.2
      omega
    · rw [hframe.2.2.1]
      exact hawf.1
    · rw [hframe.2.2.2.1]
      exact hawf.2
    · intro q hq
      have hq' : q ∈ ctx.caches.dbImageMap := hq
      obtain ⟨hdig, row, hrow, hrid, hrd⟩ := hcok.1 q hq'
      exact ⟨hdig, row, by rw [hframe.2.1]; exact hrow, hrid, hrd⟩
    · intro q hq
      have hq' : q ∈ ctx.caches.dbImageMapPending := hq
      obtain ⟨hdig, row, hrow, hrid, hrd⟩ := hcok.2.1 q hq'
      exact ⟨hdig, row, by rw [hframe.2.1]; exact hrow, hrid, hrd⟩
    · intro q hq
      have hq' : q ∈ ctx.caches.dbCveMap := hq
      obtain ⟨hname, row, hrow, hrid, hrn⟩ := hcok.2.2.1 q hq'
      exact ⟨hname, row, by rw [hcves]; exact List.mem_append_left _ hrow, hrid, hrn⟩
    · intro q hq
      rcases @mem_foldl_aupsert String Cve _ (fun c => c.name) q
        ((createCvesOnConflict ctx.store staged).2) ctx.caches.dbCveMapPending hq
        with ⟨hmem, hkey⟩ | hold
      · exact ⟨hkey, q.2, by rw [hcves]; exact List.mem_append_right _ hmem, rfl, rfl⟩
      · obtain ⟨hname, row, hrow, hrid, hrn⟩ := hcok.2.2.2 q hold
        exact ⟨hname, row, by rw [hcves]; exact List.mem_append_left _ hrow, hrid, hrn⟩
    · intro row hrow
      have hrow' : row ∈ ctx.store.cves ++ (createCvesOnConflict ctx.store staged).2 := by
        rw [← hcves]
        exact hrow
      rcases List.mem_append.mp hrow' with hold | hnew
      · rcases hcov row hold with hc | hc
        · exact Or.inl hc
        · exact Or.inr (alookup_foldl_aupsert_isSome (Or.inl hc))
      · exact Or.inr (alookup_foldl_aupsert_isSome (Or.inr ⟨row, hnew, rfl⟩))
    · intro ic hic
      have hic' : ic ∈ ctx.store.imageCves := by
        rw [← hframe.2.2.1]
        exact hic
      obtain ⟨cve, hcve, hcid⟩ := hint ic hic'
      exact ⟨cve, by rw [hcves]; exact List.mem_append_left _ hcve, hcid⟩

/-- `upsertImage` preserves the transaction invariant; the returned image is a
stored row with the staged digest and pyxis id, freshly created (sequence id)
or saved in place (its own id); unrelated rows survive. -/
theorem upsertImage_post {env : Env} {ctx : TxCtx} {image : Image} {up : TxCtx × Image}
    (hinv : TxInv ctx) (hst : StagedImgOk ctx.caches image)
    (h : upsertImage env ctx image = .ok up) :
    TxInv up.1 ∧
    up.2 ∈ up.1.store.images ∧
    up.2.digest = image.digest ∧ up.2.pyxisID = image.pyxisID ∧
    ((image.id = 0 ∧ up.2.id = ctx.store.nextImageID) ∨
      (image.id ≠ 0 ∧ up.2.id = image.id)) ∧
    (∀ r ∈ ctx.store.images, r.id ≠ up.2.id → r ∈ up.1.store.images) ∧
    ctx.store.nextImageID ≤ up.1.store.nextImageID ∧
    up.1.store.cves = ctx.store.cves ∧
    up.1.store.imageCves = ctx.store.imageCves ∧
    up.1.store.repoImages = ctx.store.repoImages ∧
    up.1.store.nextCveID = ctx.store.nextCveID ∧
    up.1.caches.dbImageMap = ctx.caches.dbImageMap ∧
    up.1.caches.dbCveMap = ctx.caches.dbCveMap ∧
    up.1.caches.dbCveMapPending = ctx.caches.dbCveMapPending := by
  obtain ⟨hiwf, hcwf, hawf, hcok, hcov, hint⟩ := hinv
  rcases upsertImage_ok_elim h with ⟨ops, hw, ⟨h0, rfl⟩ | ⟨h0, rfl⟩⟩
  · refine ⟨⟨⟨?_, ?_, ?_⟩, hcwf, hawf, ⟨?_, ?_, hcok.2.2.1, hcok.2.2.2⟩, hcov, hint⟩,
      List.mem_append_right _ (List.mem_singleton.mpr rfl), rfl, rfl, Or.inl ⟨h0, rfl⟩,
      fun r hr _ => List.mem_append_left _ hr, Nat.le_succ _,
      rfl, rfl, rfl, rfl, rfl, rfl, rfl⟩
    · show (List.map (fun i => i.id)
        (ctx.store.images ++ [{ image with id := ctx.store.nextImageID }])).Nodup
      rw [List.map_append]
      refine hiwf.1.append (List.nodup_singleton _) ?_
      intro a ha hb
      rcases List.mem_map.mp ha with ⟨r, hr, rfl⟩
      rw [List.map_singleton, List.mem_singleton] at hb
      have hbnd := (hiwf.2.1 r hr).2
      have hb' : r.id = ctx.store.nextImageID := hb
      omega
    · intro i hi
      rcases List.mem_append.mp hi with hi' | hi'
      · have hbnd := hiwf.2.1 i hi'
        show 0 < i.id ∧ i.id < ctx.store.nextImageID + 1
        omega
      · rw [List.mem_singleton] at hi'
        subst hi'
        show 0 < ctx.store.nextImageID ∧ ctx.store.nextImageID < ctx.store.nextImageID + 1
        have h2 := hiwf.2.2
        omega
    · show 0 < ctx.store.nextImageID + 1
      omega
    · intro q hq
      obtain ⟨hdig, row, hrow, hrid, hrd⟩ := hcok.1 q hq
      exact ⟨hdig, row, List.mem_append_left _ hrow, hrid, hrd⟩
    · intro q hq
      rcases mem_aupsert hq with hq' | hq'
      · subst hq'
        exact ⟨rfl, { image with id := ctx.store.nextImageID },
          List.mem_append_right _ (List.mem_singleton.mpr rfl), rfl, rfl⟩
      · obtain ⟨hdig, row, hrow, hrid, hrd⟩ := hcok.2.1 q hq'
        exact ⟨hdig, row, List.mem_append_left _ hrow, hrid, hrd⟩
  · obtain ⟨q₀, hq₀mem, hq₀id, hq₀dig⟩ := hst.2 h0
    obtain ⟨hq₀k, row₀, hrow₀, hrow₀id, hrow₀dig⟩ := hcok.1 q₀ hq₀mem
    have himgmem : image ∈ ctx.store.images.map
        (fun r => if r.id = image.id then image else r) :=
      List.mem_map.mpr ⟨row₀, hrow₀, if_pos (hrow₀id.trans hq₀id)⟩
    refine ⟨⟨⟨?_, ?_, hiwf.2.2⟩, hcwf, hawf, ⟨?_, ?_, hcok.2.2.1, hcok.2.2.2⟩, hcov, hint⟩,
      himgmem, rfl, rfl, Or.inr ⟨h0, rfl⟩,
      fun r hr hne => mem_replace_of_ne image hr hne, Nat.le_refl _,
      rfl, rfl, rfl, rfl, rfl, rfl, rfl⟩
    · show ((ctx.store.images.map (fun r => if r.id = image.id then image else r)).map
        (fun i => i.id)).Nodup
      rw [replace_image_ids]
      exact hiwf.1
    · intro i hi
      rcases mem_replace_forward hi with rfl | ⟨hi', hne⟩
      · have hbnd := hiwf.2.1 row₀ hrow₀
        have hide : row₀.id = i.id := hrow₀id.trans hq₀id
        show 0 < i.id ∧ i.id < ctx.store.nextImageID
        omega
      · have hbnd := hiwf.2.1 i hi'
        show 0 < i.id ∧ i.id < ctx.store.nextImageID
        omega
    · intro q hq
      obtain ⟨hdig, rowq, hrowq, hrowqid, hrowqdig⟩ := hcok.1 q hq
      by_cases hcase : rowq.id = image.id
      · have hre : rowq = row₀ := map_nodup_entry_eq hiwf.1 hrowq hrow₀
          (by rw [hcase, ← hq₀id, ← hrow₀id])
        refine ⟨hdig, image, himgmem, ?_, ?_⟩
        · rw [← hrowqid, hre, hrow₀id, hq₀id]
        · rw [← hrowqdig, hre, hrow₀dig, hq₀dig]
      · exact ⟨hdig, rowq, mem_replace_of_ne image hrowq hcase, hrowqid, hrowqdig⟩
    · intro q hq
      obtain ⟨hdig, rowq, hrowq, hrowqid, hrowqdig⟩ := hcok.2.1 q hq
      by_cases hcase : rowq.id = image.id
      · have hre : rowq = row₀ := map_nodup_entry_eq hiwf.1 hrowq hrow₀
          (by rw [hcase, ← hq₀id, ← hrow₀id])
        refine ⟨hdig, image, himgmem, ?_, ?_⟩
        · rw [← hrowqid, hre, hrow₀id, hq₀id]
        · rw [← hrowqdig, hre, hrow₀dig, hq₀dig]
      · exact ⟨hdig, rowq, mem_replace_of_ne image hrowq hcase, hrowqid, hrowqdig⟩

/-- The CVE-name adapter returns a duplicate-free list. -/
theorem getAPIImageCves_nodup {env : Env} {p : String} {names : List String}
    (h : getAPIImageCves env p = .ok names) : names.Nodup := by
  unfold getAPIImageCves at h
  split at h
  next e heq => cases h
  next ns heq =>
    cases h
    exact akeys_buildMap_nodup

/-- A CVE-set equivalence survives a store extension that keeps the image's
pair set, only appends CVE rows, and keeps CVE ids distinct. -/
theorem cveIff_mono {s s' : Store} {iid : Nat} {names : List String}
    (hsub : s.cves.Sublist s'.cves)
    (hpairs : ∀ k : Nat, (({ imageID := iid, cveID := k } : ImageCve) ∈ s'.imageCves ↔
      ({ imageID := iid, cveID := k } : ImageCve) ∈ s.imageCves))
    (hnodup : (s'.cves.map (fun c => c.id)).Nodup)
    (hint : CveAssocInt s)
    (hiff : CveIff s iid names) : CveIff s' iid names := by
  intro n
  constructor
  · rintro ⟨cve, hcve, hname, hpair⟩
    have hpair' := (hpairs cve.id).mp hpair
    obtain ⟨r, hr, hrid⟩ := hint _ hpair'
    have hr' : r ∈ s'.cves := hsub.mem hr
    have hre : r = cve := map_nodup_entry_eq hnodup hr' hcve hrid
    exact (hiff n).mp ⟨r, hr, by rw [hre]; exact hname, by rw [hrid]; exact hpair'⟩
  · intro hn
    obtain ⟨cve, hcve, hname, hpair⟩ := (hiff n).mpr hn
    exact ⟨cve, hsub.mem hcve, hname, (hpairs cve.id).mpr hpair⟩

/-- `syncImage` preserves the transaction invariant and leaves the synced
image with a stored row whose (image, CVE) association set is exactly the
fetched CVE-name set; every other image's pair set, row and the id sequence
survive. -/
theorem syncImage_post {env : Env} {ctx : TxCtx} {image : Image} {ctx' : TxCtx}
    (hinv : TxInv ctx) (hst : StagedImgOk ctx.caches image)
    (h : syncImage env ctx image = .ok ctx') :
    TxInv ctx' ∧
    ∃ row ∈ ctx'.store.images, row.digest = image.digest ∧ row.pyxisID = image.pyxisID ∧
      ((image.id = 0 ∧ row.id = ctx.store.nextImageID) ∨
        (image.id ≠ 0 ∧ row.id = image.id)) ∧
      (∃ names, getAPIImageCves env image.pyxisID = .ok names ∧
        CveIff ctx'.store row.id names) ∧
      (∀ ic : ImageCve, ic.imageID ≠ row.id →
        (ic ∈ ctx'.store.imageCves ↔ ic ∈ ctx.store.imageCves)) ∧
      (∀ r ∈ ctx.store.images, r.id ≠ row.id → r ∈ ctx'.store.images) ∧
      ctx.store.nextImageID ≤ ctx'.store.nextImageID := by
  rcases syncImage_ok_elim h with ⟨up, names, ctx₂, delta, hu, hn, hr, hd, ha⟩
  obtain ⟨hinv1, hmem1, hdig1, hpyx1, hidc, hsurv1, hmono1, hcves1, hics1, hris1,
    hncv1, hdm1, hcm1, hcp1⟩ := upsertImage_post hinv hst hu
  have hnamesnd : names.Nodup := getAPIImageCves_nodup hn
  obtain ⟨hinv2, hres2, himg2, hics2, hris2, hnii2, hdm2, hdp2, hsub2⟩ :=
    registerMissingCves_post hinv1 hnamesnd hr
  obtain ⟨hiwf2, hcwf2, hawf2, hcok2, hcov2, hint2⟩ := hinv2
  set iid := up.2.id with hiid
  have hkeys0 : (akeys (getDbImageCves ctx₂.store iid)).Nodup :=
    getDbImageCves_keys_nodup hawf2.1 iid
  have hinj : ∀ n1 ∈ names, ∀ n2 ∈ names, ∀ v v', resolveCve ctx₂.caches n1 = some v →
      resolveCve ctx₂.caches n2 = some v' → v.id = v'.id → n1 = n2 :=
    fun n1 _ n2 _ v v' hv hv' hid => resolveCve_inj hcok2 hcwf2.1 hv hv' hid
  obtain ⟨dspec1, dspec2⟩ := imageCveDelta_spec ctx₂.caches iid names []
    (getDbImageCves ctx₂.store iid) delta hkeys0 hnamesnd hinj hd
  have dnodup : delta.1.Nodup := imageCveDelta_ins_nodup ctx₂.caches iid names []
    (getDbImageCves ctx₂.store iid) delta hnamesnd hinj List.nodup_nil
    (fun x hx => absurd hx (List.not_mem_nil x)) hd
  have amem := applyImageCveWrites_mem ha
  obtain ⟨hacv, haim, hari, hanii, hancv, hacaches⟩ := applyImageCveWrites_frame ha
  have hinv' : TxInv ctx' := by
    refine ⟨⟨?_, ?_, ?_⟩, ⟨?_, ?_, ?_, ?_⟩, ⟨?_, ?_⟩, ⟨?_, ?_, ?_, ?_⟩, ?_, ?_⟩
    · rw [haim]
      exact hiwf2.1
    · rw [haim, hanii]
      exact hiwf2.2.1
    · rw [hanii]
      exact hiwf2.2.2
    · rw [hacv]
      exact hcwf2.1
    · rw [hacv]
      exact hcwf2.2.1
    · rw [hacv, hancv]
      exact hcwf2.2.2.1
    · rw [hancv]
      exact hcwf2.2.2.2
    · refine applyImageCveWrites_nodup ha hawf2.1 dnodup ?_
      intro x hx hxs
      rcases (dspec1 x).mp hx with hx0 | ⟨n1, hn1, v, hv, hxv, hnone⟩
      · exact absurd hx0 (List.not_mem_nil x)
      · subst hxv
        have hentry := getDbImageCves_mem_rev hxs rfl
        exact (alookup_eq_none_iff.mp hnone) _ hentry rfl
    · rw [hari]
      exact hawf2.2
    · intro q hq
      rw [hacaches] at hq
      obtain ⟨hdg, row, hrow, hrid, hrd⟩ := hcok2.1 q hq
      exact ⟨hdg, row, by rw [haim]; exact hrow, hrid, hrd⟩
    · intro q hq
      rw [hacaches] at hq
      obtain ⟨hdg, row, hrow, hrid, hrd⟩ := hcok2.2.1 q hq
      exact ⟨hdg, row, by rw [haim]; exact hrow, hrid, hrd⟩
    · intro q hq
      rw [hacaches] at hq
      obtain ⟨hnm, row, hrow, hrid, hrn⟩ := hcok2.2.2.1 q hq
      exact ⟨hnm, row, by rw [hacv]; exact hrow, hrid, hrn⟩
    · intro q hq
      rw [hacaches] at hq
      obtain ⟨hnm, row, hrow, hrid, hrn⟩ := hcok2.2.2.2 q hq
      exact ⟨hnm, row, by rw [hacv]; exact hrow, hrid, hrn⟩
    · intro row hrow
      rw [hacv] at hrow
      rcases hcov2 row hrow with hc | hc
      · exact Or.inl (by rw [hacaches]; exact hc)
      · exact Or.inr (by rw [hacaches]; exact hc)
    · intro ic hic
      rcases (amem ic).mp hic with ⟨hic0 | hic0, hicnd⟩
      · obtain ⟨cve, hcve, hcid⟩ := hint2 ic hic0
        exact ⟨cve, by rw [hacv]; exact hcve, hcid⟩
      · rcases (dspec1 ic).mp hic0 with h0 | ⟨n1, hn1, v, hv, hxv, hnone⟩
        · exact absurd h0 (List.not_mem_nil ic)
        · obtain ⟨hvn, rowv, hrowv, hrvid, hrvn⟩ := resolveCve_name hcok2 hv
          subst hxv
          exact ⟨rowv, by rw [hacv]; exact hrowv, hrvid⟩
  have hrowmem : up.2 ∈ ctx'.store.images := by
    rw [haim, himg2]
    exact hmem1
  have hiff : CveIff ctx'.store iid names := by
    intro nm
    constructor
    · rintro ⟨cve, hcve, hname, hpair⟩
      have hcve2 : cve ∈ ctx₂.store.cves := by
        rw [← hacv]
        exact hcve
      rcases (amem _).mp hpair with ⟨hpre | hins, hnd⟩
      · have hentry := getDbImageCves_mem_rev hpre
          (rfl : ({ imageID := iid, cveID := cve.id } : ImageCve).imageID = iid)
        by_cases hex : ∃ n1 ∈ names, ∃ v, resolveCve ctx₂.caches n1 = some v ∧ v.id = cve.id
        · obtain ⟨n1, hn1, v, hv, hvid⟩ := hex
          obtain ⟨hvn, rowv, hrowv, hrvid, hrvn⟩ := resolveCve_name hcok2 hv
          have hre : rowv = cve := map_nodup_entry_eq hcwf2.1 hrowv hcve2
            (by rw [hrvid, hvid])
          rw [← hname, ← hre, hrvn, hvn]
          exact hn1
        · exfalso
          have hin2 : (cve.id, ({ imageID := iid, cveID := cve.id } : ImageCve)) ∈ delta.2 :=
            (dspec2 _).mpr ⟨hentry, fun n1 hn1 v hv hvid => hex ⟨n1, hn1, v, hv, hvid⟩⟩
          exact hnd (List.mem_map_of_mem (fun p => p.2) hin2)
      · rcases (dspec1 _).mp hins with h0 | ⟨n1, hn1, v, hv, hxv, hnone⟩
        · exact absurd h0 (List.not_mem_nil _)
        · have hvid : v.id = cve.id := (congrArg ImageCve.cveID hxv).symm
          obtain ⟨hvn, rowv, hrowv, hrvid, hrvn⟩ := resolveCve_name hcok2 hv
          have hre : rowv = cve := map_nodup_entry_eq hcwf2.1 hrowv hcve2
            (by rw [hrvid, hvid])
          rw [← hname, ← hre, hrvn, hvn]
          exact hn1
    · intro hnm
      obtain ⟨v, hv⟩ := Option.isSome_iff_exists.mp (hres2 nm hnm)
      obtain ⟨hvn, rowv, hrowv, hrvid, hrvn⟩ := resolveCve_name hcok2 hv
      refine ⟨rowv, by rw [hacv]; exact hrowv, by rw [hrvn, hvn], ?_⟩
      rw [amem _]
      constructor
      · cases hl0 : alookup v.id (getDbImageCves ctx₂.store iid) with
        | none =>
          right
          refine (dspec1 _).mpr (Or.inr ⟨nm, hnm, v, hv, ?_, hl0⟩)
          rw [hrvid]
        | some w =>
          left
          obtain ⟨hw1, hw2, hw3⟩ := getDbImageCves_mem (alookup_mem hl0)
          have hwe : w = { imageID := iid, cveID := rowv.id } :=
            imageCve_ext hw2 (hw3.trans hrvid.symm)
          rw [← hwe]
          exact hw1
      · intro hdel
        rcases List.mem_map.mp hdel with ⟨q, hq, hqe⟩
        obtain ⟨hqdb, hqnone⟩ := (dspec2 q).mp hq
        obtain ⟨hq1, hq2, hq3⟩ := getDbImageCves_mem hqdb
        exact (hqnone nm hnm v hv) (by rw [← hq3, hqe, ← hrvid])
  have hstab : ∀ ic : ImageCve, ic.imageID ≠ iid →
      (ic ∈ ctx'.store.imageCves ↔ ic ∈ ctx.store.imageCves) := by
    intro ic hne
    rw [amem ic]
    constructor
    · rintro ⟨hic0 | hic0, hnd⟩
      · rw [hics2, hics1] at hic0
        exact hic0
      · rcases (dspec1 ic).mp hic0 with h0 | ⟨n1, hn1, v, hv, hxv, _⟩
        · exact absurd h0 (List.not_mem_nil ic)
        · exact absurd (congrArg ImageCve.imageID hxv) hne
    · intro hic0
      refine ⟨Or.inl ?_, ?_⟩
      · rw [hics2, hics1]
        exact hic0
      · intro hdel
        rcases List.mem_map.mp hdel with ⟨q, hq, hqe⟩
        obtain ⟨hq1, hq2, hq3⟩ := getDbImageCves_mem ((dspec2 q).mp hq).1
        exact hne (by rw [← hqe]; exact hq2)
  have hsurv : ∀ r ∈ ctx.store.images, r.id ≠ iid → r ∈ ctx'.store.images := by
    intro r hrm hne
    rw [haim, himg2]
    exact hsurv1 r hrm hne
  have hmono : ctx.store.nextImageID ≤ ctx'.store.nextImageID := by
    rw [hanii, hnii2]
    exact hmono1
  exact ⟨hinv', up.2, hrowmem, hdig1, hpyx1, hidc,
    ⟨names, by rw [← hpyx1]; exact hn, hiff⟩, hstab, hsurv, hmono⟩

/-- The image-sync loop leaves an already-synced image's row and CVE set
untouched when none of the remaining staged digests is its digest. -/
theorem syncImages_preserve {env : Env} :
    ∀ (l : List Image) (ctx ctx' : TxCtx),
      TxInv ctx →
      (∀ i ∈ l, StagedImgOk ctx.caches i) →
      syncImages env ctx l = .ok ctx' →
      ∀ row ∈ ctx.store.images, (∀ i ∈ l, i.digest ≠ row.digest) →
      ∀ names₀, CveIff ctx.store row.id names₀ →
      row ∈ ctx'.store.images ∧ CveIff ctx'.store row.id names₀ := by
  intro l
  induction l with
  | nil =>
    intro ctx ctx' hinv hst h row hrow hdig names₀ hiff
    cases h
    exact ⟨hrow, hiff⟩
  | cons image rest ih =>
    intro ctx ctx' hinv hst h row hrow hdig names₀ hiff
    rcases syncImages_ok_elim h with ⟨ctx₁, h1, h2⟩
    obtain ⟨hinv1, row₀, hrow₀, hdig₀, hpyx₀, hidc₀, hcv₀, hstab₀, hsurv₀, hmono₀⟩ :=
      syncImage_post hinv (hst image (List.mem_cons_self _ _)) h1
    have hne : row.id ≠ row₀.id := by
      rcases hidc₀ with ⟨h0, hid⟩ | ⟨h0, hid⟩
      · have hb := (hinv.1.2.1 row hrow).2
        rw [hid]
        omega
      · intro heq
        obtain ⟨q, hqmem, hqid, hqdig⟩ := (hst image (List.mem_cons_self _ _)).2 h0
        obtain ⟨hqk, rowq, hrowq, hrowqid, hrowqdig⟩ := hinv.2.2.2.1.1 q hqmem
        have hre : row = rowq := map_nodup_entry_eq hinv.1.1 hrow hrowq
          (by rw [heq, hid, ← hqid, ← hrowqid])
        have hde : image.digest = row.digest := by
          rw [hre, hrowqdig, hqdig]
        exact hdig image (List.mem_cons_self _ _) hde
    have hrow1 : row ∈ ctx₁.store.images := hsurv₀ row hrow hne
    have hiff1 : CveIff ctx₁.store row.id names₀ := by
      refine cveIff_mono (syncImage_frame h1).2.2.2.2.2.2 ?_ hinv1.2.1.1
        hinv.2.2.2.2.2 hiff
      intro k
      exact hstab₀ { imageID := row.id, cveID := k } hne
    have hst1 : ∀ i ∈ rest, StagedImgOk ctx₁.caches i := by
      intro i hi
      have hmap := (syncImage_frame h1).2.2.2.2.1
      obtain ⟨ha, hb⟩ := hst i (List.mem_cons_of_mem _ hi)
      constructor
      · intro h0
        rw [hmap]
        exact ha h0
      · intro h0
        obtain ⟨q, hq, hq1, hq2⟩ := hb h0
        exact ⟨q, by rw [hmap]; exact hq, hq1, hq2⟩
    exact ih ctx₁ ctx' hinv1 hst1 h2 row hrow1
      (fun i hi => hdig i (List.mem_cons_of_mem _ hi)) names₀ hiff1

/-- The image-sync loop preserves the transaction invariant and gives every
staged image a stored row whose (image, CVE) association set is exactly its
fetched CVE-name set. -/
theorem syncImages_post {env : Env} :
    ∀ (l : List Image) (ctx ctx' : TxCtx),
      TxInv ctx →
      (∀ i ∈ l, StagedImgOk ctx.caches i) →
      (l.map (fun i => i.digest)).Nodup →
      syncImages env ctx l = .ok ctx' →
      TxInv ctx' ∧
      (∀ i ∈ l, ∃ row ∈ ctx'.store.images, row.digest = i.digest ∧
        row.pyxisID = i.pyxisID ∧
        ∃ names, getAPIImageCves env i.pyxisID = .ok names ∧
          CveIff ctx'.store row.id names) := by
  intro l
  induction l with
  | nil =>
    intro ctx ctx' hinv hst hnd h
    cases h
    exact ⟨hinv, fun i hi => absurd hi (List.not_mem_nil i)⟩
  | cons image rest ih =>
    intro ctx ctx' hinv hst hnd h
    rw [List.map_cons] at hnd
    rcases syncImages_ok_elim h with ⟨ctx₁, h1, h2⟩
    obtain ⟨hinv1, row₀, hrow₀, hdig₀, hpyx₀, hidc₀, hcv₀, hstab₀, hsurv₀, hmono₀⟩ :=
      syncImage_post hinv (hst image (List.mem_cons_self _ _)) h1
    have hst1 : ∀ i ∈ rest, StagedImgOk ctx₁.caches i := by
      intro i hi
      have hmap := (syncImage_frame h1).2.2.2.2.1
      obtain ⟨ha, hb⟩ := hst i (List.mem_cons_of_mem _ hi)
      constructor
      · intro h0
        rw [hmap]
        exact ha h0
      · intro h0
        obtain ⟨q, hq, hq1, hq2⟩ := hb h0
        exact ⟨q, by rw [hmap]; exact hq, hq1, hq2⟩
    obtain ⟨hinv', hrest⟩ := ih ctx₁ ctx' hinv1 hst1 (List.nodup_cons.mp hnd).2 h2
    refine ⟨hinv', ?_⟩
    intro i hi
    rcases List.mem_cons.mp hi with rfl | hi'
    · obtain ⟨names, hn, hiff⟩ := hcv₀
      have hdigs : ∀ i2 ∈ rest, i2.digest ≠ row₀.digest := by
        intro i2 hi2 heq
        have h3 : i2.digest = i.digest := heq.trans hdig₀
        exact (List.nodup_cons.mp hnd).1 (h3 ▸ List.mem_map_of_mem (fun x => x.digest) hi2)
      have hpres := syncImages_preserve rest ctx₁ ctx' hinv1 hst1 h2 row₀ hrow₀ hdigs
        names hiff
      exact ⟨row₀, hpres.1, hdig₀, hpyx₀, names, hn, hpres.2⟩
    · exact hrest i hi'

/-- `upsertRepo` only touches the repository table, so the transaction
invariant transports. -/
theorem upsertRepo_inv {env : Env} {repo : Repository} {committed : Store} {caches : Caches}
    {writeOps : Nat} {up : TxCtx × Repository}
    (hinv : TxInv { store := committed, caches := caches, writeOps := writeOps })
    (h : upsertRepo env repo committed caches writeOps = .ok up) :
    TxInv up.1 ∧ up.1.caches = caches ∧
    up.1.store.images = committed.images ∧ up.1.store.cves = committed.cves ∧
    up.1.store.imageCves = committed.imageCves ∧
    up.1.store.repoImages = committed.repoImages := by
  rcases upsertRepo_ok_elim h with ⟨ops, hw, ⟨h0, rfl⟩ | ⟨h0, rfl⟩⟩
  · exact ⟨hinv, rfl, rfl, rfl, rfl, rfl⟩
  · exact ⟨hinv, rfl, rfl, rfl, rfl, rfl⟩

/-- The images the engine stages against the committed image cache are valid
stagings. -/
theorem stageImages_staged_ok (c : Caches) (am : List (String × ApiImage))
    (hkeys : ∀ p ∈ am, p.2.digest = p.1) (hnodup : (akeys am).Nodup)
    (hcache : ∀ q ∈ c.dbImageMap, q.2.digest = q.1)
    (hpos : ∀ q ∈ c.dbImageMap, 0 < q.2.id) :
    ∀ i ∈ stageImages c am, StagedImgOk c i := by
  intro i hi
  rcases (stageImages_spec c am hkeys hnodup hcache).2.2 i hi with ⟨p, hp, hpk, hcond⟩
  rcases hcond with ⟨hnone, hreq⟩ | ⟨dbImage, hsome, hlt, hreq⟩
  · subst hreq
    constructor
    · intro _
      show alookup p.2.digest c.dbImageMap = none
      rw [hkeys p hp]
      exact hnone
    · intro h0
      exact absurd rfl h0
  · subst hreq
    constructor
    · intro h0
      have hpos' : 0 < dbImage.id := hpos (p.1, dbImage) (alookup_mem hsome)
      have hid : (stagedUpdImage dbImage p.2).id = dbImage.id := rfl
      rw [hid] at h0
      omega
    · intro _
      exact ⟨(p.1, dbImage), alookup_mem hsome, rfl, rfl⟩

/-- **C2**: after a successful repository sync, the stored (repository, image)
association set of the synced repository's row is exactly the externally
fetched digest set — a digest has a stored image row associated to the
repository precisely when it was fetched — and every image staged for syncing
ends with its stored (image, CVE) association set exactly the CVE-name set
fetched for it; the transaction invariant is preserved. -/
theorem association_sets_match_external
    (env : Env) (repo : Repository) (committed : Store) (caches : Caches) (writeOps : Nat)
    (ctx' : TxCtx)
    (hinv : TxInv { store := committed, caches := caches, writeOps := writeOps })
    (h : syncRepo env repo committed caches writeOps = .ok ctx') :
    ∃ up am,
      upsertRepo env repo committed caches writeOps = .ok up ∧
      getAPIRepoImages env up.2.registry up.2.repository = .ok am ∧
      TxInv ctx' ∧
      (∀ d : String,
        (∃ img ∈ ctx'.store.images, img.digest = d ∧
          ({ repositoryID := up.2.id, imageID := img.id } : RepositoryImage) ∈
            ctx'.store.repoImages) ↔
        ∃ q ∈ am, q.1 = d) ∧
      (∀ i ∈ stageImages up.1.caches am, ∃ row ∈ ctx'.store.images,
        row.digest = i.digest ∧ row.pyxisID = i.pyxisID ∧
        ∃ names, getAPIImageCves env i.pyxisID = .ok names ∧
          ∀ n : String, (∃ cve ∈ ctx'.store.cves, cve.name = n ∧
            ({ imageID := row.id, cveID := cve.id } : ImageCve) ∈ ctx'.store.imageCves) ↔
            n ∈ names) := by
  rcases syncRepo_ok_elim h with ⟨up, am, ctx₂, delta, hu, ha, hs, hd, haw⟩
  obtain ⟨hinvu, hcach, himg, hcv, hics, hris⟩ := upsertRepo_inv hinv hu
  obtain ⟨hamkeys, hamnodup⟩ := getAPIRepoImages_keys ha
  have hpos : ∀ q ∈ up.1.caches.dbImageMap, 0 < q.2.id := by
    intro q hq
    obtain ⟨hdg, row, hrow, hrowid, hrd⟩ := hinvu.2.2.2.1.1 q hq
    have hb := (hinvu.1.2.1 row hrow).1
    omega
  have hcachekeys : ∀ q ∈ up.1.caches.dbImageMap, q.2.digest = q.1 :=
    fun q hq => (hinvu.2.2.2.1.1 q hq).1
  have hstok := stageImages_staged_ok up.1.caches am hamkeys hamnodup hcachekeys hpos
  have hstnodup : ((stageImages up.1.caches am).map (fun i => i.digest)).Nodup :=
    (stageImages_digests_sublist up.1.caches am hamkeys hcachekeys).nodup hamnodup
  obtain ⟨hinv2, hperimg⟩ := syncImages_post (stageImages up.1.caches am) up.1 ctx₂
    hinvu hstok hstnodup hs
  obtain ⟨hiwf2, hcwf2, hawf2, hcok2, hcov2, hint2⟩ := hinv2
  set rid := up.2.id with hridd
  have hres : ∀ d ∈ am.map (fun p => p.1), (resolveImage ctx₂.caches d).isSome := by
    intro d hd
    rcases List.mem_map.mp hd with ⟨p, hp, rfl⟩
    rcases stageImages_covers up.1.caches am p hp with hsome | ⟨i, hi, h0, hdg⟩
    · have hmap : ctx₂.caches.dbImageMap = up.1.caches.dbImageMap :=
        (syncImages_frame hs).2.2.2.2.1
      exact resolveImage_isSome (Or.inl (hmap ▸ hsome))
    · have hpend := (syncImages_pend hs).2 i hi h0
      rw [hdg, hamkeys p hp] at hpend
      exact resolveImage_isSome (Or.inr hpend)
  have hkeys0 : (akeys (getDbRepositoryImages ctx₂.store rid)).Nodup :=
    getDbRepositoryImages_keys_nodup hawf2.2 rid
  have hdignodup : (am.map (fun p => p.1)).Nodup := hamnodup
  have hinj : ∀ d1 ∈ am.map (fun p => p.1), ∀ d2 ∈ am.map (fun p => p.1), ∀ v v',
      resolveImage ctx₂.caches d1 = some v → resolveImage ctx₂.caches d2 = some v' →
      v.id = v'.id → d1 = d2 :=
    fun d1 _ d2 _ v v' hv hv' hid => resolveImage_inj hcok2 hiwf2.1 hv hv' hid
  obtain ⟨dspec1, dspec2⟩ := repoImageDelta_spec ctx₂.caches rid (am.map (fun p => p.1)) []
    (getDbRepositoryImages ctx₂.store rid) delta hkeys0 hdignodup hinj hd
  have dnodup : delta.1.Nodup := repoImageDelta_ins_nodup ctx₂.caches rid
    (am.map (fun p => p.1)) [] (getDbRepositoryImages ctx₂.store rid) delta hdignodup hinj
    List.nodup_nil (fun x hx => absurd hx (List.not_mem_nil x)) hd
  have amem := applyRepoImageWrites_mem haw
  obtain ⟨hacv, haim, haics, hanii, hancv, hacaches⟩ := applyRepoImageWrites_frame haw
  have hinv' : TxInv ctx' := by
    refine ⟨⟨?_, ?_, ?_⟩, ⟨?_, ?_, ?_, ?_⟩, ⟨?_, ?_⟩, ⟨?_, ?_, ?_, ?_⟩, ?_, ?_⟩
    · rw [haim]
      exact hiwf2.1
    · rw [haim, hanii]
      exact hiwf2.2.1
    · rw [hanii]
      exact hiwf2.2.2
    · rw [hacv]
      exact hcwf2.1
    · rw [hacv]
      exact hcwf2.2.1
    · rw [hacv, hancv]
      exact hcwf2.2.2.1
    · rw [hancv]
      exact hcwf2.2.2.2
    · rw [haics]
      exact hawf2.1
    · refine applyRepoImageWrites_nodup haw hawf2.2 dnodup ?_
      intro x hx hxs
      rcases (dspec1 x).mp hx with hx0 | ⟨d1, hd1, v, hv, hxv, hnone⟩
      · exact absurd hx0 (List.not_mem_nil x)
      · subst hxv
        have hentry := getDbRepositoryImages_mem_rev hxs rfl
        exact (alookup_eq_none_iff.mp hnone) _ hentry rfl
    · intro q hq
      rw [hacaches] at hq
      obtain ⟨hdg, row, hrow, hrowid, hrd⟩ := hcok2.1 q hq
      exact ⟨hdg, row, by rw [haim]; exact hrow, hrowid, hrd⟩
    · intro q hq
      rw [hacaches] at hq
      obtain ⟨hdg, row, hrow, hrowid, hrd⟩ := hcok2.2.1 q hq
      exact ⟨hdg, row, by rw [haim]; exact hrow, hrowid, hrd⟩
    · intro q hq
      rw [hacaches] at hq
      obtain ⟨hnm, row, hrow, hrowid, hrn⟩ := hcok2.2.2.1 q hq
      exact ⟨hnm, row, by rw [hacv]; exact hrow, hrowid, hrn⟩
    · intro q hq
      rw [hacaches] at hq
      obtain ⟨hnm, row, hrow, hrowid, hrn⟩ := hcok2.2.2.2 q hq
      exact ⟨hnm, row, by rw [hacv]; exact hrow, hrowid, hrn⟩
    · intro row hrow
      rw [hacv] at hrow
      rcases hcov2 row hrow with hc | hc
      · exact Or.inl (by rw [hacaches]; exact hc)
      · exact Or.inr (by rw [hacaches]; exact hc)
    · intro ic hic
      rw [haics] at hic
      obtain ⟨cve, hcve, hcid⟩ := hint2 ic hic
      exact ⟨cve, by rw [hacv]; exact hcve, hcid⟩
  refine ⟨up, am, hu, ha, hinv', ?_, ?_⟩
  · intro d
    constructor
    · rintro ⟨img, himgmem, hdg, hpair⟩
      have himgmem2 : img ∈ ctx₂.store.images := by
        rw [← haim]
        exact himgmem
      rcases (amem _).mp hpair with ⟨hpre | hins, hnd⟩
      · have hentry := getDbRepositoryImages_mem_rev hpre
          (rfl : ({ repositoryID := rid, imageID := img.id } : RepositoryImage).repositoryID
            = rid)
        by_cases hex : ∃ d1 ∈ am.map (fun p => p.1), ∃ v,
            resolveImage ctx₂.caches d1 = some v ∧ v.id = img.id
        · obtain ⟨d1, hd1, v, hv, hvid⟩ := hex
          obtain ⟨hvd, rowv, hrowv, hrvid, hrvd⟩ := resolveImage_digest hcok2 hv
          have hre : rowv = img := map_nodup_entry_eq hiwf2.1 hrowv himgmem2
            (by rw [hrvid, hvid])
          rcases List.mem_map.mp hd1 with ⟨q, hq, hq1⟩
          refine ⟨q, hq, ?_⟩
          rw [hq1, ← hvd, ← hrvd, hre, hdg]
        · exfalso
          have hin2 : (img.id,
              ({ repositoryID := rid, imageID := img.id } : RepositoryImage)) ∈ delta.2 :=
            (dspec2 _).mpr ⟨hentry, fun d1 hd1 v hv hvid => hex ⟨d1, hd1, v, hv, hvid⟩⟩
          exact hnd (List.mem_map_of_mem (fun p => p.2) hin2)
      · rcases (dspec1 _).mp hins with h0 | ⟨d1, hd1, v, hv, hxv, hnone⟩
        · exact absurd h0 (List.not_mem_nil _)
        · have hvid : v.id = img.id := (congrArg RepositoryImage.imageID hxv).symm
          obtain ⟨hvd, rowv, hrowv, hrvid, hrvd⟩ := resolveImage_digest hcok2 hv
          have hre : rowv = img := map_nodup_entry_eq hiwf2.1 hrowv himgmem2
            (by rw [hrvid, hvid])
          rcases List.mem_map.mp hd1 with ⟨q, hq, hq1⟩
          refine ⟨q, hq, ?_⟩
          rw [hq1, ← hvd, ← hrvd, hre, hdg]
    · rintro ⟨q, hq, hq1⟩
      have hd1 : q.1 ∈ am.map (fun p => p.1) := List.mem_map_of_mem (fun p => p.1) hq
      obtain ⟨v, hv⟩ := Option.isSome_iff_exists.mp (hres q.1 hd1)
      obtain ⟨hvd, rowv, hrowv, hrvid, hrvd⟩ := resolveImage_digest hcok2 hv
      refine ⟨rowv, by rw [haim]; exact hrowv, by rw [hrvd, hvd, hq1], ?_⟩
      rw [amem _]
      constructor
      · cases hl0 : alookup v.id (getDbRepositoryImages ctx₂.store rid) with
        | none =>
          right
          refine (dspec1 _).mpr (Or.inr ⟨q.1, hd1, v, hv, ?_, hl0⟩)
          rw [hrvid]
        | some w =>
          left
          obtain ⟨hw1, hw2, hw3⟩ := getDbRepositoryImages_mem (alookup_mem hl0)
          have hwe : w = { repositoryID := rid, imageID := rowv.id } :=
            repositoryImage_ext hw2 (hw3.trans hrvid.symm)
          rw [← hwe]
          exact hw1
      · intro hdel
        rcases List.mem_map.mp hdel with ⟨q2, hq2, hqe⟩
        obtain ⟨hqdb, hqnone⟩ := (dspec2 q2).mp hq2
        obtain ⟨hg1, hg2, hg3⟩ := getDbRepositoryImages_mem hqdb
        exact (hqnone q.1 hd1 v hv) (by rw [← hg3, hqe, ← hrvid])
  · intro i hi
    obtain ⟨row, hrowm, hrd, hrp, names, hn, hiff⟩ := hperimg i hi
    refine ⟨row, by rw [haim]; exact hrowm, hrd, hrp, names, hn, ?_⟩
    intro n
    rw [← hiff n]
    constructor
    · rintro ⟨cve, hcve, hname, hpair⟩
      exact ⟨cve, by rw [← hacv]; exact hcve, hname, by rw [← haics]; exact hpair⟩
    · rintro ⟨cve, hcve, hname, hpair⟩
      exact ⟨cve, by rw [hacv]; exact hcve, hname, by rw [haics]; exact hpair⟩

/-- The committed transaction of `repoA0`'s sync against `storeA`. -/
def ctxRepoA : TxCtx := (syncRepo envA repoA0 storeA (prepareMaps storeA) 0).toOption.getD txA

theorem association_sets_match_external_witness :
    TxInv { store := storeA, caches := prepareMaps storeA, writeOps := 0 } ∧
    syncRepo envA repoA0 storeA (prepareMaps storeA) 0 = .ok ctxRepoA ∧
    (∃ up am,
      upsertRepo envA repoA0 storeA (prepareMaps storeA) 0 = .ok up ∧
      getAPIRepoImages envA up.2.registry up.2.repository = .ok am ∧
      TxInv ctxRepoA ∧
      (∀ d : String,
        (∃ img ∈ ctxRepoA.store.images, img.digest = d ∧
          ({ repositoryID := up.2.id, imageID := img.id } : RepositoryImage) ∈
            ctxRepoA.store.repoImages) ↔
        ∃ q ∈ am, q.1 = d) ∧
      (∀ i ∈ stageImages up.1.caches am, ∃ row ∈ ctxRepoA.store.images,
        row.digest = i.digest ∧ row.pyxisID = i.pyxisID ∧
        ∃ names, getAPIImageCves envA i.pyxisID = .ok names ∧
          ∀ n : String, (∃ cve ∈ ctxRepoA.store.cves, cve.name = n ∧
            ({ imageID := row.id, cveID := cve.id } : ImageCve) ∈
              ctxRepoA.store.imageCves) ↔ n ∈ names)) :=
  ⟨by decide, by decide,
    association_sets_match_external envA repoA0 storeA (prepareMaps storeA) 0 ctxRepoA
      (by decide) (by decide)⟩

theorem pendingBuffer_ids_assigned_witness :
    (alookup "Y" ((upsertImage envA txA { id := 0, pyxisID := "iy", modifiedDate := 7, digest := "Y" }).toOption.getD (txA, { id := 0, pyxisID := "iy", modifiedDate := 7, digest := "Y" })).1.caches.dbImageMapPending =
      some ((upsertImage envA txA { id := 0, pyxisID := "iy", modifiedDate := 7, digest := "Y" }).toOption.getD (txA, { id := 0, pyxisID := "iy", modifiedDate := 7, digest := "Y" })).2 ∧
      ((upsertImage envA txA { id := 0, pyxisID := "iy", modifiedDate := 7, digest := "Y" }).toOption.getD (txA, { id := 0, pyxisID := "iy", modifiedDate := 7, digest := "Y" })).2 ∈
        ((upsertImage envA txA { id := 0, pyxisID := "iy", modifiedDate := 7, digest := "Y" }).toOption.getD (txA, { id := 0, pyxisID := "iy", modifiedDate := 7, digest := "Y" })).1.store.images) ∧
    (∀ p ∈ ctxRegA.caches.dbCveMapPending,
      ∃ row ∈ ctxRegA.store.cves, row.id = p.2.id ∧ row.name = p.2.name) :=
  pendingBuffer_ids_assigned envA txA { id := 0, pyxisID := "iy", modifiedDate := 7, digest := "Y" }
    ((upsertImage envA txA { id := 0, pyxisID := "iy", modifiedDate := 7, digest := "Y" }).toOption.getD (txA, { id := 0, pyxisID := "iy", modifiedDate := 7, digest := "Y" }))
    envA txA ["CVE-9"] ctxRegA
    rfl (by decide) (by decide) (by decide) (by decide) (by decide)

end Pyxis
